import Mathlib

/-!
Verification of the octave-orp client codec and HDLC framing stack.

The definitions below are a shallow embedding of the C sources:
  * `hdlc.c` / `hdlc.h` (CRC-16/CCITT, HDLC pack/unpack state machines),
  * `orpProtocol.c` / `orpProtocol.h` (ORP message codec).

Machine integers are modelled as `Nat` (with explicit masks where the C
code relies on fixed-width wrap-around) or as `Int` where the C uses
signed types.  Buffers are `List Nat`; in-place writes are modelled with
`List.set`.  The `double` timestamp is modelled as an exact decimal value
(seconds plus six fractional digits, the grid that the `%lf` wire format
uses); IEEE-754 rounding is outside the embedding.
-/

/-! ## CRC-16/CCITT (from hdlc.c: init_crcccitt_tab / _crc_ccitt_update) -/

/-- One iteration of the inner `j` loop of `init_crcccitt_tab`.  All
quantities are `uint16_t` in C, hence the `&&& 0xFFFF` masks. -/
def crcRound (p : Nat × Nat) : Nat × Nat :=
  let crc := p.1
  let c := p.2
  let crc2 :=
    if (crc ^^^ c) &&& 0x8000 ≠ 0 then ((crc <<< 1) ^^^ 0x1021) &&& 0xFFFF
    else (crc <<< 1) &&& 0xFFFF
  (crc2, (c <<< 1) &&& 0xFFFF)

/-- Entry `i` of the table built by `init_crcccitt_tab`: eight rounds
starting from `crc = 0`, `c = i << 8`. -/
def crcTabEntry (i : Nat) : Nat :=
  (crcRound (crcRound (crcRound (crcRound
    (crcRound (crcRound (crcRound (crcRound (0, (i <<< 8) &&& 0xFFFF))))))))).1

/-- The function `_crc_ccitt_update` of hdlc.c. -/
def crc_ccitt_update (crc c : Nat) : Nat :=
  ((crc <<< 8) ^^^ crcTabEntry (((crc >>> 8) ^^^ c) &&& 0xFF)) &&& 0xFFFF

/-- Running the CRC update over a list of bytes. -/
def crcFold (crc : Nat) (L : List Nat) : Nat :=
  L.foldl crc_ccitt_update crc

/-! ## HDLC state machine (hdlc.c) -/

/-- The states of `enum hdlc_state` in hdlc.c. -/
inductive HdlcState where
  | init
  | sofSearch
  | sofFound
  | uData
  | escaped
  | packStart
  | packData
  | packEscaped
deriving DecidableEq, Repr

/-- The `hdlc_context_t` record of hdlc.h.  `crcLsb` is `crcbuf[0]`
(`HDLC_FRAM_CRC_LSB`) and `crcMsb` is `crcbuf[1]` (`HDLC_FRAM_CRC_MSB`). -/
structure HdlcCtx where
  state : HdlcState
  count : Nat
  crc : Nat
  crcLsb : Nat
  crcMsb : Nat
deriving DecidableEq, Repr

/-- The context produced by `hdlc_Init`: zeroed, state `HDLC_INIT`,
`crc = CRC_CRC16_CCITT_INIT`. -/
def hdlc_Init : HdlcCtx :=
  { state := HdlcState.init, count := 0, crc := 0xFFFF, crcLsb := 0, crcMsb := 0 }

/-- The error outcomes `HDLC_ERROR_CRC` and `HDLC_ERROR_FRAME` of hdlc.h.
(`HDLC_ERROR_UNSPECIFIED` arises only from a null context pointer, which
has no counterpart in the embedding.) -/
inductive HdlcErr where
  | crc
  | frame
deriving DecidableEq, Repr

/-- One iteration of the `while` loop body of `hdlc_Unpack` on input byte
`b`: the state `switch` (with the `HDLC_INIT` fall-through) followed by
the windowed-emission block.  Returns the new context, the byte emitted
to the destination (if any) and the error raised (if any).  The pack
states hit `LE_FATAL`, which aborts the process; they are modelled as a
stuck no-op and are unreachable in the verified flows. -/
def unpackStep (ctx0 : HdlcCtx) (b : Nat) : HdlcCtx × Option Nat × Option HdlcErr :=
  let ctx := if ctx0.state = HdlcState.init then
    { ctx0 with state := HdlcState.sofSearch, crc := 0xFFFF, count := 0 } else ctx0
  let stepRes : HdlcCtx × Nat × Option HdlcErr :=
    match ctx.state with
    | HdlcState.sofSearch =>
      if b = 0x7E then ({ ctx with state := HdlcState.sofFound }, b, none)
      else (ctx, b, none)
    | HdlcState.sofFound =>
      if b = 0x7E then (ctx, b, none)
      else if b = 0x7D then ({ ctx with state := HdlcState.escaped }, b, none)
      else ({ ctx with state := HdlcState.uData }, b, none)
    | HdlcState.uData =>
      if b = 0x7E then
        let sndr := (ctx.crcMsb <<< 8) + ctx.crcLsb
        if ctx.crc ≠ sndr then ({ ctx with state := HdlcState.init }, b, some HdlcErr.crc)
        else ({ ctx with state := HdlcState.init }, b, none)
      else if b = 0x7D then ({ ctx with state := HdlcState.escaped }, b, none)
      else (ctx, b, none)
    | HdlcState.escaped =>
      if b = 0x7D ∨ b = 0x7E then ({ ctx with state := HdlcState.init }, b, some HdlcErr.frame)
      else ({ ctx with state := HdlcState.uData }, b ^^^ 0x20, none)
    | _ => (ctx, b, none)
  let c1 := stepRes.1
  let d := stepRes.2.1
  let err := stepRes.2.2
  if c1.state = HdlcState.uData then
    if c1.count > 1 then
      ({ c1 with crc := crc_ccitt_update c1.crc c1.crcMsb,
                 crcMsb := c1.crcLsb, crcLsb := d, count := c1.count + 1 },
       some c1.crcMsb, err)
    else
      ({ c1 with crcMsb := c1.crcLsb, crcLsb := d, count := c1.count + 1 }, none, err)
  else (c1, none, err)

/-- The function `hdlc_Unpack` of hdlc.c.  `destRoom` is `destlen` minus
the bytes already in `dest`; the result is the final context, the bytes
appended to `dest`, the count of source bytes consumed (reported through
`*srclen`), and the error reported through a negative return value (if
any).  On error the C code overwrites the emitted-byte count with the
error code; the bytes emitted before the error were nevertheless written
to `dest`, so they are kept in the result here. -/
def hdlc_Unpack (ctx : HdlcCtx) (destRoom : Nat) (src : List Nat) :
    HdlcCtx × List Nat × Nat × Option HdlcErr :=
  match src with
  | [] => (ctx, [], 0, none)
  | b :: rest =>
    if destRoom = 0 then (ctx, [], 0, none)
    else
      match unpackStep ctx b with
      | (ctx1, _, some e) => (ctx1, [], 1, some e)
      | (ctx1, out1, none) =>
        if ctx1.state = HdlcState.init then (ctx1, out1.toList, 1, none)
        else
          match out1 with
          | some x =>
            let r := hdlc_Unpack ctx1 (destRoom - 1) rest
            (r.1, x :: r.2.1, r.2.2.1 + 1, r.2.2.2)
          | none =>
            let r := hdlc_Unpack ctx1 destRoom rest
            (r.1, r.2.1, r.2.2.1 + 1, r.2.2.2)

/-- The function `hdlc_UnpackDone` of hdlc.c. -/
def hdlc_UnpackDone (ctx : HdlcCtx) : Bool :=
  ctx.state = HdlcState.init

/-- The `for` loop of `hdlc_Pack`: each iteration writes exactly one
destination byte, so the recursion is on the remaining destination room.
Returns the final context, the emitted destination bytes, and the
remaining (unconsumed) source bytes. -/
def hdlc_PackLoop (ctx : HdlcCtx) (room : Nat) (src : List Nat) :
    HdlcCtx × List Nat × List Nat :=
  match room, src with
  | 0, s => (ctx, [], s)
  | _ + 1, [] => (ctx, [], [])
  | r + 1, s :: rest =>
    match ctx.state with
    | HdlcState.packStart =>
      let q := hdlc_PackLoop { ctx with state := HdlcState.packData } r (s :: rest)
      (q.1, 0x7E :: q.2.1, q.2.2)
    | HdlcState.packData =>
      let crc2 := crc_ccitt_update ctx.crc s
      if s = 0x7E ∨ s = 0x7D then
        let q := hdlc_PackLoop { ctx with state := HdlcState.packEscaped, crc := crc2 } r (s :: rest)
        (q.1, 0x7D :: q.2.1, q.2.2)
      else
        let q := hdlc_PackLoop { ctx with crc := crc2 } r rest
        (q.1, s :: q.2.1, q.2.2)
    | HdlcState.packEscaped =>
      let q := hdlc_PackLoop { ctx with state := HdlcState.packData } r rest
      (q.1, (s ^^^ 0x20) :: q.2.1, q.2.2)
    | _ => (ctx, [], s :: rest)

/-- The function `hdlc_Pack` of hdlc.c: moves a freshly initialized
context to `PACK_START`, then runs the loop.  Returns the final context,
the emitted frame bytes, and the count of source bytes consumed. -/
def hdlc_Pack (ctx : HdlcCtx) (room : Nat) (src : List Nat) :
    HdlcCtx × List Nat × Nat :=
  let c := if ctx.state = HdlcState.init then { ctx with state := HdlcState.packStart } else ctx
  let q := hdlc_PackLoop c room src
  (q.1, q.2.1, src.length - q.2.2.length)

/-- The function `hdlc_PackFinalize` of hdlc.c: loads the running CRC
into `crcbuf` (`crcbuf[0] = crc >> 8`, `crcbuf[1] = crc & 0xFF`), packs
those two bytes through `hdlc_Pack`, then appends the trailing
`HDLC_FRAME_OCTET` if room remains.  The `Bool` is `false` exactly when
the C code returns `-1` for insufficient space. -/
def hdlc_PackFinalize (ctx : HdlcCtx) (room : Nat) : HdlcCtx × List Nat × Bool :=
  let hi := ctx.crc >>> 8
  let lo := ctx.crc &&& 0xFF
  let ctx2 := { ctx with crcLsb := hi, crcMsb := lo }
  let p := hdlc_Pack ctx2 room [hi, lo]
  let count := p.2.1.length
  if room - count ≠ 0 then (p.1, p.2.1 ++ [0x7E], true)
  else (p.1, p.2.1, false)

/-- Escape expansion of a single payload byte, as performed by the
`PACK_DATA` / `PACK_ESCAPED` states. -/
def escape1 (b : Nat) : List Nat :=
  if b = 0x7E ∨ b = 0x7D then [0x7D, b ^^^ 0x20] else [b]

/-- Escape expansion of a byte list. -/
def escapeList (L : List Nat) : List Nat :=
  (L.map escape1).flatten

/-- The complete frame that the packer produces for payload `B`: leading
flag, escape expansion of the payload followed by the CRC trailer
(high byte first, as `hdlc_PackFinalize` loads `crcbuf`), trailing flag. -/
def hdlcFrame (B : List Nat) : List Nat :=
  0x7E :: escapeList (B ++ [crcFold 0xFFFF B >>> 8, crcFold 0xFFFF B &&& 0xFF]) ++ [0x7E]

/-! ## HDLC packing lemmas -/

theorem escapeList_append (L M : List Nat) :
    escapeList (L ++ M) = escapeList L ++ escapeList M := by
  simp [escapeList]


theorem escape1_length_le (b : Nat) : (escape1 b).length ≤ 2 := by
  by_cases hb : b = 0x7E ∨ b = 0x7D <;> simp [escape1, hb]

theorem escape1_length_ge (b : Nat) : 1 ≤ (escape1 b).length := by
  by_cases hb : b = 0x7E ∨ b = 0x7D <;> simp [escape1, hb]

theorem escapeList_length_le (L : List Nat) : (escapeList L).length ≤ 2 * L.length := by
  induction L with
  | nil => simp [escapeList]
  | cons b rest ih =>
    have h1 := escape1_length_le b
    simp only [escapeList, List.map_cons, List.flatten_cons, List.length_append,
      List.length_cons] at *
    omega

theorem escapeList_length_ge (L : List Nat) : L.length ≤ (escapeList L).length := by
  induction L with
  | nil => simp [escapeList]
  | cons b rest ih =>
    have h1 := escape1_length_ge b
    simp only [escapeList, List.map_cons, List.flatten_cons, List.length_append,
      List.length_cons] at *
    omega

/-- Running the pack loop from `PACK_DATA` with enough destination room
consumes the whole source, emits its escape expansion, and folds the
source into the CRC. -/
theorem packLoop_data_run (B : List Nat) : ∀ (cnt crc lsb msb room : Nat),
    2 * B.length ≤ room →
    hdlc_PackLoop ⟨HdlcState.packData, cnt, crc, lsb, msb⟩ room B =
      (⟨HdlcState.packData, cnt, crcFold crc B, lsb, msb⟩, escapeList B, []) := by
  induction B with
  | nil =>
    intro cnt crc lsb msb room _
    cases room <;> simp [hdlc_PackLoop, crcFold, escapeList]
  | cons b rest ih =>
    intro cnt crc lsb msb room h
    obtain ⟨r, rfl⟩ : ∃ r, room = r + 1 := ⟨room - 1, by simp at h; omega⟩
    by_cases hb : b = 0x7E ∨ b = 0x7D
    · obtain ⟨r', rfl⟩ : ∃ r', r = r' + 1 := ⟨r - 1, by simp at h; omega⟩
      rcases hb with rfl | rfl <;>
      · simp only [hdlc_PackLoop]
        norm_num
        rw [ih _ _ _ _ r' (by simp at h; omega)]
        simp [escapeList, escape1, crcFold]
    · have hb1 : b ≠ 0x7E := fun hc => hb (Or.inl hc)
      have hb2 : b ≠ 0x7D := fun hc => hb (Or.inr hc)
      simp only [hdlc_PackLoop, hb1, hb2, or_self, if_false]
      rw [ih _ _ _ _ r (by simp at h; omega)]
      simp [escapeList, escape1, hb1, hb2, crcFold]

/-- Running the pack loop from `PACK_START` on a nonempty source: the
leading flag is emitted, then the source is escaped as from `PACK_DATA`. -/
theorem packLoop_start_run (B : List Nat) (hB : B ≠ []) (cnt crc lsb msb room : Nat)
    (h : 2 * B.length + 1 ≤ room) :
    hdlc_PackLoop ⟨HdlcState.packStart, cnt, crc, lsb, msb⟩ room B =
      (⟨HdlcState.packData, cnt, crcFold crc B, lsb, msb⟩, 0x7E :: escapeList B, []) := by
  obtain ⟨r, rfl⟩ : ∃ r, room = r + 1 := ⟨room - 1, by omega⟩
  obtain ⟨b, rest, rfl⟩ : ∃ b rest, B = b :: rest := by
    cases B with
    | nil => exact absurd rfl hB
    | cons b rest => exact ⟨b, rest, rfl⟩
  simp only [hdlc_PackLoop]
  rw [packLoop_data_run _ _ _ _ _ r (by simp at h ⊢; omega)]

/-- Composite shape of the frame produced by `hdlc_Pack` from a fresh
context followed by `hdlc_PackFinalize`, with enough room in the
destination: the concatenated output is exactly `hdlcFrame B`, the whole
payload is consumed, and finalization succeeds. -/
theorem hdlc_encode_frame (B : List Nat) (r1 r2 : Nat) (h1 : 2 * B.length + 1 ≤ r1)
    (h2 : 6 ≤ r2) :
    (hdlc_Pack hdlc_Init r1 B).2.1 ++ (hdlc_PackFinalize (hdlc_Pack hdlc_Init r1 B).1 r2).2.1 =
      hdlcFrame B ∧
    (hdlc_Pack hdlc_Init r1 B).2.2 = B.length ∧
    (hdlc_PackFinalize (hdlc_Pack hdlc_Init r1 B).1 r2).2.2 = true := by
  cases B with
  | nil =>
    obtain ⟨a, rfl⟩ : ∃ a, r1 = a + 1 := ⟨r1 - 1, by omega⟩
    have hp : hdlc_Pack hdlc_Init (a + 1) [] =
        (⟨HdlcState.packStart, 0, 0xFFFF, 0, 0⟩, [], 0) := by
      simp [hdlc_Pack, hdlc_Init, hdlc_PackLoop]
    rw [hp]
    have e1 : (65535 : Nat) >>> 8 = 255 := by decide
    have e2 : (65535 : Nat) &&& 255 = 255 := by decide
    have hrun := packLoop_start_run [255, 255] (by simp) 0 0xFFFF 255 255 r2
      (by simp; omega)
    rw [show escapeList [255, 255] = [255, 255] from by decide] at hrun
    have hfin : hdlc_PackFinalize ⟨HdlcState.packStart, 0, 0xFFFF, 0, 0⟩ r2 =
        (⟨HdlcState.packData, 0, crcFold 0xFFFF [255, 255], 255, 255⟩,
          [0x7E, 255, 255, 0x7E], true) := by
      simp only [hdlc_PackFinalize, hdlc_Pack, e1, e2]
      simp only [show (HdlcState.packStart = HdlcState.init) = False from by simp, if_false]
      rw [hrun]
      have h3 : r2 - 3 ≠ 0 := by omega
      simp [h3]
    rw [hfin]
    refine ⟨?_, rfl, rfl⟩
    rw [show hdlcFrame [] = [0x7E, 255, 255, 0x7E] from by decide]
    simp
  | cons b0 rest0 =>
    set B := b0 :: rest0 with hBdef
    have hBne : B ≠ [] := by simp [hBdef]
    have hp : hdlc_Pack hdlc_Init r1 B =
        (⟨HdlcState.packData, 0, crcFold 0xFFFF B, 0, 0⟩, 0x7E :: escapeList B, B.length) := by
      simp only [hdlc_Pack, hdlc_Init]
      simp only [show (HdlcState.init = HdlcState.init) = True from by simp, if_true]
      rw [packLoop_start_run B hBne 0 0xFFFF 0 0 r1 h1]
      simp
    rw [hp]
    have hlen2 : (escapeList [crcFold 0xFFFF B >>> 8, crcFold 0xFFFF B &&& 255]).length ≤ 4 := by
      have := escapeList_length_le [crcFold 0xFFFF B >>> 8, crcFold 0xFFFF B &&& 255]
      simpa using this
    have hfin : hdlc_PackFinalize ⟨HdlcState.packData, 0, crcFold 0xFFFF B, 0, 0⟩ r2 =
        (⟨HdlcState.packData, 0,
            crcFold (crcFold 0xFFFF B) [crcFold 0xFFFF B >>> 8, crcFold 0xFFFF B &&& 255],
            crcFold 0xFFFF B >>> 8, crcFold 0xFFFF B &&& 255⟩,
          escapeList [crcFold 0xFFFF B >>> 8, crcFold 0xFFFF B &&& 255] ++ [0x7E], true) := by
      simp only [hdlc_PackFinalize, hdlc_Pack]
      simp only [show (HdlcState.packData = HdlcState.init) = False from by simp, if_false]
      rw [packLoop_data_run [crcFold 0xFFFF B >>> 8, crcFold 0xFFFF B &&& 255] 0
        (crcFold 0xFFFF B) (crcFold 0xFFFF B >>> 8) (crcFold 0xFFFF B &&& 255) r2
        (by simp; omega)]
      have h3 : r2 - (escapeList [crcFold 0xFFFF B >>> 8, crcFold 0xFFFF B &&& 255]).length ≠ 0 := by
        omega
      simp [h3]
    rw [hfin]
    refine ⟨?_, by simp, rfl⟩
    simp [hdlcFrame, escapeList_append]

/-! ## HDLC unpacking lemmas -/

/-- The windowed-emission block of `hdlc_Unpack` viewed as a pure
operation on the context: buffer the incoming unescaped byte, release
(and CRC-fold) the oldest buffered byte once more than two bytes have
been seen. -/
def pushCtx (ctx : HdlcCtx) (u : Nat) : HdlcCtx × Option Nat :=
  if ctx.count > 1 then
    ({ ctx with crc := crc_ccitt_update ctx.crc ctx.crcMsb,
                crcMsb := ctx.crcLsb, crcLsb := u, count := ctx.count + 1 },
     some ctx.crcMsb)
  else
    ({ ctx with crcMsb := ctx.crcLsb, crcLsb := u, count := ctx.count + 1 }, none)

/-- Folding `pushCtx` over a list of unescaped bytes, forcing the state
to `UNPACK_DATA` at each step (as the deframer does when it accepts a
data byte). -/
def pushAll (ctx : HdlcCtx) (U : List Nat) : HdlcCtx × List Nat :=
  match U with
  | [] => (ctx, [])
  | u :: rest =>
    let p := pushCtx { ctx with state := HdlcState.uData } u
    let q := pushAll p.1 rest
    (q.1, p.2.toList ++ q.2)

theorem unpackStep_plain (st : HdlcState)
    (hst : st = HdlcState.sofFound ∨ st = HdlcState.uData)
    (cnt crc lsb msb b : Nat) (hb1 : b ≠ 0x7E) (hb2 : b ≠ 0x7D) :
    unpackStep ⟨st, cnt, crc, lsb, msb⟩ b =
      ((pushCtx ⟨HdlcState.uData, cnt, crc, lsb, msb⟩ b).1,
       (pushCtx ⟨HdlcState.uData, cnt, crc, lsb, msb⟩ b).2, none) := by
  rcases hst with rfl | rfl <;>
  · by_cases hc : cnt > 1 <;> simp [unpackStep, pushCtx, hb1, hb2, hc]

theorem unpackStep_escByte (st : HdlcState)
    (hst : st = HdlcState.sofFound ∨ st = HdlcState.uData)
    (cnt crc lsb msb : Nat) :
    unpackStep ⟨st, cnt, crc, lsb, msb⟩ 0x7D =
      (⟨HdlcState.escaped, cnt, crc, lsb, msb⟩, none, none) := by
  rcases hst with rfl | rfl <;> simp [unpackStep]

theorem unpackStep_escaped (cnt crc lsb msb x : Nat) (hx1 : x ≠ 0x7E) (hx2 : x ≠ 0x7D) :
    unpackStep ⟨HdlcState.escaped, cnt, crc, lsb, msb⟩ x =
      ((pushCtx ⟨HdlcState.uData, cnt, crc, lsb, msb⟩ (x ^^^ 0x20)).1,
       (pushCtx ⟨HdlcState.uData, cnt, crc, lsb, msb⟩ (x ^^^ 0x20)).2, none) := by
  by_cases hc : cnt > 1 <;> simp [unpackStep, pushCtx, hx1, hx2, hc]

theorem unpack_cons_emit (ctx ctx1 : HdlcCtx) (b x : Nat) (rest : List Nat) (room : Nat)
    (h : unpackStep ctx b = (ctx1, some x, none)) (hs : ctx1.state ≠ HdlcState.init)
    (hr : room ≠ 0) :
    hdlc_Unpack ctx room (b :: rest) =
      ((hdlc_Unpack ctx1 (room - 1) rest).1,
       x :: (hdlc_Unpack ctx1 (room - 1) rest).2.1,
       (hdlc_Unpack ctx1 (room - 1) rest).2.2.1 + 1,
       (hdlc_Unpack ctx1 (room - 1) rest).2.2.2) := by
  rw [hdlc_Unpack]
  simp [h, hs, hr]

theorem unpack_cons_skip (ctx ctx1 : HdlcCtx) (b : Nat) (rest : List Nat) (room : Nat)
    (h : unpackStep ctx b = (ctx1, none, none)) (hs : ctx1.state ≠ HdlcState.init)
    (hr : room ≠ 0) :
    hdlc_Unpack ctx room (b :: rest) =
      ((hdlc_Unpack ctx1 room rest).1,
       (hdlc_Unpack ctx1 room rest).2.1,
       (hdlc_Unpack ctx1 room rest).2.2.1 + 1,
       (hdlc_Unpack ctx1 room rest).2.2.2) := by
  rw [hdlc_Unpack]
  simp [h, hs, hr]

theorem crcFold_cons (c a : Nat) (l : List Nat) :
    crcFold c (a :: l) = crcFold (crc_ccitt_update c a) l := rfl

/-- Pushing a stream through a window that already holds two buffered
bytes: the emitted bytes are the first `Z.length` elements of the
virtual stream `msb :: lsb :: Z`, the CRC folds exactly those bytes, and
the window ends holding the last two elements of the virtual stream. -/
theorem pushAll_window (Z : List Nat) : ∀ (st : HdlcState) (cnt crc lsb msb : Nat),
    2 ≤ cnt →
    pushAll ⟨st, cnt, crc, lsb, msb⟩ Z =
      (⟨if Z.isEmpty then st else HdlcState.uData, cnt + Z.length,
        crcFold crc ((msb :: lsb :: Z).take Z.length),
        (msb :: lsb :: Z).getD (Z.length + 1) 0,
        (msb :: lsb :: Z).getD Z.length 0⟩,
       (msb :: lsb :: Z).take Z.length) := by
  induction Z with
  | nil =>
    intro st cnt crc lsb msb _
    simp [pushAll, crcFold]
  | cons z Z' ih =>
    intro st cnt crc lsb msb hcnt
    have hgt : cnt > 1 := hcnt
    rw [pushAll]
    simp only [pushCtx, hgt, if_true]
    rw [ih HdlcState.uData (cnt + 1) (crc_ccitt_update crc msb) z lsb (by omega)]
    simp only [List.isEmpty_cons, List.length_cons, List.take_succ_cons, List.getD_cons_succ,
      crcFold_cons, Option.toList_some, List.cons_append, List.nil_append]
    have h1 : (if Z'.isEmpty = true then HdlcState.uData else HdlcState.uData) =
        HdlcState.uData := by
      split <;> rfl
    simp only [h1, Bool.false_eq_true, if_false, Prod.mk.injEq, HdlcCtx.mk.injEq]
    norm_num
    omega

/-- Pushing a stream of length at least two through a fresh window
(`count = 0`): everything but the last two bytes is emitted and folded
into the CRC; the window ends holding the last two bytes. -/
theorem pushAll_fresh (U : List Nat) (h2 : 2 ≤ U.length) (st : HdlcState) (crc lsb msb : Nat) :
    pushAll ⟨st, 0, crc, lsb, msb⟩ U =
      (⟨HdlcState.uData, U.length, crcFold crc (U.take (U.length - 2)),
        U.getD (U.length - 1) 0, U.getD (U.length - 2) 0⟩,
       U.take (U.length - 2)) := by
  obtain ⟨x, y, Z, rfl⟩ : ∃ x y Z, U = x :: y :: Z := by
    match U, h2 with
    | x :: y :: Z, _ => exact ⟨x, y, Z, rfl⟩
  have s1 : pushAll ⟨st, 0, crc, lsb, msb⟩ (x :: y :: Z) =
      pushAll ⟨HdlcState.uData, 1, crc, x, lsb⟩ (y :: Z) := by
    simp [pushAll, pushCtx]
  have s2 : pushAll ⟨HdlcState.uData, 1, crc, x, lsb⟩ (y :: Z) =
      pushAll ⟨HdlcState.uData, 2, crc, y, x⟩ Z := by
    simp [pushAll, pushCtx]
  rw [s1, s2, pushAll_window Z HdlcState.uData 2 crc y x (by omega)]
  have h1 : (if Z.isEmpty = true then HdlcState.uData else HdlcState.uData) =
      HdlcState.uData := by
    split <;> rfl
  simp only [h1, List.length_cons, Prod.mk.injEq, HdlcCtx.mk.injEq]
  have e1 : Z.length + 1 + 1 - 2 = Z.length := by omega
  have e2 : Z.length + 1 + 1 - 1 = Z.length + 1 := by omega
  rw [e1, e2]
  simp only [List.take_succ_cons, List.getD_cons_succ, List.getD_cons_zero]
  norm_num
  omega

/-- Feeding the escape expansion of a byte list `U` (followed by any
tail) to the deframer from a mid-frame state is exactly `pushAll` on `U`
followed by processing the tail: no byte of an escape expansion can
terminate the frame or raise an error. -/
theorem unpack_escaped_run (U : List Nat) :
    ∀ (st : HdlcState) (cnt crc lsb msb : Nat) (tail : List Nat) (room : Nat),
    (st = HdlcState.sofFound ∨ st = HdlcState.uData) →
    (escapeList U).length + tail.length ≤ room →
    hdlc_Unpack ⟨st, cnt, crc, lsb, msb⟩ room (escapeList U ++ tail) =
      ((hdlc_Unpack (pushAll ⟨st, cnt, crc, lsb, msb⟩ U).1
          (room - (pushAll ⟨st, cnt, crc, lsb, msb⟩ U).2.length) tail).1,
       (pushAll ⟨st, cnt, crc, lsb, msb⟩ U).2 ++
         (hdlc_Unpack (pushAll ⟨st, cnt, crc, lsb, msb⟩ U).1
           (room - (pushAll ⟨st, cnt, crc, lsb, msb⟩ U).2.length) tail).2.1,
       (escapeList U).length +
         (hdlc_Unpack (pushAll ⟨st, cnt, crc, lsb, msb⟩ U).1
           (room - (pushAll ⟨st, cnt, crc, lsb, msb⟩ U).2.length) tail).2.2.1,
       (hdlc_Unpack (pushAll ⟨st, cnt, crc, lsb, msb⟩ U).1
         (room - (pushAll ⟨st, cnt, crc, lsb, msb⟩ U).2.length) tail).2.2.2) := by
  induction U with
  | nil =>
    intro st cnt crc lsb msb tail room _ _
    simp [escapeList, pushAll]
  | cons u rest ih =>
    intro st cnt crc lsb msb tail room hst hroom
    have hexp : escapeList (u :: rest) = escape1 u ++ escapeList rest := by
      simp [escapeList]
    by_cases hu : u = 0x7E ∨ u = 0x7D
    · -- escaped byte: two source bytes 0x7D, u ^^^ 0x20
      have hx1 : (u ^^^ 0x20) ≠ 0x7E := by rcases hu with rfl | rfl <;> decide
      have hx2 : (u ^^^ 0x20) ≠ 0x7D := by rcases hu with rfl | rfl <;> decide
      have hxx : (u ^^^ 0x20) ^^^ 0x20 = u := Nat.xor_cancel_right 0x20 u
      have hesc : escape1 u = [0x7D, u ^^^ 0x20] := by simp [escape1, hu]
      have hlen : (escapeList (u :: rest)).length = 2 + (escapeList rest).length := by
        rw [hexp, hesc]
        simp
        omega
      have hr0 : room ≠ 0 := by omega
      have step1 := unpackStep_escByte st hst cnt crc lsb msb
      have lhs1 : hdlc_Unpack ⟨st, cnt, crc, lsb, msb⟩ room (escapeList (u :: rest) ++ tail) =
          hdlc_Unpack ⟨st, cnt, crc, lsb, msb⟩ room
            (0x7D :: (u ^^^ 0x20) :: (escapeList rest ++ tail)) := by
        rw [hexp, hesc]
        simp
      rw [lhs1, unpack_cons_skip _ _ _ _ _ step1 (by simp) hr0]
      have step2 := unpackStep_escaped cnt crc lsb msb (u ^^^ 0x20) hx1 hx2
      rw [hxx] at step2
      by_cases hcnt : cnt > 1
      · have hP : pushCtx ⟨HdlcState.uData, cnt, crc, lsb, msb⟩ u =
            (⟨HdlcState.uData, cnt + 1, crc_ccitt_update crc msb, u, lsb⟩, some msb) := by
          simp [pushCtx, hcnt]
        rw [hP] at step2
        rw [unpack_cons_emit _ _ _ _ _ _ step2 (by simp) hr0]
        have hRA : pushAll ⟨st, cnt, crc, lsb, msb⟩ (u :: rest) =
            ((pushAll ⟨HdlcState.uData, cnt + 1, crc_ccitt_update crc msb, u, lsb⟩ rest).1,
             msb :: (pushAll ⟨HdlcState.uData, cnt + 1, crc_ccitt_update crc msb, u, lsb⟩ rest).2) := by
          rw [pushAll]
          simp [hP]
        have hPA1 : (pushAll ⟨st, cnt, crc, lsb, msb⟩ (u :: rest)).1 =
            (pushAll ⟨HdlcState.uData, cnt + 1, crc_ccitt_update crc msb, u, lsb⟩ rest).1 := by
          rw [hRA]
        have hPA2 : (pushAll ⟨st, cnt, crc, lsb, msb⟩ (u :: rest)).2 =
            msb :: (pushAll ⟨HdlcState.uData, cnt + 1, crc_ccitt_update crc msb, u, lsb⟩ rest).2 := by
          rw [hRA]
        rw [ih HdlcState.uData (cnt + 1) (crc_ccitt_update crc msb) u lsb tail (room - 1)
          (Or.inr rfl) (by omega), hPA1, hPA2, hlen]
        have earith : room - 1 -
            (pushAll ⟨HdlcState.uData, cnt + 1, crc_ccitt_update crc msb, u, lsb⟩ rest).2.length =
            room - (msb ::
              (pushAll ⟨HdlcState.uData, cnt + 1, crc_ccitt_update crc msb, u, lsb⟩ rest).2).length := by
          simp
          omega
        rw [earith]
        refine congrArg₂ Prod.mk rfl (congrArg₂ Prod.mk (by simp) (congrArg₂ Prod.mk (by simp; omega) (by simp)))
      · have hP : pushCtx ⟨HdlcState.uData, cnt, crc, lsb, msb⟩ u =
            (⟨HdlcState.uData, cnt + 1, crc, u, lsb⟩, none) := by
          simp [pushCtx, hcnt]
        rw [hP] at step2
        rw [unpack_cons_skip _ _ _ _ _ step2 (by simp) hr0]
        have hRA : pushAll ⟨st, cnt, crc, lsb, msb⟩ (u :: rest) =
            ((pushAll ⟨HdlcState.uData, cnt + 1, crc, u, lsb⟩ rest).1,
             (pushAll ⟨HdlcState.uData, cnt + 1, crc, u, lsb⟩ rest).2) := by
          rw [pushAll]
          simp [hP]
        have hPA1 : (pushAll ⟨st, cnt, crc, lsb, msb⟩ (u :: rest)).1 =
            (pushAll ⟨HdlcState.uData, cnt + 1, crc, u, lsb⟩ rest).1 := by
          rw [hRA]
        have hPA2 : (pushAll ⟨st, cnt, crc, lsb, msb⟩ (u :: rest)).2 =
            (pushAll ⟨HdlcState.uData, cnt + 1, crc, u, lsb⟩ rest).2 := by
          rw [hRA]
        rw [ih HdlcState.uData (cnt + 1) crc u lsb tail room (Or.inr rfl) (by omega),
          hPA1, hPA2, hlen]
        refine congrArg₂ Prod.mk rfl (congrArg₂ Prod.mk (by simp) (congrArg₂ Prod.mk (by simp; omega) (by simp)))
    · -- plain byte
      have hu1 : u ≠ 0x7E := fun hc => hu (Or.inl hc)
      have hu2 : u ≠ 0x7D := fun hc => hu (Or.inr hc)
      have hesc : escape1 u = [u] := by simp [escape1, hu1, hu2]
      have hlen : (escapeList (u :: rest)).length = 1 + (escapeList rest).length := by
        rw [hexp, hesc]
        simp
        omega
      have hr0 : room ≠ 0 := by omega
      have lhs1 : hdlc_Unpack ⟨st, cnt, crc, lsb, msb⟩ room (escapeList (u :: rest) ++ tail) =
          hdlc_Unpack ⟨st, cnt, crc, lsb, msb⟩ room (u :: (escapeList rest ++ tail)) := by
        rw [hexp, hesc]
        simp
      have step1 := unpackStep_plain st hst cnt crc lsb msb u hu1 hu2
      by_cases hcnt : cnt > 1
      · have hP : pushCtx ⟨HdlcState.uData, cnt, crc, lsb, msb⟩ u =
            (⟨HdlcState.uData, cnt + 1, crc_ccitt_update crc msb, u, lsb⟩, some msb) := by
          simp [pushCtx, hcnt]
        rw [hP] at step1
        rw [lhs1, unpack_cons_emit _ _ _ _ _ _ step1 (by simp) hr0]
        have hRA : pushAll ⟨st, cnt, crc, lsb, msb⟩ (u :: rest) =
            ((pushAll ⟨HdlcState.uData, cnt + 1, crc_ccitt_update crc msb, u, lsb⟩ rest).1,
             msb :: (pushAll ⟨HdlcState.uData, cnt + 1, crc_ccitt_update crc msb, u, lsb⟩ rest).2) := by
          rw [pushAll]
          simp [hP]
        have hPA1 : (pushAll ⟨st, cnt, crc, lsb, msb⟩ (u :: rest)).1 =
            (pushAll ⟨HdlcState.uData, cnt + 1, crc_ccitt_update crc msb, u, lsb⟩ rest).1 := by
          rw [hRA]
        have hPA2 : (pushAll ⟨st, cnt, crc, lsb, msb⟩ (u :: rest)).2 =
            msb :: (pushAll ⟨HdlcState.uData, cnt + 1, crc_ccitt_update crc msb, u, lsb⟩ rest).2 := by
          rw [hRA]
        rw [ih HdlcState.uData (cnt + 1) (crc_ccitt_update crc msb) u lsb tail (room - 1)
          (Or.inr rfl) (by omega), hPA1, hPA2, hlen]
        have earith : room - 1 -
            (pushAll ⟨HdlcState.uData, cnt + 1, crc_ccitt_update crc msb, u, lsb⟩ rest).2.length =
            room - (msb ::
              (pushAll ⟨HdlcState.uData, cnt + 1, crc_ccitt_update crc msb, u, lsb⟩ rest).2).length := by
          simp
          omega
        rw [earith]
        refine congrArg₂ Prod.mk rfl (congrArg₂ Prod.mk (by simp) (congrArg₂ Prod.mk (by simp; omega) (by simp)))
      · have hP : pushCtx ⟨HdlcState.uData, cnt, crc, lsb, msb⟩ u =
            (⟨HdlcState.uData, cnt + 1, crc, u, lsb⟩, none) := by
          simp [pushCtx, hcnt]
        rw [hP] at step1
        rw [lhs1, unpack_cons_skip _ _ _ _ _ step1 (by simp) hr0]
        have hRA : pushAll ⟨st, cnt, crc, lsb, msb⟩ (u :: rest) =
            ((pushAll ⟨HdlcState.uData, cnt + 1, crc, u, lsb⟩ rest).1,
             (pushAll ⟨HdlcState.uData, cnt + 1, crc, u, lsb⟩ rest).2) := by
          rw [pushAll]
          simp [hP]
        have hPA1 : (pushAll ⟨st, cnt, crc, lsb, msb⟩ (u :: rest)).1 =
            (pushAll ⟨HdlcState.uData, cnt + 1, crc, u, lsb⟩ rest).1 := by
          rw [hRA]
        have hPA2 : (pushAll ⟨st, cnt, crc, lsb, msb⟩ (u :: rest)).2 =
            (pushAll ⟨HdlcState.uData, cnt + 1, crc, u, lsb⟩ rest).2 := by
          rw [hRA]
        rw [ih HdlcState.uData (cnt + 1) crc u lsb tail room (Or.inr rfl) (by omega),
          hPA1, hPA2, hlen]
        refine congrArg₂ Prod.mk rfl (congrArg₂ Prod.mk (by simp) (congrArg₂ Prod.mk (by simp; omega) (by simp)))

theorem unpack_open (room : Nat) (rest : List Nat) (hr : room ≠ 0) :
    hdlc_Unpack hdlc_Init room (0x7E :: rest) =
      ((hdlc_Unpack ⟨HdlcState.sofFound, 0, 0xFFFF, 0, 0⟩ room rest).1,
       (hdlc_Unpack ⟨HdlcState.sofFound, 0, 0xFFFF, 0, 0⟩ room rest).2.1,
       (hdlc_Unpack ⟨HdlcState.sofFound, 0, 0xFFFF, 0, 0⟩ room rest).2.2.1 + 1,
       (hdlc_Unpack ⟨HdlcState.sofFound, 0, 0xFFFF, 0, 0⟩ room rest).2.2.2) := by
  have hstep : unpackStep hdlc_Init 0x7E =
      (⟨HdlcState.sofFound, 0, 0xFFFF, 0, 0⟩, none, none) := by
    decide
  exact unpack_cons_skip _ _ _ _ _ hstep (by simp) hr

theorem unpack_close (cnt crc lsb msb room : Nat) (hr : room ≠ 0)
    (hcrc : crc = (msb <<< 8) + lsb) :
    hdlc_Unpack ⟨HdlcState.uData, cnt, crc, lsb, msb⟩ room [0x7E] =
      (⟨HdlcState.init, cnt, crc, lsb, msb⟩, [], 1, none) := by
  have hstep : unpackStep ⟨HdlcState.uData, cnt, crc, lsb, msb⟩ 0x7E =
      (⟨HdlcState.init, cnt, crc, lsb, msb⟩, none, none) := by
    simp [unpackStep, hcrc]
  rw [hdlc_Unpack]
  simp [hstep, hr]

theorem crc_reassemble (n : Nat) : ((n >>> 8) <<< 8) + (n &&& 255) = n := by
  have h1 := Nat.and_pow_two_sub_one_eq_mod n 8
  have h2 := Nat.shiftRight_eq_div_pow n 8
  have h3 := Nat.shiftLeft_eq (n >>> 8) 8
  norm_num at h1 h2 h3
  omega

/-- Unpacking a complete frame `hdlcFrame B` from a freshly initialized
context: exactly the payload `B` is emitted, the whole frame (trailing
flag included) is consumed, no error is reported, and the context
returns to `HDLC_INIT` with the running CRC equal to the CRC of the
payload and the window holding the received CRC trailer. -/
theorem unpack_frame (B : List Nat) (room : Nat) (hroom : (hdlcFrame B).length ≤ room) :
    hdlc_Unpack hdlc_Init room (hdlcFrame B) =
      (⟨HdlcState.init, B.length + 2, crcFold 0xFFFF B,
        crcFold 0xFFFF B &&& 255, crcFold 0xFFFF B >>> 8⟩,
       B, (hdlcFrame B).length, none) := by
  have hframe : hdlcFrame B =
      0x7E :: (escapeList (B ++ [crcFold 0xFFFF B >>> 8, crcFold 0xFFFF B &&& 255]) ++ [0x7E]) := by
    simp [hdlcFrame]
  have hflen : (hdlcFrame B).length =
      (escapeList (B ++ [crcFold 0xFFFF B >>> 8, crcFold 0xFFFF B &&& 255])).length + 2 := by
    rw [hframe]
    simp
  have hUlen : (B ++ [crcFold 0xFFFF B >>> 8, crcFold 0xFFFF B &&& 255]).length = B.length + 2 := by
    simp
  have hr0 : room ≠ 0 := by omega
  rw [hframe, unpack_open room _ hr0]
  rw [unpack_escaped_run (B ++ [crcFold 0xFFFF B >>> 8, crcFold 0xFFFF B &&& 255])
    HdlcState.sofFound 0 0xFFFF 0 0 [0x7E] room (Or.inl rfl) (by simp at hflen ⊢; omega)]
  rw [pushAll_fresh (B ++ [crcFold 0xFFFF B >>> 8, crcFold 0xFFFF B &&& 255]) (by simp) _ _ _ _]
  rw [hUlen]
  have htake : (B ++ [crcFold 0xFFFF B >>> 8, crcFold 0xFFFF B &&& 255]).take (B.length + 2 - 2) =
      B := by
    have : B.length + 2 - 2 = B.length := by omega
    rw [this]
    exact List.take_left B _
  have hget1 : (B ++ [crcFold 0xFFFF B >>> 8, crcFold 0xFFFF B &&& 255]).getD
      (B.length + 2 - 1) 0 = crcFold 0xFFFF B &&& 255 := by
    have e : B.length + 2 - 1 = B.length + 1 := by omega
    rw [e, List.getD_append_right _ _ _ _ (by omega)]
    simp
  have hget2 : (B ++ [crcFold 0xFFFF B >>> 8, crcFold 0xFFFF B &&& 255]).getD
      (B.length + 2 - 2) 0 = crcFold 0xFFFF B >>> 8 := by
    have e : B.length + 2 - 2 = B.length := by omega
    rw [e, List.getD_append_right _ _ _ _ (by omega)]
    simp
  rw [htake, hget1, hget2]
  rw [unpack_close (B.length + 2) (crcFold 0xFFFF B)
    (crcFold 0xFFFF B &&& 255) (crcFold 0xFFFF B >>> 8) (room - B.length)
    (by
      have h := escapeList_length_ge (B ++ [crcFold 0xFFFF B >>> 8, crcFold 0xFFFF B &&& 255])
      simp at h
      omega)
    (by rw [crc_reassemble])]
  refine congrArg₂ Prod.mk (by simp) (congrArg₂ Prod.mk (by simp)
    (congrArg₂ Prod.mk (by simp) (by simp)))

/-- C1: For every byte sequence `B` that fits in the destination
buffers, HDLC-encoding `B` (`hdlc_Init`, then `hdlc_Pack` over all of
`B`, then `hdlc_PackFinalize`) and feeding the resulting frame to
`hdlc_Unpack` with a freshly initialized context emits exactly `B`,
reports no CRC or framing error, and leaves `hdlc_UnpackDone` true; the
CRC computed by the deframer at end-of-frame equals the trailing CRC
written by the finalizer (held in the two-byte window), including when
`B` contains 0x7E or 0x7D bytes. -/
theorem hdlc_roundtrip_c1 (B : List Nat) (hB : ∀ b ∈ B, b < 256) (r1 r2 r3 : Nat)
    (h1 : 2 * B.length + 1 ≤ r1) (h2 : 6 ≤ r2) (h3 : 2 * B.length + 6 ≤ r3) :
    (hdlc_Pack hdlc_Init r1 B).2.2 = B.length ∧
    (hdlc_PackFinalize (hdlc_Pack hdlc_Init r1 B).1 r2).2.2 = true ∧
    (hdlc_Unpack hdlc_Init r3 ((hdlc_Pack hdlc_Init r1 B).2.1 ++
      (hdlc_PackFinalize (hdlc_Pack hdlc_Init r1 B).1 r2).2.1)).2.1 = B ∧
    (hdlc_Unpack hdlc_Init r3 ((hdlc_Pack hdlc_Init r1 B).2.1 ++
      (hdlc_PackFinalize (hdlc_Pack hdlc_Init r1 B).1 r2).2.1)).2.2.2 = none ∧
    hdlc_UnpackDone (hdlc_Unpack hdlc_Init r3 ((hdlc_Pack hdlc_Init r1 B).2.1 ++
      (hdlc_PackFinalize (hdlc_Pack hdlc_Init r1 B).1 r2).2.1)).1 = true ∧
    (hdlc_Unpack hdlc_Init r3 ((hdlc_Pack hdlc_Init r1 B).2.1 ++
      (hdlc_PackFinalize (hdlc_Pack hdlc_Init r1 B).1 r2).2.1)).1.crc =
      ((hdlc_Unpack hdlc_Init r3 ((hdlc_Pack hdlc_Init r1 B).2.1 ++
        (hdlc_PackFinalize (hdlc_Pack hdlc_Init r1 B).1 r2).2.1)).1.crcMsb <<< 8) +
      (hdlc_Unpack hdlc_Init r3 ((hdlc_Pack hdlc_Init r1 B).2.1 ++
        (hdlc_PackFinalize (hdlc_Pack hdlc_Init r1 B).1 r2).2.1)).1.crcLsb := by
  obtain ⟨hcat, hcons, hfin⟩ := hdlc_encode_frame B r1 r2 h1 h2
  have hlen : (hdlcFrame B).length ≤ r3 := by
    have h := escapeList_length_le (B ++ [crcFold 0xFFFF B >>> 8, crcFold 0xFFFF B &&& 255])
    simp only [hdlcFrame, List.length_cons, List.length_append, List.length_singleton] at h ⊢
    simp at h ⊢
    omega
  rw [hcat, unpack_frame B r3 hlen]
  refine ⟨hcons, hfin, rfl, rfl, by simp [hdlc_UnpackDone], ?_⟩
  simp only []
  exact (crc_reassemble (crcFold 0xFFFF B)).symm

/-- Witness for `hdlc_roundtrip_c1` at the payload
`[0x12, 0x7E, 0x7D, 0x41]`, which contains both bytes needing escapes. -/
theorem hdlc_roundtrip_c1_witness :
    (∀ b ∈ [0x12, 0x7E, 0x7D, 0x41], b < 256) ∧
    (hdlc_Pack hdlc_Init 9 [0x12, 0x7E, 0x7D, 0x41]).2.2 = 4 ∧
    (hdlc_Unpack hdlc_Init 14 ((hdlc_Pack hdlc_Init 9 [0x12, 0x7E, 0x7D, 0x41]).2.1 ++
      (hdlc_PackFinalize (hdlc_Pack hdlc_Init 9 [0x12, 0x7E, 0x7D, 0x41]).1 6).2.1)).2.1 =
      [0x12, 0x7E, 0x7D, 0x41] ∧
    (hdlc_Unpack hdlc_Init 14 ((hdlc_Pack hdlc_Init 9 [0x12, 0x7E, 0x7D, 0x41]).2.1 ++
      (hdlc_PackFinalize (hdlc_Pack hdlc_Init 9 [0x12, 0x7E, 0x7D, 0x41]).1 6).2.1)).2.2.2 =
      none ∧
    hdlc_UnpackDone (hdlc_Unpack hdlc_Init 14 ((hdlc_Pack hdlc_Init 9
      [0x12, 0x7E, 0x7D, 0x41]).2.1 ++
      (hdlc_PackFinalize (hdlc_Pack hdlc_Init 9 [0x12, 0x7E, 0x7D, 0x41]).1 6).2.1)).1 = true := by
  have h := hdlc_roundtrip_c1 [0x12, 0x7E, 0x7D, 0x41] (by decide) 9 6 14
    (by decide) (by decide) (by decide)
  exact ⟨by decide, h.1, h.2.2.1, h.2.2.2.1, h.2.2.2.2.1⟩

theorem unpack_nil (c : HdlcCtx) (r : Nat) : hdlc_Unpack c r [] = (c, [], 0, none) := rfl

/-- Compositionality of `hdlc_Unpack` across an input split: if a call
consumed its whole input without error and did not end mid-completion
(or one side of the split is empty), then processing the concatenation
equals processing the parts in sequence against the same context and
remaining destination room. -/
theorem unpack_append (xs : List Nat) : ∀ (ctx : HdlcCtx) (room : Nat) (ys : List Nat),
    (hdlc_Unpack ctx room xs).2.2.2 = none →
    (hdlc_Unpack ctx room xs).2.2.1 = xs.length →
    ((hdlc_Unpack ctx room xs).1.state ≠ HdlcState.init ∨ xs = [] ∨ ys = []) →
    hdlc_Unpack ctx room (xs ++ ys) =
      ((hdlc_Unpack (hdlc_Unpack ctx room xs).1
          (room - (hdlc_Unpack ctx room xs).2.1.length) ys).1,
       (hdlc_Unpack ctx room xs).2.1 ++
         (hdlc_Unpack (hdlc_Unpack ctx room xs).1
           (room - (hdlc_Unpack ctx room xs).2.1.length) ys).2.1,
       xs.length +
         (hdlc_Unpack (hdlc_Unpack ctx room xs).1
           (room - (hdlc_Unpack ctx room xs).2.1.length) ys).2.2.1,
       (hdlc_Unpack (hdlc_Unpack ctx room xs).1
         (room - (hdlc_Unpack ctx room xs).2.1.length) ys).2.2.2) := by
  induction xs with
  | nil =>
    intro ctx room ys _ _ _
    simp [hdlc_Unpack]
  | cons x xs' ih =>
    intro ctx room ys He He2 Hs
    have hroom : room ≠ 0 := by
      intro h0
      rw [h0, hdlc_Unpack] at He2
      simp at He2
    rcases hstep : unpackStep ctx x with ⟨ctx1, out1, err⟩
    cases err with
    | some e =>
      rw [hdlc_Unpack] at He
      simp [hstep, hroom] at He
    | none =>
      by_cases hinit : ctx1.state = HdlcState.init
      · rw [hdlc_Unpack] at He2
        simp [hstep, hroom, hinit] at He2
        have hxs' : xs' = [] := by
          cases xs' with
          | nil => rfl
          | cons a l => simp at He2
        subst hxs'
        have hys : ys = [] := by
          rcases Hs with h | h | h
          · exfalso
            apply h
            rw [hdlc_Unpack]
            simp [hstep, hroom, hinit]
          · simp at h
          · exact h
        subst hys
        simp [hdlc_Unpack, hstep, hroom, hinit]
      · rcases out1 with _ | v
        · -- no byte emitted at x
          have hxsrun : hdlc_Unpack ctx room (x :: xs') =
              ((hdlc_Unpack ctx1 room xs').1, (hdlc_Unpack ctx1 room xs').2.1,
               (hdlc_Unpack ctx1 room xs').2.2.1 + 1, (hdlc_Unpack ctx1 room xs').2.2.2) :=
            unpack_cons_skip _ _ _ _ _ hstep hinit hroom
          have hgoalrun : hdlc_Unpack ctx room (x :: (xs' ++ ys)) =
              ((hdlc_Unpack ctx1 room (xs' ++ ys)).1, (hdlc_Unpack ctx1 room (xs' ++ ys)).2.1,
               (hdlc_Unpack ctx1 room (xs' ++ ys)).2.2.1 + 1,
               (hdlc_Unpack ctx1 room (xs' ++ ys)).2.2.2) :=
            unpack_cons_skip _ _ _ _ _ hstep hinit hroom
          rw [hxsrun] at He He2 Hs ⊢
          simp only [List.length_cons] at He2
          by_cases hys : ys = []
          · subst hys
            rw [List.append_nil, hxsrun]
            simp only [unpack_nil]
            refine congrArg₂ Prod.mk rfl (congrArg₂ Prod.mk (by simp)
              (congrArg₂ Prod.mk (by simp; omega) (by simpa using He)))
          · have hstate : (hdlc_Unpack ctx1 room xs').1.state ≠ HdlcState.init := by
              rcases Hs with h | h | h
              · exact h
              · simp at h
              · exact absurd h hys
            have := ih ctx1 room ys He (by omega) (Or.inl hstate)
            rw [List.cons_append, hgoalrun, this]
            refine congrArg₂ Prod.mk rfl (congrArg₂ Prod.mk rfl
              (congrArg₂ Prod.mk (by simp; omega) (by simpa using He)))
        · -- byte v emitted at x
          have hxsrun : hdlc_Unpack ctx room (x :: xs') =
              ((hdlc_Unpack ctx1 (room - 1) xs').1,
               v :: (hdlc_Unpack ctx1 (room - 1) xs').2.1,
               (hdlc_Unpack ctx1 (room - 1) xs').2.2.1 + 1,
               (hdlc_Unpack ctx1 (room - 1) xs').2.2.2) :=
            unpack_cons_emit _ _ _ _ _ _ hstep hinit hroom
          have hgoalrun : hdlc_Unpack ctx room (x :: (xs' ++ ys)) =
              ((hdlc_Unpack ctx1 (room - 1) (xs' ++ ys)).1,
               v :: (hdlc_Unpack ctx1 (room - 1) (xs' ++ ys)).2.1,
               (hdlc_Unpack ctx1 (room - 1) (xs' ++ ys)).2.2.1 + 1,
               (hdlc_Unpack ctx1 (room - 1) (xs' ++ ys)).2.2.2) :=
            unpack_cons_emit _ _ _ _ _ _ hstep hinit hroom
          rw [hxsrun] at He He2 Hs ⊢
          simp only [List.length_cons] at He2
          by_cases hys : ys = []
          · subst hys
            rw [List.append_nil, hxsrun]
            simp only [unpack_nil]
            refine congrArg₂ Prod.mk rfl (congrArg₂ Prod.mk (by simp)
              (congrArg₂ Prod.mk (by simp; omega) (by simpa using He)))
          · have hstate : (hdlc_Unpack ctx1 (room - 1) xs').1.state ≠ HdlcState.init := by
              rcases Hs with h | h | h
              · exact h
              · simp at h
              · exact absurd h hys
            have := ih ctx1 (room - 1) ys He (by omega) (Or.inl hstate)
            rw [List.cons_append, hgoalrun, this]
            have earith : room - 1 - (hdlc_Unpack ctx1 (room - 1) xs').2.1.length =
                room - (v :: (hdlc_Unpack ctx1 (room - 1) xs').2.1).length := by
              simp
              omega
            rw [earith]
            refine congrArg₂ Prod.mk rfl (congrArg₂ Prod.mk (by simp)
              (congrArg₂ Prod.mk (by simp; omega) (by simpa using He)))

theorem pushAll_state (W : List Nat) : ∀ (ctx : HdlcCtx),
    (pushAll ctx W).1.state = if W.isEmpty then ctx.state else HdlcState.uData := by
  induction W with
  | nil => intro ctx; simp [pushAll]
  | cons w W' ih =>
    intro ctx
    rw [pushAll]
    simp only [List.isEmpty_cons]
    rw [ih]
    by_cases hw : W'.isEmpty
    · simp [hw, pushCtx]
      by_cases hc : ctx.count > 1 <;> simp [hc]
    · simp [hw]

theorem pushAll_out_len (W : List Nat) : ∀ (ctx : HdlcCtx),
    (pushAll ctx W).2.length ≤ W.length := by
  induction W with
  | nil => intro ctx; simp [pushAll]
  | cons w W' ih =>
    intro ctx
    rw [pushAll]
    simp only [List.length_append, List.length_cons]
    have h1 : (pushCtx { ctx with state := HdlcState.uData } w).2.toList.length ≤ 1 := by
      by_cases hc : ctx.count > 1 <;> simp [pushCtx, hc]
    have h2 := ih (pushCtx { ctx with state := HdlcState.uData } w).1
    omega

/-- Any prefix of an escape expansion splits at a payload-byte boundary,
possibly dangling a lone escape octet from a split escape pair. -/
theorem escapeList_take_split (U : List Nat) : ∀ (j : Nat), j ≤ (escapeList U).length →
    (∃ W V, U = W ++ V ∧ (escapeList U).take j = escapeList W ∧
      j = (escapeList W).length) ∨
    (∃ W v V', U = W ++ v :: V' ∧ (v = 0x7E ∨ v = 0x7D) ∧
      (escapeList U).take j = escapeList W ++ [0x7D] ∧
      j = (escapeList W).length + 1) := by
  induction U with
  | nil =>
    intro j hj
    left
    refine ⟨[], [], by simp, ?_, ?_⟩ <;> simp_all [escapeList]
  | cons u rest ih =>
    intro j hj
    have hexp : escapeList (u :: rest) = escape1 u ++ escapeList rest := by
      simp [escapeList]
    by_cases hj0 : j = 0
    · left
      exact ⟨[], u :: rest, by simp, by simp [hj0, escapeList], by simp [hj0, escapeList]⟩
    · by_cases hu : u = 0x7E ∨ u = 0x7D
      · have hesc : escape1 u = [0x7D, u ^^^ 0x20] := by simp [escape1, hu]
        by_cases hj1 : j = 1
        · right
          refine ⟨[], u, rest, by simp, hu, ?_, ?_⟩
          · rw [hexp, hesc, hj1]
            simp [escapeList]
          · simp [hj1, escapeList]
        · obtain ⟨j', rfl⟩ : ∃ j', j = j' + 2 := ⟨j - 2, by omega⟩
          have hj' : j' ≤ (escapeList rest).length := by
            rw [hexp, hesc] at hj
            simp at hj
            omega
          rcases ih j' hj' with ⟨W, V, hUV, htake, hlen⟩ | ⟨W, v, V', hUV, hv, htake, hlen⟩
          · left
            refine ⟨u :: W, V, by simp [hUV], ?_, ?_⟩
            · rw [hexp, hesc]
              have : escapeList (u :: W) = [0x7D, u ^^^ 0x20] ++ escapeList W := by
                simp [escapeList, escape1, hu]
              rw [this, ← htake]
              simp
            · have : escapeList (u :: W) = [0x7D, u ^^^ 0x20] ++ escapeList W := by
                simp [escapeList, escape1, hu]
              rw [this]
              simp
              omega
          · right
            refine ⟨u :: W, v, V', by simp [hUV], hv, ?_, ?_⟩
            · rw [hexp, hesc]
              have he : escapeList (u :: W) = [0x7D, u ^^^ 0x20] ++ escapeList W := by
                simp [escapeList, escape1, hu]
              have ht2 : List.take (j' + 2) ([0x7D, u ^^^ 0x20] ++ escapeList rest) =
                  [0x7D, u ^^^ 0x20] ++ List.take j' (escapeList rest) := by
                simp [List.take_succ_cons]
              rw [ht2, htake, he]
              simp
            · have he : escapeList (u :: W) = [0x7D, u ^^^ 0x20] ++ escapeList W := by
                simp [escapeList, escape1, hu]
              rw [he]
              simp
              omega
      · have hesc : escape1 u = [u] := by simp [escape1, hu]
        obtain ⟨j', rfl⟩ : ∃ j', j = j' + 1 := ⟨j - 1, by omega⟩
        have hj' : j' ≤ (escapeList rest).length := by
          rw [hexp, hesc] at hj
          simp at hj
          omega
        rcases ih j' hj' with ⟨W, V, hUV, htake, hlen⟩ | ⟨W, v, V', hUV, hv, htake, hlen⟩
        · left
          refine ⟨u :: W, V, by simp [hUV], ?_, ?_⟩
          · rw [hexp, hesc]
            have : escapeList (u :: W) = [u] ++ escapeList W := by
              simp [escapeList, escape1, hu]
            rw [this, ← htake]
            simp
          · have : escapeList (u :: W) = [u] ++ escapeList W := by
              simp [escapeList, escape1, hu]
            rw [this]
            simp
            omega
        · right
          refine ⟨u :: W, v, V', by simp [hUV], hv, ?_, ?_⟩
          · rw [hexp, hesc]
            have he : escapeList (u :: W) = [u] ++ escapeList W := by
              simp [escapeList, escape1, hu]
            have ht2 : List.take (j' + 1) ([u] ++ escapeList rest) =
                [u] ++ List.take j' (escapeList rest) := by
              simp [List.take_succ_cons]
            rw [ht2, htake, he]
            simp
          · have he : escapeList (u :: W) = [u] ++ escapeList W := by
              simp [escapeList, escape1, hu]
            rw [he]
            simp
            omega

theorem unpackStep_escByte' (ctx : HdlcCtx)
    (hst : ctx.state = HdlcState.sofFound ∨ ctx.state = HdlcState.uData) :
    unpackStep ctx 0x7D = ({ ctx with state := HdlcState.escaped }, none, none) := by
  obtain ⟨st, cnt, crc, lsb, msb⟩ := ctx
  simp only at hst
  exact unpackStep_escByte st hst cnt crc lsb msb

theorem pushAll_state_ne_init (W : List Nat) (ctx : HdlcCtx)
    (hst : ctx.state = HdlcState.sofFound ∨ ctx.state = HdlcState.uData) :
    (pushAll ctx W).1.state = HdlcState.sofFound ∨
    (pushAll ctx W).1.state = HdlcState.uData := by
  rw [pushAll_state]
  by_cases hw : W.isEmpty <;> simp [hw, hst]

/-- Every proper nonempty prefix of a frame is consumed in full with no
error, leaving the deframer mid-frame (state not `HDLC_INIT`). -/
theorem frame_prefix_run (B : List Nat) (room k : Nat)
    (hroom : (hdlcFrame B).length ≤ room) (hk1 : 1 ≤ k) (hk2 : k < (hdlcFrame B).length) :
    (hdlc_Unpack hdlc_Init room ((hdlcFrame B).take k)).2.2.1 = k ∧
    (hdlc_Unpack hdlc_Init room ((hdlcFrame B).take k)).2.2.2 = none ∧
    (hdlc_Unpack hdlc_Init room ((hdlcFrame B).take k)).1.state ≠ HdlcState.init := by
  have hframe : hdlcFrame B =
      0x7E :: (escapeList (B ++ [crcFold 0xFFFF B >>> 8, crcFold 0xFFFF B &&& 255]) ++ [0x7E]) := by
    simp [hdlcFrame]
  have hflen : (hdlcFrame B).length =
      (escapeList (B ++ [crcFold 0xFFFF B >>> 8, crcFold 0xFFFF B &&& 255])).length + 2 := by
    rw [hframe]
    simp
  have hkle : k - 1 ≤ (escapeList (B ++ [crcFold 0xFFFF B >>> 8, crcFold 0xFFFF B &&& 255])).length := by
    omega
  have htk : (hdlcFrame B).take k =
      0x7E :: (escapeList (B ++ [crcFold 0xFFFF B >>> 8, crcFold 0xFFFF B &&& 255])).take (k - 1) := by
    rw [hframe]
    obtain ⟨k', rfl⟩ : ∃ k', k = k' + 1 := ⟨k - 1, by omega⟩
    rw [List.take_succ_cons]
    rw [List.take_append_of_le_length (by omega)]
    simp
  have hr0 : room ≠ 0 := by omega
  rw [htk]
  rcases escapeList_take_split _ (k - 1) hkle with
    ⟨W, V, hUV, htake, hlen⟩ | ⟨W, v, V', hUV, hv, htake, hlen⟩
  · -- prefix ends at a payload-byte boundary
    rw [htake]
    have hWlen : (escapeList W).length ≤
        (escapeList (B ++ [crcFold 0xFFFF B >>> 8, crcFold 0xFFFF B &&& 255])).length := by
      omega
    rw [unpack_open room _ hr0]
    have happ : escapeList W = escapeList W ++ ([] : List Nat) := by simp
    rw [happ, unpack_escaped_run W HdlcState.sofFound 0 0xFFFF 0 0 [] room (Or.inl rfl)
      (by simp; omega)]
    simp only [unpack_nil]
    refine ⟨by simp; omega, by simp, ?_⟩
    have := pushAll_state_ne_init W ⟨HdlcState.sofFound, 0, 0xFFFF, 0, 0⟩ (Or.inl rfl)
    rcases this with h | h <;> simp [h]
  · -- prefix ends inside an escape pair
    rw [htake]
    have hWlen : (escapeList W).length + 1 ≤
        (escapeList (B ++ [crcFold 0xFFFF B >>> 8, crcFold 0xFFFF B &&& 255])).length := by
      omega
    rw [unpack_open room _ hr0]
    rw [unpack_escaped_run W HdlcState.sofFound 0 0xFFFF 0 0 [0x7D] room (Or.inl rfl)
      (by simp; omega)]
    have hplen := pushAll_out_len W ⟨HdlcState.sofFound, 0, 0xFFFF, 0, 0⟩
    have hesclen := escapeList_length_ge W
    have hroomin : room - (pushAll ⟨HdlcState.sofFound, 0, 0xFFFF, 0, 0⟩ W).2.length ≠ 0 := by
      omega
    have hstep := unpackStep_escByte' (pushAll ⟨HdlcState.sofFound, 0, 0xFFFF, 0, 0⟩ W).1
      (pushAll_state_ne_init W _ (Or.inl rfl))
    have hinner : hdlc_Unpack (pushAll ⟨HdlcState.sofFound, 0, 0xFFFF, 0, 0⟩ W).1
        (room - (pushAll ⟨HdlcState.sofFound, 0, 0xFFFF, 0, 0⟩ W).2.length) [0x7D] =
        ({ (pushAll ⟨HdlcState.sofFound, 0, 0xFFFF, 0, 0⟩ W).1 with state := HdlcState.escaped },
         [], 1, none) := by
      rw [unpack_cons_skip _ _ _ _ _ hstep (by simp) hroomin]
      simp [unpack_nil]
    rw [hinner]
    refine ⟨by simp; omega, by simp, by simp⟩

/-- Feeding a list of chunks to `hdlc_Unpack` in successive calls on the
same context, appending into the same destination buffer (as
`orp_HdlcDeframe` does), stopping on a reported error. -/
def unpackChunks (ctx : HdlcCtx) (room : Nat) (Ps : List (List Nat)) :
    HdlcCtx × List Nat × Option HdlcErr :=
  match Ps with
  | [] => (ctx, [], none)
  | p :: rest =>
    let r := hdlc_Unpack ctx room p
    match r.2.2.2 with
    | some e => (r.1, r.2.1, some e)
    | none =>
      let q := unpackChunks r.1 (room - r.2.1.length) rest
      (q.1, r.2.1 ++ q.2.1, q.2.2)

theorem frame_take_run (B : List Nat) (room m : Nat)
    (hroom : (hdlcFrame B).length ≤ room) (hm : m ≤ (hdlcFrame B).length) :
    (hdlc_Unpack hdlc_Init room ((hdlcFrame B).take m)).2.2.1 = m ∧
    (hdlc_Unpack hdlc_Init room ((hdlcFrame B).take m)).2.2.2 = none ∧
    ((hdlc_Unpack hdlc_Init room ((hdlcFrame B).take m)).1.state ≠ HdlcState.init ∨
      m = 0 ∨ m = (hdlcFrame B).length) := by
  by_cases h0 : m = 0
  · subst h0
    simp [unpack_nil]
  · by_cases hF : m = (hdlcFrame B).length
    · subst hF
      rw [List.take_length, unpack_frame B room hroom]
      simp
    · obtain ⟨h1, h2, h3⟩ := frame_prefix_run B room m hroom (by omega) (by omega)
      exact ⟨h1, h2, Or.inl h3⟩

/-- Processing the chunks that make up the part of a frame after
position `k` continues the single-call run exactly: same final context,
the remaining emitted bytes, and the same error outcome. -/
theorem unpackChunks_glue (B : List Nat) (room : Nat)
    (hroom : (hdlcFrame B).length ≤ room) :
    ∀ (Ps : List (List Nat)) (k : Nat),
    k + Ps.flatten.length = (hdlcFrame B).length →
    (hdlcFrame B).drop k = Ps.flatten →
    unpackChunks (hdlc_Unpack hdlc_Init room ((hdlcFrame B).take k)).1
        (room - (hdlc_Unpack hdlc_Init room ((hdlcFrame B).take k)).2.1.length) Ps =
      ((hdlc_Unpack hdlc_Init room (hdlcFrame B)).1,
       ((hdlc_Unpack hdlc_Init room (hdlcFrame B)).2.1).drop
         (hdlc_Unpack hdlc_Init room ((hdlcFrame B).take k)).2.1.length,
       (hdlc_Unpack hdlc_Init room (hdlcFrame B)).2.2.2) := by
  intro Ps
  induction Ps with
  | nil =>
    intro k hsum hdrop
    have hk : k = (hdlcFrame B).length := by simp at hsum; omega
    subst hk
    rw [List.take_length]
    rw [unpack_frame B room hroom]
    simp [unpackChunks]
  | cons P rest ih =>
    intro k hsum hdrop
    have hkle : k ≤ (hdlcFrame B).length := by simp at hsum; omega
    have hklen : ((hdlcFrame B).take k).length = k := by
      simp [List.length_take]
      omega
    have hklelen : k + P.length ≤ (hdlcFrame B).length := by simp at hsum; omega
    have hPpre : ((hdlcFrame B).drop k).take P.length = P := by
      rw [hdrop]
      simp [List.take_left]
    have htadd : (hdlcFrame B).take (k + P.length) = (hdlcFrame B).take k ++ P := by
      rw [List.take_add, hPpre]
    have hdnext : (hdlcFrame B).drop (k + P.length) = rest.flatten := by
      have h1 : (hdlcFrame B).drop (k + P.length) = ((hdlcFrame B).drop k).drop P.length := by
        rw [List.drop_drop, Nat.add_comm]
      rw [h1, hdrop]
      simp [List.drop_left]
    obtain ⟨hck, hek, hsk⟩ := frame_take_run B room k hroom hkle
    obtain ⟨hckl, hekl, hskl⟩ := frame_take_run B room (k + P.length) hroom hklelen
    -- split the single run at position k + P.length
    have hK1a := unpack_append ((hdlcFrame B).take k) hdlc_Init room P hek
      (by rw [hck, hklen])
      (by
        rcases hsk with h | h | h
        · exact Or.inl h
        · subst h
          simp
        · right
          right
          rw [h] at hsum
          simp at hsum
          have : P.length = 0 := by omega
          simp [List.eq_nil_of_length_eq_zero this])
    rw [← htadd] at hK1a
    -- split the single run on the whole frame at position k + P.length
    have hK1b := unpack_append ((hdlcFrame B).take (k + P.length)) hdlc_Init room
      ((hdlcFrame B).drop (k + P.length)) hekl
      (by
        rw [hckl]
        simp [List.length_take]
        omega)
      (by
        rcases hskl with h | h | h
        · exact Or.inl h
        · right
          left
          rw [h]
          simp
        · right
          right
          rw [h]
          simp)
    rw [List.take_append_drop] at hK1b
    -- facts about the segment run
    have hseg_err : (hdlc_Unpack (hdlc_Unpack hdlc_Init room ((hdlcFrame B).take k)).1
        (room - (hdlc_Unpack hdlc_Init room ((hdlcFrame B).take k)).2.1.length) P).2.2.2 =
        none := by
      have := congrArg (fun t => t.2.2.2) hK1a
      simp only at this
      rw [hekl] at this
      exact this.symm
    have hseg_ctx : (hdlc_Unpack (hdlc_Unpack hdlc_Init room ((hdlcFrame B).take k)).1
        (room - (hdlc_Unpack hdlc_Init room ((hdlcFrame B).take k)).2.1.length) P).1 =
        (hdlc_Unpack hdlc_Init room ((hdlcFrame B).take (k + P.length))).1 := by
      have := congrArg (fun t => t.1) hK1a
      simp only at this
      exact this.symm
    have hout : (hdlc_Unpack hdlc_Init room ((hdlcFrame B).take (k + P.length))).2.1 =
        (hdlc_Unpack hdlc_Init room ((hdlcFrame B).take k)).2.1 ++
        (hdlc_Unpack (hdlc_Unpack hdlc_Init room ((hdlcFrame B).take k)).1
          (room - (hdlc_Unpack hdlc_Init room ((hdlcFrame B).take k)).2.1.length) P).2.1 := by
      have := congrArg (fun t => t.2.1) hK1a
      simp only at this
      exact this
    have houtF : (hdlc_Unpack hdlc_Init room (hdlcFrame B)).2.1 =
        (hdlc_Unpack hdlc_Init room ((hdlcFrame B).take (k + P.length))).2.1 ++
        (hdlc_Unpack (hdlc_Unpack hdlc_Init room ((hdlcFrame B).take (k + P.length))).1
          (room - (hdlc_Unpack hdlc_Init room
            ((hdlcFrame B).take (k + P.length))).2.1.length)
          ((hdlcFrame B).drop (k + P.length))).2.1 := by
      have := congrArg (fun t => t.2.1) hK1b
      simp only at this
      exact this
    -- unfold one chunk step
    rw [unpackChunks]
    simp only [hseg_err]
    have hq := ih (k + P.length) (by simp at hsum ⊢; omega) hdnext
    have hroomq : room - (hdlc_Unpack hdlc_Init room ((hdlcFrame B).take k)).2.1.length -
        (hdlc_Unpack (hdlc_Unpack hdlc_Init room ((hdlcFrame B).take k)).1
          (room - (hdlc_Unpack hdlc_Init room ((hdlcFrame B).take k)).2.1.length) P).2.1.length =
        room - (hdlc_Unpack hdlc_Init room ((hdlcFrame B).take (k + P.length))).2.1.length := by
      rw [hout]
      simp
      omega
    rw [hseg_ctx, hroomq, hq]
    refine congrArg₂ Prod.mk rfl (congrArg₂ Prod.mk ?_ rfl)
    rw [houtF, hout]
    simp [List.drop_left]

/-- C3: For every payload `B` and every partition of the well-formed
encoded frame `hdlcFrame B` into consecutive pieces (single-byte pieces
included), feeding the pieces to `hdlc_Unpack` in successive calls on
the same context emits the same destination bytes, yields the same
CRC-check outcome, and reaches the same terminal context as feeding the
whole frame in a single call. -/
theorem hdlc_chunking_invariance_c3 (B : List Nat) (Ps : List (List Nat)) (room : Nat)
    (hJ : Ps.flatten = hdlcFrame B) (hroom : (hdlcFrame B).length ≤ room) :
    unpackChunks hdlc_Init room Ps =
      ((hdlc_Unpack hdlc_Init room (hdlcFrame B)).1,
       (hdlc_Unpack hdlc_Init room (hdlcFrame B)).2.1,
       (hdlc_Unpack hdlc_Init room (hdlcFrame B)).2.2.2) := by
  have h := unpackChunks_glue B room hroom Ps 0 (by simp [hJ]) (by simp [hJ])
  simp only [List.take_zero, unpack_nil, List.drop_zero, List.length_nil, Nat.sub_zero] at h
  exact h

/-- Witness for `hdlc_chunking_invariance_c3`: the frame for payload
`[1, 0x7E]` split into single-byte pieces. -/
theorem hdlc_chunking_invariance_c3_witness :
    ((hdlcFrame [1, 0x7E]).map (fun b => [b])).flatten = hdlcFrame [1, 0x7E] ∧
    unpackChunks hdlc_Init 50 ((hdlcFrame [1, 0x7E]).map (fun b => [b])) =
      ((hdlc_Unpack hdlc_Init 50 (hdlcFrame [1, 0x7E])).1,
       (hdlc_Unpack hdlc_Init 50 (hdlcFrame [1, 0x7E])).2.1,
       (hdlc_Unpack hdlc_Init 50 (hdlcFrame [1, 0x7E])).2.2.2) :=
  ⟨by decide, hdlc_chunking_invariance_c3 [1, 0x7E] _ 50 (by decide) (by decide)⟩

/-- C8: the count of source bytes consumed that `hdlc_Unpack` reports
when it reaches the trailing frame delimiter INCLUDES that trailing
0x7E byte (`src_idx` is incremented before the end-of-frame break),
contradicting the hdlc.h contract comment "The trailing frame byte is
NOT included in the count of source bytes unpacked".  For the frame of
payload `[0x41]` — five bytes ending in the trailing flag — the whole
frame, 5 bytes, is reported consumed, not 4. -/
theorem hdlc_unpack_consumed_includes_trailing_flag_c8 :
    hdlcFrame [0x41] = [0x7E, 0x41, 0xB9, 0x15, 0x7E] ∧
    (hdlc_Unpack hdlc_Init 100 [0x7E, 0x41, 0xB9, 0x15, 0x7E]).2.2.1 = 5 ∧
    hdlc_UnpackDone (hdlc_Unpack hdlc_Init 100 [0x7E, 0x41, 0xB9, 0x15, 0x7E]).1 = true ∧
    (hdlc_Unpack hdlc_Init 100 [0x7E, 0x41, 0xB9, 0x15, 0x7E]).2.2.2 = none ∧
    (hdlc_Unpack hdlc_Init 100 [0x7E, 0x41, 0xB9, 0x15, 0x7E]).2.2.1 ≠ 4 := by
  decide

/-! ## ORP protocol codec (orpProtocol.c / orpProtocol.h)

The message structure and both codec directions are embedded below.
Buffers are `List Nat`; C strings become NUL-free `List Nat` values and
null pointers become `none`.  The `double` timestamp is modelled as an
exact decimal (`OrpTime`): the `%lf` wire format carries one integer
part and exactly six fractional digits, and `orp_TimeDecode` accepts
only digit strings, so the decimal model captures the wire behaviour;
IEEE-754 rounding of the C `double` is outside the embedding. -/

/-- Digit rendering worker, structurally recursive on a fuel bound (any
fuel above the value itself is enough, see `natToDigits_eq`). -/
def natToDigitsF : Nat → Nat → List Nat
  | 0, _ => []
  | fuel + 1, n =>
    if n < 10 then [48 + n]
    else natToDigitsF fuel (n / 10) ++ [48 + n % 10]

/-- ASCII decimal digits of a natural number, most significant first. -/
def natToDigits (n : Nat) : List Nat :=
  natToDigitsF (n + 1) n

theorem natToDigitsF_congr : ∀ f1 : Nat, ∀ f2 n : Nat, n < f1 → n < f2 →
    natToDigitsF f1 n = natToDigitsF f2 n := by
  intro f1
  induction f1 using Nat.strong_induction_on with
  | _ f1 ih =>
    intro f2 n h1 h2
    match f1, f2 with
    | g1 + 1, g2 + 1 =>
      simp only [natToDigitsF]
      by_cases hn : n < 10
      · simp [hn]
      · simp only [if_neg hn]
        have hd : n / 10 < g1 := by omega
        have hd2 : n / 10 < g2 := by omega
        rw [ih g1 (by omega) g2 (n / 10) hd hd2]

/-- The recursion equation of the digit renderer. -/
theorem natToDigits_eq (n : Nat) :
    natToDigits n = if n < 10 then [48 + n]
      else natToDigits (n / 10) ++ [48 + n % 10] := by
  by_cases hn : n < 10
  · simp [natToDigits, natToDigitsF, hn]
  · rw [if_neg hn]
    show natToDigitsF (n + 1) n = natToDigits (n / 10) ++ [48 + n % 10]
    rw [show natToDigitsF (n + 1) n = natToDigitsF n (n / 10) ++ [48 + n % 10] from by
      simp [natToDigitsF, hn]]
    unfold natToDigits
    rw [natToDigitsF_congr n (n / 10 + 1) (n / 10) (by omega) (by omega)]

/-- ASCII rendering of a C `int` by `%d`: a minus sign before the digits
of the magnitude when negative. -/
def intToDigits (n : Int) : List Nat :=
  if n < 0 then 45 :: natToDigits (Int.toNat (-n)) else natToDigits (Int.toNat n)

/-- Numeric value of a list of ASCII decimal digits. -/
def digitsToNat (s : List Nat) : Nat :=
  s.foldl (fun a b => a * 10 + (b - 48)) 0

/-- Fractional part printed by `%lf`: exactly six digits, zero-padded on
the left. -/
def pad6 (m : Nat) : List Nat :=
  List.replicate (6 - (natToDigits m).length) 48 ++ natToDigits m

def isDigitByte (b : Nat) : Bool :=
  decide (48 ≤ b) && decide (b ≤ 57)

/-- Wrap an unsigned value into a 32-bit C `int` (two's complement). -/
def toInt32 (v : Nat) : Int :=
  if v % 4294967296 < 2147483648 then (v % 4294967296 : Nat)
  else (v % 4294967296 : Nat) - 4294967296

/-- Value of one character in a given base, as `strtoul` accepts it. -/
def digitVal (base b : Nat) : Option Nat :=
  if 48 ≤ b ∧ b ≤ 57 ∧ b - 48 < base then some (b - 48)
  else if 65 ≤ b ∧ b ≤ 90 ∧ b - 55 < base then some (b - 55)
  else if 97 ≤ b ∧ b ≤ 122 ∧ b - 87 < base then some (b - 87)
  else none

/-- Greedy digit parse in a given base. -/
def parseBase (base : Nat) (acc : Nat) : List Nat → Nat
  | [] => acc
  | b :: r =>
    match digitVal base b with
    | some d => parseBase base (acc * base + d) r
    | none => acc

/-- Behaviour of `strtoul(s, &end, 0)` on the byte strings the decoder
passes it (no leading whitespace or sign occurs in those fields): base
detection by `0x`/`0` prefix, greedy digit parse, `ERANGE` (second
component `true`) when the value exceeds `ULONG_MAX`. -/
def strtoulModel (s : List Nat) : Nat × Bool :=
  let v :=
    match s with
    | 48 :: 120 :: r => parseBase 16 0 r
    | 48 :: 88 :: r => parseBase 16 0 r
    | 48 :: r => parseBase 8 0 (48 :: r)
    | r => parseBase 10 0 r
  if v < 18446744073709551616 then (v, false) else (18446744073709551615, true)

/-- Model of the C `double` timestamp: the `ORP_TIMESTAMP_INVALID`
sentinel (-1.0) or an exact nonnegative decimal `sec + micro / 10^6`
with `micro < 10^6`.  The all-zero `memset` value is `dec 0 0`. -/
inductive OrpTime where
  | invalid
  | dec (sec : Nat) (micro : Nat)
deriving DecidableEq, Repr

/-- The `struct orp_Message` of orpProtocol.h. -/
structure OrpMessage where
  type : Nat
  dataType : Int
  version : Int
  status : Int
  sequenceNum : Nat
  timestamp : OrpTime
  path : Option (List Nat)
  unit : Option (List Nat)
  data : Option (List Nat)
  dataLen : Nat
  sentCount : Int
  receivedCount : Int
  mtu : Int
deriving DecidableEq, Repr

/-- Required-field masks of orpProtocol.c. -/
def ORP_MASK_DATA_TYPE : Nat := 0x0002
def ORP_MASK_TIME : Nat := 0x0010
def ORP_MASK_PATH : Nat := 0x0020
def ORP_MASK_DATA : Nat := 0x0040
def ORP_MASK_RECV_COUNT : Nat := 0x0080
def ORP_MASK_SENT_COUNT : Nat := 0x0100
def ORP_MASK_STATUS : Nat := 0x0200
def ORP_MASK_VERSION : Nat := 0x0400
def ORP_MASK_EVENT : Nat := 0x0800

/-- The `orp_PacketTypeTable` of orpProtocol.c: wire letter, decoded
`enum orp_PacketType` value (`ORP_RESPONSE_MASK = 0x80`), required-field
bitmask. -/
def orp_PacketTypeTable : List (Nat × Nat × Nat) :=
  [ (73, 1, ORP_MASK_DATA_TYPE ||| ORP_MASK_PATH),   -- 'I' RQST_INPUT_CREATE
    (105, 129, ORP_MASK_STATUS),                     -- 'i' RESP_INPUT_CREATE
    (79, 2, ORP_MASK_DATA_TYPE ||| ORP_MASK_PATH),   -- 'O' RQST_OUTPUT_CREATE
    (111, 130, ORP_MASK_STATUS),                     -- 'o' RESP_OUTPUT_CREATE
    (68, 3, ORP_MASK_PATH),                          -- 'D' RQST_DELETE
    (100, 131, ORP_MASK_STATUS),                     -- 'd' RESP_DELETE
    (72, 4, ORP_MASK_PATH),                          -- 'H' RQST_HANDLER_ADD
    (104, 132, ORP_MASK_STATUS),                     -- 'h' RESP_HANDLER_ADD
    (75, 5, ORP_MASK_PATH),                          -- 'K' RQST_HANDLER_REMOVE
    (107, 133, ORP_MASK_STATUS),                     -- 'k' RESP_HANDLER_REMOVE
    (80, 6, ORP_MASK_DATA_TYPE ||| ORP_MASK_PATH),   -- 'P' RQST_PUSH
    (112, 134, ORP_MASK_STATUS),                     -- 'p' RESP_PUSH
    (71, 7, ORP_MASK_PATH),                          -- 'G' RQST_GET
    (103, 135, ORP_MASK_STATUS),                     -- 'g' RESP_GET
    (69, 8, ORP_MASK_DATA_TYPE ||| ORP_MASK_PATH),   -- 'E' RQST_EXAMPLE_SET
    (101, 136, ORP_MASK_STATUS),                     -- 'e' RESP_EXAMPLE_SET
    (83, 9, ORP_MASK_DATA_TYPE ||| ORP_MASK_PATH),   -- 'S' RQST_SENSOR_CREATE
    (115, 137, ORP_MASK_STATUS),                     -- 's' RESP_SENSOR_CREATE
    (82, 10, ORP_MASK_PATH),                         -- 'R' RQST_SENSOR_REMOVE
    (114, 138, ORP_MASK_STATUS),                     -- 'r' RESP_SENSOR_REMOVE
    (99, 11, ORP_MASK_TIME ||| ORP_MASK_PATH),       -- 'c' NTFY_HANDLER_CALL
    (67, 139, ORP_MASK_STATUS),                      -- 'C' RESP_HANDLER_CALL
    (98, 12, ORP_MASK_PATH),                         -- 'b' NTFY_SENSOR_CALL
    (66, 140, ORP_MASK_STATUS),                      -- 'B' RESP_SENSOR_CALL
    (89, 13, ORP_MASK_VERSION),                      -- 'Y' SYNC_SYN
    (121, 14, ORP_MASK_VERSION),                     -- 'y' SYNC_SYNACK
    (122, 15, ORP_MASK_VERSION),                     -- 'z' SYNC_ACK
    (84, 16, ORP_MASK_DATA),                         -- 'T' RQST_FILE_DATA
    (116, 144, ORP_MASK_STATUS),                     -- 't' RESP_FILE_DATA
    (76, 17, ORP_MASK_EVENT),                        -- 'L' NTFY_FILE_CONTROL
    (108, 145, ORP_MASK_STATUS),                     -- 'l' RESP_FILE_CONTROL
    (63, 128, 0) ]                                   -- '?' RESP_UNKNOWN_RQST

/-- The `orp_DataTypeTable` of orpProtocol.c ('T','B','N','S','J',' '). -/
def orp_DataTypeTable : List (Nat × Int) :=
  [ (84, 0), (66, 1), (78, 2), (83, 3), (74, 4), (32, -1) ]

/-- The function `orp_FieldRequired` of orpProtocol.c. -/
def orp_FieldRequired (ptype : Nat) (fieldMask : Nat) : Bool :=
  match orp_PacketTypeTable.find? (fun e => e.2.1 = ptype) with
  | some e => decide (e.2.2 &&& fieldMask ≠ 0)
  | none => false

/-- The function `orp_PacketTypeDecode` (first byte to packet type). -/
def orp_PacketTypeDecode (b : Nat) : Option Nat :=
  (orp_PacketTypeTable.find? (fun e => e.1 = b)).map (fun e => e.2.1)

/-- The function `orp_PacketTypeEncode` (packet type to first byte). -/
def orp_PacketTypeEncode (ptype : Nat) : Option Nat :=
  (orp_PacketTypeTable.find? (fun e => e.2.1 = ptype)).map (fun e => e.1)

/-- The function `orp_DataTypeDecode`. -/
def orp_DataTypeDecode (b : Nat) : Option Int :=
  (orp_DataTypeTable.find? (fun e => e.1 = b)).map (fun e => e.2)

/-- The function `orp_DataTypeEncode`. -/
def orp_DataTypeEncode (d : Int) : Option Nat :=
  (orp_DataTypeTable.find? (fun e => e.2 = d)).map (fun e => e.1)

/-- The function `orp_StatusEncode`: `buf[1] = (uint8_t)(0x40 - status)`. -/
def orp_StatusEncode (status : Int) : Nat :=
  Int.toNat ((64 - status) % 256)

/-- The function `orp_StatusDecode`: `*status = 0x40 - buf[1]`. -/
def orp_StatusDecode (b : Nat) : Int :=
  64 - (b : Int)

/-- The function `orp_EnumEncode` of orpProtocol.c: `0..9` to `'0'..'9'`,
`10..35` to `'A'..'Z'`, otherwise failure.  Note the first branch fires
for every value `≤ 9`, negative values included, exactly as in C; the
byte store truncates to `uint8_t`. -/
def orp_EnumEncode (v : Int) : Option Nat :=
  if v ≤ 9 then some (Int.toNat ((48 + v) % 256))
  else if 10 ≤ v ∧ v ≤ 35 then some (Int.toNat ((65 + (v - 10)) % 256))
  else none

/-- The `toupper` applied by `orp_EnumDecode` to the wire byte. -/
def toupperByte (b : Nat) : Nat :=
  if 97 ≤ b ∧ b ≤ 122 then b - 32 else b

/-- The function `orp_EnumDecode` of orpProtocol.c, with its range
checks written with `||` exactly as in the source
(`'0' <= c || c <= '9'`, which holds for every byte). -/
def orp_EnumDecode (b : Nat) : Option Int :=
  let c := toupperByte b
  if 48 ≤ c ∨ c ≤ 57 then some ((c : Int) - 48)
  else if 65 ≤ c ∨ c ≤ 90 then some ((c : Int) - 65 + 10)
  else none

/-- Write a byte list into a buffer starting at index `i`, preserving
the buffer's length (out-of-range writes are dropped, as the model of a
fixed-size C array). -/
def writeBytes (buf : List Nat) (i : Nat) : List Nat → List Nat
  | [] => buf
  | x :: rest => writeBytes (buf.set i x) (i + 1) rest

/-- Behaviour of `snprintf(buf + i, room, …)` rendering the byte string
`s`: writes at most `room - 1` bytes plus a terminating NUL, returns the
untruncated length. -/
def snprintfAt (buf : List Nat) (i room : Nat) (s : List Nat) : List Nat × Nat :=
  if room = 0 then (buf, s.length)
  else (writeBytes buf i (s.take (room - 1) ++ [0]), s.length)

/-- The function `orp_TimeEncode`: nothing for the invalid sentinel,
otherwise `snprintf(buf, bufLen, "%c%lf", 'T', time)`; `%lf` prints the
integer digits, a point, and exactly six fractional digits. -/
def orp_TimeEncode (buf : List Nat) (i room : Nat) (t : OrpTime) : List Nat × Nat :=
  match t with
  | OrpTime.invalid => (buf, 0)
  | OrpTime.dec s m => snprintfAt buf i room (84 :: (natToDigits s ++ [46] ++ pad6 m))

/-- The function `orp_PathEncode`: identifier byte `'P'` followed by the
path bytes, no terminator; fails (C return -1) when `strlen(path) + 1`
exceeds the room.  A null path encodes nothing and reports length 0. -/
def orp_PathEncode (buf : List Nat) (i room : Nat) (path : Option (List Nat)) :
    List Nat × Option Nat :=
  match path with
  | none => (buf, some 0)
  | some p =>
    if p.length + 1 > room then (buf, none)
    else (writeBytes buf i (80 :: p), some (p.length + 1))

/-- The function `orp_DataEncode`: identifier byte `'D'` followed by at
most `bufLen - 1` data bytes (truncation supports multi-packet
transactions); the returned length includes the identifier byte.  When
`data` is null or `dataLen` is zero the buffer is untouched and
`dataLen` itself is returned. -/
def orp_DataEncode (buf : List Nat) (i room : Nat) (data : Option (List Nat))
    (dataLen : Nat) : List Nat × Nat :=
  match data with
  | none => (buf, dataLen)
  | some d =>
    if dataLen = 0 then (buf, dataLen)
    else
      let k := min (room - 1) dataLen
      (writeBytes buf i (68 :: d.take k), k + 1)

/-- The function `orp_MtuEncode`: `snprintf("%c%d", 'M', mtu)` followed
by an explicit room check (C returns -1 when `bufLen <= len`). -/
def orp_MtuEncode (buf : List Nat) (i room : Nat) (mtu : Int) : List Nat × Option Nat :=
  let s := 77 :: intToDigits mtu
  let w := snprintfAt buf i room s
  if room ≤ s.length then (w.1, none) else (w.1, some s.length)

/-- The function `orp_SentCountEncode`: -1 for a negative count,
otherwise `snprintf("%c%d", 'S', count)` with no room check. -/
def orp_SentCountEncode (buf : List Nat) (i room : Nat) (count : Int) :
    List Nat × Option Nat :=
  if count < 0 then (buf, none)
  else
    let s := 83 :: intToDigits count
    let w := snprintfAt buf i room s
    (w.1, some s.length)

/-- The function `orp_ReceivedCountEncode`: -1 for a negative count,
otherwise `snprintf("%c%d", 'R', count)` with no room check. -/
def orp_ReceivedCountEncode (buf : List Nat) (i room : Nat) (count : Int) :
    List Nat × Option Nat :=
  if count < 0 then (buf, none)
  else
    let s := 82 :: intToDigits count
    let w := snprintfAt buf i room s
    (w.1, some s.length)

/-- The function `orp_PacketByte1Encode`: status for response types,
data type for data-typed requests, the constant `ORP_PROTOCOL_V2` for
sync types, the event code for file-control notifications; types with
none of those masks leave byte 1 untouched and succeed (`status`
initialized `true`). -/
def orp_PacketByte1Encode (buf : List Nat) (msg : OrpMessage) : Option (List Nat) :=
  if orp_FieldRequired msg.type ORP_MASK_STATUS then
    some (buf.set 1 (orp_StatusEncode msg.status))
  else if orp_FieldRequired msg.type ORP_MASK_DATA_TYPE then
    (orp_DataTypeEncode msg.dataType).map (fun b => buf.set 1 b)
  else if orp_FieldRequired msg.type ORP_MASK_VERSION then
    (orp_EnumEncode 1).map (fun b => buf.set 1 b)
  else if orp_FieldRequired msg.type ORP_MASK_EVENT then
    (orp_EnumEncode msg.status).map (fun b => buf.set 1 b)
  else some buf

/-- The function `orp_PacketByte1Decode`: dispatches on the same four
masks, but its `status` flag is initialized `false`, so packet types
with none of the four byte-1 masks always fail. -/
def orp_PacketByte1Decode (buf : List Nat) (msg : OrpMessage) : Option OrpMessage :=
  if orp_FieldRequired msg.type ORP_MASK_STATUS then
    some { msg with status := orp_StatusDecode (buf.getD 1 0) }
  else if orp_FieldRequired msg.type ORP_MASK_DATA_TYPE then
    (orp_DataTypeDecode (buf.getD 1 0)).map (fun d => { msg with dataType := d })
  else if orp_FieldRequired msg.type ORP_MASK_VERSION then
    (orp_EnumDecode (buf.getD 1 0)).map (fun v => { msg with version := v })
  else if orp_FieldRequired msg.type ORP_MASK_EVENT then
    (orp_EnumDecode (buf.getD 1 0)).map (fun v => { msg with status := v })
  else none

/-- The scan states of `orp_ProtocolDecode_v1`. -/
inductive ScanState where
  | search
  | infield
  | done
  | error
deriving DecidableEq, Repr

/-- The message fields collected by the variable-length scan: indices of
the field contents inside the packet buffer and the numeric values
parsed on the fly. -/
structure ScanAcc where
  pathIdx : Option Nat
  timeIdx : Option Nat
  unitIdx : Option Nat
  dataIdx : Option Nat
  dataLen : Nat
  mtu : Int
  sentCount : Int
  receivedCount : Int
deriving DecidableEq, Repr

def scanAccInit : ScanAcc :=
  { pathIdx := none, timeIdx := none, unitIdx := none, dataIdx := none,
    dataLen := 0, mtu := 0, sentCount := 0, receivedCount := 0 }

/-- The variable-length-field loop of `orp_ProtocolDecode_v1`: a forward
scan from offset 4 that NULs separators in place, records field content
positions, parses the numeric `M`/`S`/`R` fields with `strtoul` (from
the buffer as it stands, the following separator not yet overwritten),
and stops at `DONE` (data field) or `ERROR`.  `strtoul` parses the
NUL-terminated string at the field content: the `pktBuf[pktLen] = 0`
write happens only after the scan, so a terminal numeric field's parse
runs past `pktLen` into whatever follows in the receiver's buffer (here
modelled to the end of the list; the C keeps reading memory beyond). -/
def scanLoopF : Nat → List Nat → Nat → Nat → ScanState → ScanAcc →
    List Nat × ScanAcc × ScanState
  | 0, buf, _, _, st, acc => (buf, acc, st)
  | fuel + 1, buf, pktLen, i, st, acc =>
    if st = ScanState.done ∨ st = ScanState.error then (buf, acc, st)
    else
      let b := buf.getD i 0
      if b = 44 then
        scanLoopF fuel (buf.set i 0) pktLen (i + 1) ScanState.search acc
      else
        match st with
        | ScanState.search =>
          if b = 80 then
            scanLoopF fuel buf pktLen (i + 1) ScanState.infield
              { acc with pathIdx := some (i + 1) }
          else if b = 84 then
            scanLoopF fuel buf pktLen (i + 1) ScanState.infield
              { acc with timeIdx := some (i + 1) }
          else if b = 85 then
            scanLoopF fuel buf pktLen (i + 1) ScanState.infield
              { acc with unitIdx := some (i + 1) }
          else if b = 68 then
            scanLoopF fuel (buf.set pktLen 0) pktLen (i + 1) ScanState.done
              { acc with dataIdx := some (i + 1), dataLen := pktLen - i - 1 }
          else if b = 77 then
            let r := strtoulModel (buf.drop (i + 1))
            if r.2 then scanLoopF fuel buf pktLen (i + 1) ScanState.error acc
            else scanLoopF fuel buf pktLen (i + 1) ScanState.infield
              { acc with mtu := toInt32 r.1 }
          else if b = 82 then
            let r := strtoulModel (buf.drop (i + 1))
            if r.2 then scanLoopF fuel buf pktLen (i + 1) ScanState.error acc
            else scanLoopF fuel buf pktLen (i + 1) ScanState.infield
              { acc with receivedCount := toInt32 r.1 }
          else if b = 83 then
            let r := strtoulModel (buf.drop (i + 1))
            if r.2 then scanLoopF fuel buf pktLen (i + 1) ScanState.error acc
            else scanLoopF fuel buf pktLen (i + 1) ScanState.infield
              { acc with sentCount := toInt32 r.1 }
          else
            scanLoopF fuel buf pktLen (i + 1) ScanState.error acc
        | ScanState.infield => scanLoopF fuel buf pktLen (i + 1) ScanState.infield acc
        | _ => (buf, acc, st)

def scanLoop (buf : List Nat) (pktLen i : Nat) (st : ScanState) (acc : ScanAcc) :
    List Nat × ScanAcc × ScanState :=
  scanLoopF (pktLen - i) buf pktLen i st acc

/-- C-string read: the bytes from index `i` up to the first NUL. -/
def cString (buf : List Nat) (i : Nat) : List Nat :=
  (buf.drop i).takeWhile (fun b => b ≠ 0)

/-- The digit/decimal-point scan of `orp_TimeDecode`, returning the
index of the single decimal point (or `none`), or failing on any other
character or a second point. -/
def timeScan : List Nat → Nat → Option Nat → Option (Option Nat)
  | [], _, d => some d
  | c :: r, i, d =>
    if isDigitByte c then timeScan r (i + 1) d
    else if c = 46 ∧ d = none then timeScan r (i + 1) (some i)
    else none

/-- Modelled from the spec: `ORP_PROTOCOL_TIMESTAMP_DECIMAL_LEN_MAX`,
the largest fractional-digit count the decoder accepts.  The constant
lives in the newer orpProtocol.h, which is not among the sources; the
spec states "fractional part up to 6 digits" (and the 17-byte total is
10 + 1 + 6). -/
def ORP_PROTOCOL_TIMESTAMP_DECIMAL_LEN_MAX : Nat := 6

/-- Modelled from the spec: `ORP_PROTOCOL_TIMESTAMP_INTEGER_LEN_MAX`,
the largest integer-digit count the decoder accepts ("integer part up
to 10 digits"). -/
def ORP_PROTOCOL_TIMESTAMP_INTEGER_LEN_MAX : Nat := 10

def ORP_PROTOCOL_TIMESTAMP_LEN_MAX : Nat := 17

/-- Behaviour of `strtod` on the digit-and-single-point strings that
pass the preceding checks: fails only when no digit was consumed. -/
def strtodModel (s : List Nat) : Option OrpTime :=
  let intPart := s.takeWhile (fun b => isDigitByte b)
  let rest := s.drop intPart.length
  let frac :=
    match rest with
    | 46 :: f => f.takeWhile (fun b => isDigitByte b)
    | _ => []
  if intPart = [] ∧ frac = [] then none
  else some (OrpTime.dec (digitsToNat intPart) (digitsToNat frac * 10 ^ (6 - frac.length)))

/-- The function `orp_TimeDecode` of orpProtocol.c: length in
`[1, 17]`, digits with at most one decimal point, at most six
fractional and ten integral digits, then `strtod`. -/
def orp_TimeDecode (s : List Nat) : Option OrpTime :=
  if s.length = 0 ∨ s.length > ORP_PROTOCOL_TIMESTAMP_LEN_MAX then none
  else
    match timeScan s 0 none with
    | none => none
    | some d =>
      let decimalIndex := d.getD s.length
      if d.isSome ∧ s.length - decimalIndex - 1 > ORP_PROTOCOL_TIMESTAMP_DECIMAL_LEN_MAX then
        none
      else if decimalIndex > ORP_PROTOCOL_TIMESTAMP_INTEGER_LEN_MAX then none
      else strtodModel s

/-- `orp_MessageInInit` of orpProtocol.c: zeroed message, type
`ORP_PACKET_TYPE_UNKNOWN`, data type `ORP_IO_DATA_TYPE_UNDEF`, path and
unit pointing at the empty string. -/
def orp_MessageInInit : OrpMessage :=
  { type := 0, dataType := -1, version := 0, status := 0, sequenceNum := 0,
    timestamp := OrpTime.dec 0 0, path := some [], unit := some [],
    data := none, dataLen := 0, sentCount := 0, receivedCount := 0, mtu := 0 }

/-- `orp_MessageInit` of orpProtocol.c (public initializer used before
encoding). -/
def orp_MessageInit (ptype : Nat) (status : Int) : OrpMessage :=
  { type := ptype, dataType := 0, version := 0, status := status, sequenceNum := 0,
    timestamp := OrpTime.invalid, path := none, unit := none,
    data := none, dataLen := 0, sentCount := -1, receivedCount := -1, mtu := -1 }

/-- The function `orp_ProtocolDecode_v1` of orpProtocol.c.  Returns the
success flag, the decoded message (string and data fields read back
from the mutated buffer, as the C caller does through the aliasing
pointers), and the mutated buffer.  On failure before the scan the
buffer is returned untouched. -/
def orp_ProtocolDecode_v1 (pktBuf : List Nat) (pktLen : Nat) :
    Bool × OrpMessage × List Nat :=
  if pktLen < 4 then (false, orp_MessageInInit, pktBuf)
  else
    let msg0 := orp_MessageInInit
    match orp_PacketTypeDecode (pktBuf.getD 0 0) with
    | none => (false, msg0, pktBuf)
    | some t =>
      let msg1 := { msg0 with type := t }
      match orp_PacketByte1Decode pktBuf msg1 with
      | none => (false, msg1, pktBuf)
      | some msg2 =>
        let msg3 := { msg2 with
          sequenceNum := (((pktBuf.getD 2 0) <<< 8) &&& 0xFF00) +
            ((pktBuf.getD 3 0) &&& 0x00FF) }
        let sc := scanLoop pktBuf pktLen 4 ScanState.search scanAccInit
        let buf2 := sc.1.set pktLen 0
        let acc := sc.2.1
        let st := sc.2.2
        let msg4 := { msg3 with
          path := some (match acc.pathIdx with
            | some pi => cString buf2 pi
            | none => []),
          unit := some (match acc.unitIdx with
            | some ui => cString buf2 ui
            | none => []),
          data := match acc.dataIdx with
            | some di => some ((buf2.drop di).take acc.dataLen)
            | none => none,
          dataLen := acc.dataLen,
          mtu := acc.mtu, sentCount := acc.sentCount, receivedCount := acc.receivedCount }
        match acc.timeIdx with
        | some ti =>
          match orp_TimeDecode (cString buf2 ti) with
          | some tv => (st ≠ ScanState.error, { msg4 with timestamp := tv }, buf2)
          | none => (false, msg4, buf2)
        | none => (st ≠ ScanState.error, msg4, buf2)

/-- The timestamp block of `orp_ProtocolEncode_v1`: encode the time
field at index 4, pass on the buffer, next index and field length. -/
def orp_TimeStage (len : Nat) (t : OrpTime) (buf : List Nat) : List Nat × Nat × Nat :=
  let tR := orp_TimeEncode buf 4 (len - 4) t
  (tR.1, 4 + tR.2, tR.2)

/-- The path block of `orp_ProtocolEncode_v1`: separator comma when a
field was already emitted, then `orp_PathEncode`; `none` on overflow. -/
def orp_PathStage (len : Nat) (path : Option (List Nat)) :
    List Nat × Nat × Nat → Option (List Nat × Nat × Nat)
  | (buf, idx, fl) =>
    match path with
    | none => some (buf, idx, fl)
    | some p =>
      let bufA := if fl ≠ 0 then buf.set idx 44 else buf
      let idxA := if fl ≠ 0 then idx + 1 else idx
      match orp_PathEncode bufA idxA (len - idxA) (some p) with
      | (_, none) => none
      | (bufB, some plen) => some (bufB, idxA + plen, plen)

/-- The data block of `orp_ProtocolEncode_v1`: runs only when `dataLen`
is nonzero; the fourth component is the `orp_DataEncode` return value
(`fieldLen`, 0 when the block was skipped), which the caller subtracts
from the message's `dataLen`. -/
def orp_DataStage (len : Nat) (data : Option (List Nat)) (dataLen : Nat) :
    List Nat × Nat × Nat → List Nat × Nat × Nat × Nat
  | (buf, idx, fl) =>
    if dataLen ≠ 0 then
      let bufA := if fl ≠ 0 then buf.set idx 44 else buf
      let idxA := if fl ≠ 0 then idx + 1 else idx
      let dR := orp_DataEncode bufA idxA (len - idxA) data dataLen
      (dR.1, idxA + dR.2, dR.2, dR.2)
    else (buf, idx, fl, 0)

/-- The MTU block of `orp_ProtocolEncode_v1` (sync packets, version 2):
runs only for a nonnegative MTU; `none` on overflow. -/
def orp_MtuStage (len : Nat) (mtu : Int) :
    List Nat × Nat × Nat → Option (List Nat × Nat × Nat)
  | (buf, idx, fl) =>
    if mtu ≥ 0 then
      let bufA := if fl ≠ 0 then buf.set idx 44 else buf
      let idxA := if fl ≠ 0 then idx + 1 else idx
      match orp_MtuEncode bufA idxA (len - idxA) mtu with
      | (_, none) => none
      | (bufB, some mlen) => some (bufB, idxA + mlen, mlen)
    else some (buf, idx, fl)

/-- The sent-count block of `orp_ProtocolEncode_v1`. -/
def orp_SentStage (len : Nat) (count : Int) :
    List Nat × Nat × Nat → Option (List Nat × Nat × Nat)
  | (buf, idx, fl) =>
    if count ≥ 0 then
      let bufA := if fl ≠ 0 then buf.set idx 44 else buf
      let idxA := if fl ≠ 0 then idx + 1 else idx
      match orp_SentCountEncode bufA idxA (len - idxA) count with
      | (_, none) => none
      | (bufB, some slen) => some (bufB, idxA + slen, slen)
    else some (buf, idx, fl)

/-- The received-count block of `orp_ProtocolEncode_v1`. -/
def orp_RecvStage (len : Nat) (count : Int) :
    List Nat × Nat × Nat → Option (List Nat × Nat × Nat)
  | (buf, idx, fl) =>
    if count ≥ 0 then
      let bufA := if fl ≠ 0 then buf.set idx 44 else buf
      let idxA := if fl ≠ 0 then idx + 1 else idx
      match orp_ReceivedCountEncode bufA idxA (len - idxA) count with
      | (_, none) => none
      | (bufB, some rlen) => some (bufB, idxA + rlen, rlen)
    else some (buf, idx, fl)

/-- The function `orp_ProtocolEncode_v1` of orpProtocol.c.  `len` is the
caller's buffer size (`*packetLen` on entry).  Returns the success
flag, the buffer (zeroed by `memset`, then written), the final `index`
(`*packetLen` on exit), and the message — whose `dataLen` the encoder
decrements by the data field length it emitted (identifier byte
included, with `size_t` wrap-around), exactly as the C does.  The
sequential field blocks of the C function are the `orp_*Stage`
definitions above. -/
def orp_ProtocolEncode_v1 (len : Nat) (msg : OrpMessage) :
    Bool × List Nat × Nat × OrpMessage :=
  if len < 4 then (false, List.replicate len 0, len, msg)
  else
    let buf0 := List.replicate len 0
    match orp_PacketTypeEncode msg.type with
    | none => (false, buf0, len, msg)
    | some letter =>
      let buf1 := buf0.set 0 letter
      match orp_PacketByte1Encode buf1 msg with
      | none => (false, buf1, len, msg)
      | some buf2 =>
        let buf3 := (buf2.set 2 (msg.sequenceNum &&& 0x00FF)).set 3
          ((msg.sequenceNum &&& 0xFF00) >>> 8)
        let st1 := orp_TimeStage len msg.timestamp buf3
        match orp_PathStage len msg.path st1 with
        | none => (false, st1.1, len, msg)
        | some st2 =>
          let st3 := orp_DataStage len msg.data msg.dataLen st2
          let msg3 := if msg.dataLen ≠ 0 then
              { msg with dataLen := (msg.dataLen + 18446744073709551616 - st3.2.2.2) %
                18446744073709551616 }
            else msg
          if msg.type = 13 ∨ msg.type = 14 then
            match orp_MtuStage len msg.mtu (st3.1, st3.2.1, st3.2.2.1) with
            | none => (false, st3.1, len, msg3)
            | some st4 =>
              match orp_SentStage len msg.sentCount st4 with
              | none => (false, st4.1, len, msg3)
              | some st5 =>
                match orp_RecvStage len msg.receivedCount st5 with
                | none => (false, st5.1, len, msg3)
                | some st6 => (true, st6.1, st6.2.1, msg3)
          else (true, st3.1, st3.2.1, msg3)

/-- Message for the C4 experiment: a PUSH response with sequence
number 1. -/
def msgSeq1 : OrpMessage := { orp_MessageInit 134 0 with sequenceNum := 1 }

/-- Message for the C9 experiment: an INPUT_CREATE request with data
type BOOLEAN, path "/x" and unit "mV". -/
def msgUnit : OrpMessage := { orp_MessageInit 1 0 with dataType := 1, path := some [47, 120], unit := some [109, 86] }

/-- Message for the C7 experiment: a PUSH request with path "/a" and
three data bytes "123". -/
def msgDat3 : OrpMessage := { orp_MessageInit 6 0 with dataType := 2, path := some [47, 97], data := some [49, 50, 51], dataLen := 3 }

/-- Message for the C2 counterexample: a GET request with path "/a"
(PATH is GET's only required variable-length field). -/
def msgGet : OrpMessage := { orp_MessageInit 7 0 with path := some [47, 97] }

/-- C5 (failing input): `orp_EnumEncode 10` produces `'A'` (0x41) as the
claim states, but `orp_EnumDecode` — whose range checks use `||` where
`&&` was intended, so its first branch fires for every byte — maps
`'A'` to 17, not 10.  The round trip therefore fails for every
`v ∈ {10..35}`; values 0..9 do round-trip. -/
theorem orp_enum_roundtrip_fails_c5 :
    orp_EnumEncode 10 = some 65 ∧
    orp_EnumDecode 65 = some 17 ∧
    (orp_EnumEncode 10).bind orp_EnumDecode = some 17 ∧
    ((17 : Int) = 10 → False) ∧
    (orp_EnumEncode 9).bind orp_EnumDecode = some 9 := by
  decide

/-- C4 (failing input): encoding a PUSH response with
`sequenceNum = 1` stores the low byte at offset 2 and the high byte at
offset 3 (packet `['p', 0x40, 0x01, 0x00]`), as the wire layout says —
but the decoder computes `(pktBuf[2] << 8) | pktBuf[3]`, reading
offset 2 as the HIGH byte, so the decoded sequence number is 256, not
1. -/
theorem orp_seq_decode_byte_swapped_c4 :
    (orp_ProtocolEncode_v1 64 msgSeq1).1 = true ∧
    ((orp_ProtocolEncode_v1 64 msgSeq1).2.1).take 4 = [112, 64, 1, 0] ∧
    (orp_ProtocolDecode_v1 [112, 64, 1, 0, 0] 4).1 = true ∧
    (orp_ProtocolDecode_v1 [112, 64, 1, 0, 0] 4).2.1.sequenceNum = 256 ∧
    ((256 : Nat) = 1 → False) := by
  decide

/-- C9 (failing input): encoding
`{type = INPUT_CREATE rqst, dataType = BOOLEAN, path = "/x",
unit = "mV", sequenceNum = 0, timestamp unset}` succeeds but produces
the 7-byte packet `'I' 'B' 0x00 0x00 'P' '/' 'x'` — the encoder never
emits a units field, although the decoder parses `U` fields and the
packet-format comments document `units[]` for the create requests.  The
claimed 11-byte packet ending in `',' 'U' 'm' 'V'` is not produced. -/
theorem orp_units_not_encoded_c9 :
    (orp_ProtocolEncode_v1 64 msgUnit).1 = true ∧
    (orp_ProtocolEncode_v1 64 msgUnit).2.2.1 = 7 ∧
    ((orp_ProtocolEncode_v1 64 msgUnit).2.1).take 7 = [73, 66, 0, 0, 80, 47, 120] ∧
    (((orp_ProtocolEncode_v1 64 msgUnit).2.1).take 11 =
      [73, 66, 0, 0, 80, 47, 120, 44, 85, 109, 86] → False) := by
  decide

/-- C7 (failing input): encoding a PUSH request with three data bytes
into an ample buffer emits all three bytes, so the claim expects
`msg.dataLen` to be decremented to 0 — but the encoder subtracts
`fieldLen`, which includes the `'D'` identifier byte, so it subtracts
4 from 3 and the `size_t` field wraps to `2^64 - 1`. -/
theorem orp_dataLen_decrement_off_by_one_c7 :
    (orp_ProtocolEncode_v1 64 msgDat3).1 = true ∧
    ((orp_ProtocolEncode_v1 64 msgDat3).2.1).take 12 =
      [80, 78, 0, 0, 80, 47, 97, 44, 68, 49, 50, 51] ∧
    (orp_ProtocolEncode_v1 64 msgDat3).2.2.2.dataLen = 18446744073709551615 ∧
    ((18446744073709551615 : Nat) = 0 → False) := by
  decide

/-- C6 (counterexample): PATH is in PUSH's required-field mask, yet the
4-byte PUSH request packet with no variable-length fields decodes
successfully — the decoder never verifies PATH/TIME/DATA presence.
Conversely a well-formed GET request packet `'G' 0x00 0x00 0x00 'P' '/' 'a'`
fails to decode, because GET's mask has no byte-1 field and
`orp_PacketByte1Decode` starts from `status = false`. -/
theorem orp_decode_required_fields_c6_counterexample :
    orp_FieldRequired 6 ORP_MASK_PATH = true ∧
    (orp_ProtocolDecode_v1 [80, 78, 0, 0, 0] 4).1 = true ∧
    orp_FieldRequired 7 ORP_MASK_PATH = true ∧
    (orp_ProtocolDecode_v1 [71, 0, 0, 0, 80, 47, 97, 0] 7).1 = false := by
  decide

/-- C10 (counterexample): a decode that fails before the variable-length
scan — here an unrecognized packet-type byte `'X'` — leaves the caller's
buffer completely untouched: no separator is overwritten and no NUL is
written at index `pktLen` (position 4 keeps the value 55). -/
theorem orp_decode_mutation_c10_counterexample :
    (orp_ProtocolDecode_v1 [88, 48, 48, 48, 55] 4).1 = false ∧
    (orp_ProtocolDecode_v1 [88, 48, 48, 48, 55] 4).2.2 = [88, 48, 48, 48, 55] ∧
    (orp_ProtocolDecode_v1 [88, 48, 48, 48, 55] 4).2.2.getD 4 0 = 55 ∧
    ((55 : Nat) = 0 → False) := by
  decide

/-- C2 (counterexample): three departures from the claimed round trip,
at concrete inputs.  (a) A valid GET request (PATH required and
present) encodes successfully but fails to decode, because GET's
required mask carries no byte-1 field.  (b) A PUSH response with
`sequenceNum = 1` decodes with sequence number 256 (byte-swapped).
(c) The INPUT_CREATE request with `unit = "mV"` round-trips with
`unit = ""`: the encoder never emits the units field. -/
theorem orp_roundtrip_c2_counterexample :
    (orp_ProtocolEncode_v1 64 msgGet).1 = true ∧
    (orp_ProtocolDecode_v1
      (((orp_ProtocolEncode_v1 64 msgGet).2.1).take (orp_ProtocolEncode_v1 64 msgGet).2.2.1
        ++ [0])
      (orp_ProtocolEncode_v1 64 msgGet).2.2.1).1 = false ∧
    (orp_ProtocolDecode_v1 [112, 64, 1, 0, 0] 4).2.1.sequenceNum = 256 ∧
    (orp_ProtocolDecode_v1 [73, 66, 0, 0, 80, 47, 120, 0] 7).1 = true ∧
    (orp_ProtocolDecode_v1 [73, 66, 0, 0, 80, 47, 120, 0] 7).2.1.unit = some [] ∧
    (some ([] : List Nat) = some [109, 86] → False) := by
  decide

/-- Selecting a sub-mask of an all-clear mask is all-clear. -/
theorem and_submask_zero (a m s : Nat) (hz : a &&& m = 0) (hs : s = m &&& s) :
    a &&& s = 0 := by
  conv_lhs => rw [hs]
  rw [← Nat.and_assoc, hz, Nat.zero_and]

/-- `orp_EnumDecode` succeeds on every byte: its first range check,
written with `||`, is satisfied by every value. -/
theorem orp_EnumDecode_isSome (b : Nat) : (orp_EnumDecode b).isSome = true := by
  unfold orp_EnumDecode
  by_cases h : 48 ≤ toupperByte b ∨ toupperByte b ≤ 57
  · simp [h]
  · exfalso
    push_neg at h
    omega

/-- Each table entry is the first with its letter (letters are unique). -/
theorem packetTable_find_letter :
    ∀ e ∈ orp_PacketTypeTable,
      orp_PacketTypeTable.find? (fun x => x.1 = e.1) = some e := by
  decide

/-- Each table entry is the first with its type (types are unique). -/
theorem packetTable_find_type :
    ∀ e ∈ orp_PacketTypeTable,
      orp_PacketTypeTable.find? (fun x => x.2.1 = e.2.1) = some e := by
  decide

/-- `orp_FieldRequired` at a type of the table reads that entry's mask. -/
theorem orp_FieldRequired_eq (e : Nat × Nat × Nat) (he : e ∈ orp_PacketTypeTable)
    (m : Nat) : orp_FieldRequired e.2.1 m = decide (e.2.2 &&& m ≠ 0) := by
  unfold orp_FieldRequired
  rw [packetTable_find_type e he]

/-- A decode whose packet type has no byte-1 field (no STATUS, DATA_TYPE,
VERSION or EVENT bit, i.e. mask `&&& 0xE02 = 0`) fails for every packet
body, because `orp_PacketByte1Decode` falls through to its
`status = false` initialization. -/
theorem orp_decode_fails_of_no_byte1 (c : Nat) (restAll : List Nat) (pktLen : Nat)
    (h4 : ¬ pktLen < 4)
    (hmask : ∀ e ∈ orp_PacketTypeTable, e.1 = c → e.2.2 &&& 3586 = 0) :
    (orp_ProtocolDecode_v1 (c :: restAll) pktLen).1 = false := by
  unfold orp_ProtocolDecode_v1
  rw [if_neg h4]
  have hg : (c :: restAll).getD 0 0 = c := rfl
  rw [hg]
  cases hT : orp_PacketTypeDecode c with
  | none => simp
  | some t =>
    unfold orp_PacketTypeDecode at hT
    cases hf : orp_PacketTypeTable.find? (fun x => x.1 = c) with
    | none => rw [hf] at hT; simp at hT
    | some e =>
      rw [hf] at hT
      rw [show (some e).map (fun x => x.2.1) = some e.2.1 from rfl] at hT
      have hmem : e ∈ orp_PacketTypeTable := List.mem_of_find?_eq_some hf
      have hec : e.1 = c := by
        have := List.find?_some hf
        simpa using this
      have hzero := hmask e hmem hec
      have h512 : e.2.2 &&& 512 = 0 := and_submask_zero _ 3586 _ hzero (by decide)
      have h2 : e.2.2 &&& 2 = 0 := and_submask_zero _ 3586 _ hzero (by decide)
      have h1024 : e.2.2 &&& 1024 = 0 := and_submask_zero _ 3586 _ hzero (by decide)
      have h2048 : e.2.2 &&& 2048 = 0 := and_submask_zero _ 3586 _ hzero (by decide)
      have hb1 : orp_PacketByte1Decode (c :: restAll)
          { orp_MessageInInit with type := t } = none := by
        unfold orp_PacketByte1Decode
        have hmt : ({ orp_MessageInInit with type := t } : OrpMessage).type = t := rfl
        have htt : e.2.1 = t := by injection hT
        rw [hmt, ← htt]
        rw [orp_FieldRequired_eq e hmem ORP_MASK_STATUS,
          orp_FieldRequired_eq e hmem ORP_MASK_DATA_TYPE,
          orp_FieldRequired_eq e hmem ORP_MASK_VERSION,
          orp_FieldRequired_eq e hmem ORP_MASK_EVENT]
        simp [ORP_MASK_STATUS, ORP_MASK_DATA_TYPE, ORP_MASK_VERSION, ORP_MASK_EVENT,
          h512, h2, h1024, h2048]
      simp only [hb1]

/-- A 4-byte packet (header only, no variable-length fields) decodes
successfully once the packet type is known and the byte-1 decode
succeeds: the scan loop runs zero iterations and ends in SEARCH. -/
theorem orp_decode_4_of_byte1_some (letter b1 s1 s2 z t : Nat)
    (hT : orp_PacketTypeDecode letter = some t)
    (hB : (orp_PacketByte1Decode [letter, b1, s1, s2, z]
      { orp_MessageInInit with type := t }).isSome = true) :
    (orp_ProtocolDecode_v1 [letter, b1, s1, s2, z] 4).1 = true := by
  unfold orp_ProtocolDecode_v1
  rw [if_neg (by omega)]
  obtain ⟨msg2, hm⟩ := Option.isSome_iff_exists.mp hB
  simp [show ([letter, b1, s1, s2, z].getD 0 0) = letter from rfl, hT, hm,
    scanLoop, scanLoopF, scanAccInit]

/-- A 4-byte packet of a type whose mask holds a byte-1 field (STATUS,
DATA_TYPE, VERSION or EVENT) decodes successfully, provided byte 1 is a
valid data-type letter when the field is DATA_TYPE. -/
theorem orp_decode_ok_4 (letter b1 s1 s2 z : Nat)
    (hmask : ∃ e ∈ orp_PacketTypeTable, e.1 = letter ∧ e.2.2 &&& 3586 ≠ 0)
    (hdt : (∀ e ∈ orp_PacketTypeTable, e.1 = letter →
        e.2.2 &&& 2 = 0 ∨ e.2.2 &&& 512 ≠ 0) ∨
      (orp_DataTypeDecode b1).isSome = true) :
    (orp_ProtocolDecode_v1 [letter, b1, s1, s2, z] 4).1 = true := by
  obtain ⟨e, hmem, hlet, hmz⟩ := hmask
  have hT : orp_PacketTypeDecode letter = some e.2.1 := by
    unfold orp_PacketTypeDecode
    rw [← hlet, packetTable_find_letter e hmem]
    rfl
  have hmt : ({ orp_MessageInInit with type := e.2.1 } : OrpMessage).type = e.2.1 := rfl
  by_cases h512 : e.2.2 &&& 512 ≠ 0
  · refine orp_decode_4_of_byte1_some letter b1 s1 s2 z e.2.1 hT ?_
    unfold orp_PacketByte1Decode
    rw [hmt, orp_FieldRequired_eq e hmem ORP_MASK_STATUS]
    simp [ORP_MASK_STATUS, h512]
  · by_cases h2 : e.2.2 &&& 2 ≠ 0
    · have hds : (orp_DataTypeDecode b1).isSome = true := by
        rcases hdt with hall | hsome
        · rcases hall e hmem hlet with h | h
          · exact absurd h h2
          · exact absurd h h512
        · exact hsome
      obtain ⟨dv, hdv⟩ := Option.isSome_iff_exists.mp hds
      refine orp_decode_4_of_byte1_some letter b1 s1 s2 z e.2.1 hT ?_
      unfold orp_PacketByte1Decode
      rw [hmt, orp_FieldRequired_eq e hmem ORP_MASK_STATUS,
        orp_FieldRequired_eq e hmem ORP_MASK_DATA_TYPE]
      rw [show ([letter, b1, s1, s2, z].getD 1 0) = b1 from rfl]
      simp only [ORP_MASK_STATUS, ORP_MASK_DATA_TYPE]
      push_neg at h512
      simp [h512, h2, hdv]
    · by_cases h1024 : e.2.2 &&& 1024 ≠ 0
      · refine orp_decode_4_of_byte1_some letter b1 s1 s2 z e.2.1 hT ?_
        unfold orp_PacketByte1Decode
        rw [hmt, orp_FieldRequired_eq e hmem ORP_MASK_STATUS,
          orp_FieldRequired_eq e hmem ORP_MASK_DATA_TYPE,
          orp_FieldRequired_eq e hmem ORP_MASK_VERSION]
        simp only [ORP_MASK_STATUS, ORP_MASK_DATA_TYPE, ORP_MASK_VERSION]
        push_neg at h512 h2
        simp [h512, h2, h1024, orp_EnumDecode_isSome]
      · have h2048 : e.2.2 &&& 2048 ≠ 0 := by
          intro hz
          apply hmz
          have hsplit : e.2.2 &&& 3586 =
              e.2.2 &&& 512 ||| (e.2.2 &&& 2 ||| (e.2.2 &&& 1024 ||| (e.2.2 &&& 2048))) := by
            rw [show (3586 : Nat) = 512 ||| (2 ||| (1024 ||| 2048)) from by decide,
              Nat.and_or_distrib_left, Nat.and_or_distrib_left, Nat.and_or_distrib_left]
          push_neg at h512 h2 h1024
          rw [hsplit, h512, h2, h1024, hz]
          decide
        refine orp_decode_4_of_byte1_some letter b1 s1 s2 z e.2.1 hT ?_
        unfold orp_PacketByte1Decode
        rw [hmt, orp_FieldRequired_eq e hmem ORP_MASK_STATUS,
          orp_FieldRequired_eq e hmem ORP_MASK_DATA_TYPE,
          orp_FieldRequired_eq e hmem ORP_MASK_VERSION,
          orp_FieldRequired_eq e hmem ORP_MASK_EVENT]
        simp only [ORP_MASK_STATUS, ORP_MASK_DATA_TYPE, ORP_MASK_VERSION, ORP_MASK_EVENT]
        push_neg at h512 h2 h1024
        simp [h512, h2, h1024, h2048, orp_EnumDecode_isSome]

/-- C6 (amended): the decoder verifies only the byte-1 field chosen by
the packet type's mask (STATUS, DATA_TYPE, VERSION or EVENT — bits
0xE02 = 3586); required variable-length fields are never checked.  For
every table entry: (i) when the mask has none of the four byte-1 bits,
decoding fails for every packet body, even with all required fields
present; (ii) when the mask has a byte-1 bit, the bare 4-byte packet
decodes successfully — with PATH, TIME or DATA required yet absent —
provided byte 1 is a valid data-type letter when DATA_TYPE is
required. -/
theorem orp_decode_byte1_only_c6 :
    ∀ e ∈ orp_PacketTypeTable,
      (e.2.2 &&& 3586 = 0 →
        ∀ (b1 s1 s2 : Nat) (rest : List Nat),
          (orp_ProtocolDecode_v1 (e.1 :: b1 :: s1 :: s2 :: rest)
            (4 + rest.length)).1 = false) ∧
      (e.2.2 &&& 3586 ≠ 0 →
        ∀ b1 s1 s2 z : Nat,
          (orp_FieldRequired e.2.1 ORP_MASK_DATA_TYPE = true →
            (orp_DataTypeDecode b1).isSome = true) →
          (orp_ProtocolDecode_v1 [e.1, b1, s1, s2, z] 4).1 = true) := by
  intro e he
  fin_cases he <;>
    refine ⟨fun hm => ?_, fun hm => ?_⟩ <;>
    first
      | exact absurd hm (by decide)
      | exact absurd (by decide) hm
      | (intro b1 s1 s2 rest
         exact orp_decode_fails_of_no_byte1 _ _ _ (by omega) (by decide))
      | (intro b1 s1 s2 z hdt
         first
           | exact orp_decode_ok_4 _ b1 s1 s2 z (by decide) (Or.inl (by decide))
           | exact orp_decode_ok_4 _ b1 s1 s2 z (by decide)
               (Or.inr (hdt (by decide))))

/-- Witness for the amended C6 theorem at concrete entries: the
INPUT_CREATE row (byte-1 field DATA_TYPE) decodes a bare 4-byte packet
despite its required PATH being absent, and the GET row (no byte-1
field) fails on its bare packet. -/
theorem orp_decode_byte1_only_c6_witness :
    ((73, 1, ORP_MASK_DATA_TYPE ||| ORP_MASK_PATH) ∈ orp_PacketTypeTable ∧
      (orp_ProtocolDecode_v1 [73, 66, 0, 0, 0] 4).1 = true) ∧
    ((71, 7, ORP_MASK_PATH) ∈ orp_PacketTypeTable ∧
      (orp_ProtocolDecode_v1 [71, 66, 0, 0] 4).1 = false) := by
  constructor
  · refine ⟨by decide, ?_⟩
    exact (orp_decode_byte1_only_c6 (73, 1, ORP_MASK_DATA_TYPE ||| ORP_MASK_PATH)
      (by decide)).2 (by decide) 66 0 0 0 (fun _ => by decide)
  · refine ⟨by decide, ?_⟩
    exact (orp_decode_byte1_only_c6 (71, 7, ORP_MASK_PATH)
      (by decide)).1 (by decide) 66 0 0 []

/-- The in-place mutation contract of the decoder's scan relative to the
original buffer: same length, and every byte is either unchanged or a
NUL that overwrote a separator comma or the byte at index `pktLen`. -/
def mutationOk (pktLen : Nat) (a b : List Nat) : Prop :=
  b.length = a.length ∧
  ∀ j, b.getD j 0 = a.getD j 0 ∨ (b.getD j 0 = 0 ∧ (a.getD j 0 = 44 ∨ j = pktLen))

theorem getD_set_cases (l : List Nat) (i j v : Nat) :
    (l.set i v).getD j 0 = l.getD j 0 ∨
      ((l.set i v).getD j 0 = v ∧ j = i ∧ i < l.length) := by
  by_cases hij : i = j
  · subst hij
    by_cases hi : i < l.length
    · right
      refine ⟨?_, rfl, hi⟩
      rw [List.getD_eq_getElem?_getD, List.getElem?_set_self hi]
      rfl
    · left
      rw [List.set_eq_of_length_le (by omega)]
  · left
    rw [List.getD_eq_getElem?_getD, List.getElem?_set_ne hij, ← List.getD_eq_getElem?_getD]

theorem mutationOk_refl (p : Nat) (a : List Nat) : mutationOk p a a :=
  ⟨rfl, fun _ => Or.inl rfl⟩

theorem mutationOk_trans (p : Nat) (a b c : List Nat) (h1 : mutationOk p a b)
    (h2 : mutationOk p b c) : mutationOk p a c := by
  obtain ⟨hl1, hp1⟩ := h1
  obtain ⟨hl2, hp2⟩ := h2
  refine ⟨hl2.trans hl1, fun j => ?_⟩
  rcases hp2 j with h | ⟨hz, hc⟩
  · rcases hp1 j with h' | ⟨hz', hc'⟩
    · exact Or.inl (h.trans h')
    · exact Or.inr ⟨h.trans hz', hc'⟩
  · rcases hc with hc | hc
    · rcases hp1 j with h' | ⟨hz', _⟩
      · exact Or.inr ⟨hz, Or.inl (h'.symm.trans hc)⟩
      · rw [hz'] at hc
        exact absurd hc (by decide)
    · exact Or.inr ⟨hz, Or.inr hc⟩

theorem mutationOk_set_comma (p : Nat) (a : List Nat) (i : Nat) (h : a.getD i 0 = 44) :
    mutationOk p a (a.set i 0) := by
  refine ⟨List.length_set a i 0, fun j => ?_⟩
  rcases getD_set_cases a i j 0 with hcase | ⟨hv, hj, _⟩
  · exact Or.inl hcase
  · subst hj
    exact Or.inr ⟨hv, Or.inl h⟩

theorem mutationOk_set_end (p : Nat) (a : List Nat) :
    mutationOk p a (a.set p 0) := by
  refine ⟨List.length_set a p 0, fun j => ?_⟩
  rcases getD_set_cases a p j 0 with hcase | ⟨hv, hj, _⟩
  · exact Or.inl hcase
  · exact Or.inr ⟨hv, Or.inr hj⟩

/-- One unfolding step of the scan worker. -/
theorem scanLoopF_succ (fuel : Nat) (buf : List Nat) (pktLen i : Nat)
    (st : ScanState) (acc : ScanAcc) :
    scanLoopF (fuel + 1) buf pktLen i st acc =
      if st = ScanState.done ∨ st = ScanState.error then (buf, acc, st)
      else
        let b := buf.getD i 0
        if b = 44 then
          scanLoopF fuel (buf.set i 0) pktLen (i + 1) ScanState.search acc
        else
          match st with
          | ScanState.search =>
            if b = 80 then
              scanLoopF fuel buf pktLen (i + 1) ScanState.infield
                { acc with pathIdx := some (i + 1) }
            else if b = 84 then
              scanLoopF fuel buf pktLen (i + 1) ScanState.infield
                { acc with timeIdx := some (i + 1) }
            else if b = 85 then
              scanLoopF fuel buf pktLen (i + 1) ScanState.infield
                { acc with unitIdx := some (i + 1) }
            else if b = 68 then
              scanLoopF fuel (buf.set pktLen 0) pktLen (i + 1) ScanState.done
                { acc with dataIdx := some (i + 1), dataLen := pktLen - i - 1 }
            else if b = 77 then
              let r := strtoulModel (buf.drop (i + 1))
              if r.2 then scanLoopF fuel buf pktLen (i + 1) ScanState.error acc
              else scanLoopF fuel buf pktLen (i + 1) ScanState.infield
                { acc with mtu := toInt32 r.1 }
            else if b = 82 then
              let r := strtoulModel (buf.drop (i + 1))
              if r.2 then scanLoopF fuel buf pktLen (i + 1) ScanState.error acc
              else scanLoopF fuel buf pktLen (i + 1) ScanState.infield
                { acc with receivedCount := toInt32 r.1 }
            else if b = 83 then
              let r := strtoulModel (buf.drop (i + 1))
              if r.2 then scanLoopF fuel buf pktLen (i + 1) ScanState.error acc
              else scanLoopF fuel buf pktLen (i + 1) ScanState.infield
                { acc with sentCount := toInt32 r.1 }
            else
              scanLoopF fuel buf pktLen (i + 1) ScanState.error acc
          | ScanState.infield => scanLoopF fuel buf pktLen (i + 1) ScanState.infield acc
          | _ => (buf, acc, st) := rfl

/-- The scan worker respects the mutation contract for every fuel. -/
theorem scanLoopF_mutationOk (fuel : Nat) :
    ∀ (buf : List Nat) (pktLen i : Nat) (st : ScanState) (acc : ScanAcc),
      mutationOk pktLen buf (scanLoopF fuel buf pktLen i st acc).1 := by
  induction fuel with
  | zero =>
    intro buf p i st acc
    exact mutationOk_refl _ _
  | succ fuel ih =>
    intro buf p i st acc
    rw [scanLoopF_succ]
    by_cases hst : st = ScanState.done ∨ st = ScanState.error
    · rw [if_pos hst]
      exact mutationOk_refl _ _
    · rw [if_neg hst]
      by_cases hb : buf.getD i 0 = 44
      · simp only [hb, if_pos rfl]
        exact mutationOk_trans p _ _ _ (mutationOk_set_comma p buf i hb) (ih _ _ _ _ _)
      · simp only [if_neg hb]
        cases st with
        | done => exact absurd (Or.inl rfl) hst
        | error => exact absurd (Or.inr rfl) hst
        | infield => exact ih _ _ _ _ _
        | search =>
          split_ifs <;>
            first
              | exact ih _ _ _ _ _
              | exact mutationOk_trans p _ _ _ (mutationOk_set_end p buf) (ih _ _ _ _ _)

theorem scanLoop_mutationOk (buf : List Nat) (pktLen i : Nat) (st : ScanState)
    (acc : ScanAcc) : mutationOk pktLen buf (scanLoop buf pktLen i st acc).1 :=
  scanLoopF_mutationOk _ _ _ _ _ _

/-- Once the header checks pass, every decode outcome returns the
scanned buffer with a NUL written at index `pktLen`. -/
theorem orp_decode_buf2 (pktBuf : List Nat) (pktLen t : Nat)
    (h4 : ¬ pktLen < 4)
    (hT : orp_PacketTypeDecode (pktBuf.getD 0 0) = some t)
    (hB : (orp_PacketByte1Decode pktBuf
      { orp_MessageInInit with type := t }).isSome = true) :
    (orp_ProtocolDecode_v1 pktBuf pktLen).2.2 =
      (scanLoop pktBuf pktLen 4 ScanState.search scanAccInit).1.set pktLen 0 := by
  unfold orp_ProtocolDecode_v1
  rw [if_neg h4, hT]
  obtain ⟨msg2, hm⟩ := Option.isSome_iff_exists.mp hB
  simp only [hm]
  cases htix : (scanLoop pktBuf pktLen 4 ScanState.search scanAccInit).2.1.timeIdx with
  | none => simp [htix]
  | some ti =>
    simp only [htix]
    cases htd : orp_TimeDecode
        (cString ((scanLoop pktBuf pktLen 4 ScanState.search scanAccInit).1.set pktLen 0)
          ti) with
    | none => simp [htd]
    | some tv => simp [htd]

/-- C10 (amended): once the header checks pass (`pktLen >= 4`, known
type byte, byte-1 decode succeeds), the decoder mutates the caller's
buffer in place under the separator contract: the length is preserved,
every byte is either unchanged or a NUL overwriting a separator comma
or the byte at index `pktLen`, and with capacity `pktLen + 1` the byte
at `pktLen` is NUL afterwards.  (A decode failing the header checks
returns the buffer untouched, see the counterexample.) -/
theorem orp_decode_mutation_c10_amended (pktBuf : List Nat) (pktLen t : Nat)
    (h4 : ¬ pktLen < 4)
    (hT : orp_PacketTypeDecode (pktBuf.getD 0 0) = some t)
    (hB : (orp_PacketByte1Decode pktBuf
      { orp_MessageInInit with type := t }).isSome = true) :
    (orp_ProtocolDecode_v1 pktBuf pktLen).2.2.length = pktBuf.length ∧
    (pktLen < pktBuf.length →
      (orp_ProtocolDecode_v1 pktBuf pktLen).2.2.getD pktLen 0 = 0) ∧
    ∀ j, (orp_ProtocolDecode_v1 pktBuf pktLen).2.2.getD j 0 = pktBuf.getD j 0 ∨
      ((orp_ProtocolDecode_v1 pktBuf pktLen).2.2.getD j 0 = 0 ∧
        (pktBuf.getD j 0 = 44 ∨ j = pktLen)) := by
  rw [orp_decode_buf2 pktBuf pktLen t h4 hT hB]
  have hscan := scanLoop_mutationOk pktBuf pktLen 4 ScanState.search scanAccInit
  have hfull : mutationOk pktLen pktBuf
      ((scanLoop pktBuf pktLen 4 ScanState.search scanAccInit).1.set pktLen 0) :=
    mutationOk_trans pktLen _ _ _ hscan
      (mutationOk_set_end pktLen (scanLoop pktBuf pktLen 4 ScanState.search scanAccInit).1)
  refine ⟨hfull.1, fun hlt => ?_, hfull.2⟩
  rw [List.getD_eq_getElem?_getD, List.getElem?_set_self (by rw [hscan.1]; exact hlt)]
  rfl

/-- Witness for the amended C10 theorem on a concrete PUSH packet
`"PN\x00\x00P/a,D123"` with one spare byte of capacity: length
preserved and NUL written at index `pktLen`. -/
theorem orp_decode_mutation_c10_amended_witness :
    (orp_ProtocolDecode_v1 [80, 78, 0, 0, 80, 47, 97, 44, 68, 49, 50, 51, 99]
      12).2.2.length = 13 ∧
    (orp_ProtocolDecode_v1 [80, 78, 0, 0, 80, 47, 97, 44, 68, 49, 50, 51, 99]
      12).2.2.getD 12 0 = 0 := by
  have h := orp_decode_mutation_c10_amended
    [80, 78, 0, 0, 80, 47, 97, 44, 68, 49, 50, 51, 99] 12 6
    (by decide) (by decide) (by decide)
  exact ⟨by rw [h.1]; decide, h.2.1 (by decide)⟩

theorem natToDigits_ne_nil (n : Nat) : natToDigits n ≠ [] := by
  rw [natToDigits_eq]
  by_cases h : n < 10 <;> simp [h]

theorem natToDigits_digits (n : Nat) : ∀ b ∈ natToDigits n, 48 ≤ b ∧ b ≤ 57 := by
  induction n using Nat.strong_induction_on with
  | _ n ih =>
    rw [natToDigits_eq]
    by_cases hn : n < 10
    · rw [if_pos hn]
      intro b hb
      simp at hb
      omega
    · rw [if_neg hn]
      intro b hb
      rcases List.mem_append.mp hb with h | h
      · exact ih (n / 10) (by omega) b h
      · simp at h
        omega

theorem digitsToNat_append_one (s : List Nat) (d : Nat) :
    digitsToNat (s ++ [d]) = digitsToNat s * 10 + (d - 48) := by
  simp [digitsToNat, List.foldl_append]

theorem digitsToNat_natToDigits (n : Nat) : digitsToNat (natToDigits n) = n := by
  induction n using Nat.strong_induction_on with
  | _ n ih =>
    rw [natToDigits_eq]
    by_cases hn : n < 10
    · rw [if_pos hn]
      simp [digitsToNat]
    · rw [if_neg hn, digitsToNat_append_one, ih (n / 10) (by omega)]
      omega

theorem natToDigits_length_le (k : Nat) : ∀ n : Nat, n < 10 ^ k → 1 ≤ k →
    (natToDigits n).length ≤ k := by
  induction k with
  | zero => omega
  | succ k ih =>
    intro n hn _
    rw [natToDigits_eq]
    by_cases h10 : n < 10
    · simp [h10]
    · rw [if_neg h10]
      have hk1 : 1 ≤ k := by
        by_contra hk
        have : k = 0 := by omega
        subst this
        simp at hn
        omega
      have : n / 10 < 10 ^ k := by
        rw [pow_succ] at hn
        omega
      have := ih (n / 10) this hk1
      simp [List.length_append]
      omega

theorem natToDigits_head (n : Nat) (hn : n ≠ 0) :
    ∃ h tl, natToDigits n = h :: tl ∧ h ≠ 48 := by
  induction n using Nat.strong_induction_on with
  | _ n ih =>
    rw [natToDigits_eq]
    by_cases h10 : n < 10
    · rw [if_pos h10]
      exact ⟨48 + n, [], rfl, by omega⟩
    · rw [if_neg h10]
      obtain ⟨h, tl, heq, h48⟩ := ih (n / 10) (by omega) (by omega)
      exact ⟨h, tl ++ [48 + n % 10], by rw [heq]; rfl, h48⟩

theorem parseBase_cons (base a b : Nat) (l : List Nat) :
    parseBase base a (b :: l) = match digitVal base b with
      | some d => parseBase base (a * base + d) l
      | none => a := rfl

theorem parseBase_digits (s : List Nat) (hd : ∀ b ∈ s, 48 ≤ b ∧ b ≤ 57) :
    ∀ (a : Nat) (r : List Nat),
      parseBase 10 a (s ++ r) = parseBase 10 (s.foldl (fun x b => x * 10 + (b - 48)) a) r := by
  induction s with
  | nil => intro a r; rfl
  | cons b s' ih =>
    intro a r
    have hb := hd b (by simp)
    have hdv : digitVal 10 b = some (b - 48) := by
      unfold digitVal
      rw [if_pos ⟨hb.1, hb.2, by omega⟩]
    rw [List.cons_append, parseBase_cons, hdv]
    exact ih (fun x hx => hd x (by simp [hx])) (a * 10 + (b - 48)) r

theorem parseBase_stop (a : Nat) (tail : List Nat)
    (htail : tail = [] ∨ ∃ t', tail = 44 :: t') : parseBase 10 a tail = a := by
  rcases htail with rfl | ⟨t', rfl⟩
  · rfl
  · unfold parseBase
    rw [show digitVal 10 44 = none from by decide]

/-- `strtoul` on a rendered decimal number followed by a comma or the
end of the field parses the number back exactly. -/
theorem strtoul_digits (n : Nat) (tail : List Nat)
    (hn : n < 18446744073709551616)
    (htail : tail = [] ∨ ∃ t', tail = 44 :: t') :
    strtoulModel (natToDigits n ++ tail) = (n, false) := by
  have hval : parseBase 10 0 (natToDigits n ++ tail) = n := by
    rw [parseBase_digits (natToDigits n) (natToDigits_digits n) 0 tail]
    rw [show (natToDigits n).foldl (fun x b => x * 10 + (b - 48)) 0 = n from
      digitsToNat_natToDigits n]
    exact parseBase_stop n tail htail
  by_cases hn0 : n = 0
  · subst hn0
    rcases htail with rfl | ⟨t', rfl⟩
    · decide
    · show strtoulModel (48 :: 44 :: t') = (0, false)
      unfold strtoulModel
      simp [parseBase, digitVal]
  · obtain ⟨h, tl, heq, h48⟩ := natToDigits_head n hn0
    rw [heq] at hval ⊢
    show strtoulModel (h :: (tl ++ tail)) = (n, false)
    unfold strtoulModel
    split
    · next heq2 => injection heq2 with he1 _; exact absurd he1 h48
    · next heq2 => injection heq2 with he1 _; exact absurd he1 h48
    · next r heq2 => injection heq2 with he1 _; exact absurd he1 h48
    · next r hne1 hne2 hne3 =>
        show (if parseBase 10 0 (h :: (tl ++ tail)) < 18446744073709551616 then
          (parseBase 10 0 (h :: (tl ++ tail)), false) else _) = (n, false)
        rw [show parseBase 10 0 (h :: (tl ++ tail)) = n from hval]
        rw [if_pos hn]

theorem digitVal_none_of_nd (base z : Nat) (hb : base ≤ 10) (hz : ¬(48 ≤ z ∧ z ≤ 57)) :
    digitVal base z = none := by
  unfold digitVal
  rw [if_neg (by omega), if_neg (by omega), if_neg (by omega)]

/-- `strtoul` on a rendered decimal number whose terminating NUL has
not been written yet: as long as the stale byte that follows is not an
ASCII digit, the parse still stops there and the number comes back
exactly. -/
theorem strtoul_digits_nd (n z : Nat) (hn : n < 18446744073709551616)
    (hz : ¬(48 ≤ z ∧ z ≤ 57)) :
    strtoulModel (natToDigits n ++ [z]) = (n, false) := by
  by_cases hn0 : n = 0
  · subst hn0
    have h0 : natToDigits 0 ++ [z] = [48, z] := by
      rw [natToDigits_eq]
      rfl
    rw [h0]
    by_cases hx : z = 120
    · subst hx
      decide
    · by_cases hX : z = 88
      · subst hX
        decide
      · show strtoulModel (48 :: z :: []) = (0, false)
        unfold strtoulModel
        split
        · next heq =>
            injection heq with h1 h2
            injection h2 with h2a h2b
            exact absurd h2a hx
        · next heq =>
            injection heq with h1 h2
            injection h2 with h2a h2b
            exact absurd h2a hX
        · next r heq =>
            injection heq with h1 h2
            subst h2
            rw [show parseBase 8 0 (48 :: z :: []) = 0 from by
              rw [parseBase_cons, show digitVal 8 48 = some 0 from by decide]
              show parseBase 8 (0 * 8 + 0) (z :: []) = 0
              rw [parseBase_cons, digitVal_none_of_nd 8 z (by omega) hz]]
            rw [if_pos (by norm_num)]
        · next r hne1 hne2 hne3 =>
            exact absurd rfl (hne3 (z :: []))
  · obtain ⟨h, tl, heq, h48⟩ := natToDigits_head n hn0
    have hval : parseBase 10 0 (natToDigits n ++ [z]) = n := by
      rw [parseBase_digits (natToDigits n) (natToDigits_digits n) 0 [z]]
      rw [show (natToDigits n).foldl (fun x b => x * 10 + (b - 48)) 0 = n from
        digitsToNat_natToDigits n]
      rw [parseBase_cons, digitVal_none_of_nd 10 z (by omega) hz]
    rw [heq] at hval ⊢
    show strtoulModel (h :: (tl ++ [z])) = (n, false)
    unfold strtoulModel
    split
    · next heq2 => injection heq2 with he1 _; exact absurd he1 h48
    · next heq2 => injection heq2 with he1 _; exact absurd he1 h48
    · next r heq2 => injection heq2 with he1 _; exact absurd he1 h48
    · next r hne1 hne2 hne3 =>
        show (if parseBase 10 0 (h :: (tl ++ [z])) < 18446744073709551616 then
          (parseBase 10 0 (h :: (tl ++ [z])), false) else _) = (n, false)
        rw [show parseBase 10 0 (h :: (tl ++ [z])) = n from hval]
        rw [if_pos hn]

theorem takeWhile_digits (s : List Nat) (hd : ∀ b ∈ s, 48 ≤ b ∧ b ≤ 57) :
    s.takeWhile (fun b => isDigitByte b) = s := by
  induction s with
  | nil => rfl
  | cons b s' ih =>
    have hb := hd b (by simp)
    rw [List.takeWhile_cons, if_pos (by simp [isDigitByte]; omega)]
    rw [ih (fun x hx => hd x (by simp [hx]))]

theorem timeScan_cons (c : Nat) (r : List Nat) (i : Nat) (d : Option Nat) :
    timeScan (c :: r) i d =
      if isDigitByte c then timeScan r (i + 1) d
      else if c = 46 ∧ d = none then timeScan r (i + 1) (some i)
      else none := rfl

theorem timeScan_digits (s : List Nat) (hd : ∀ b ∈ s, 48 ≤ b ∧ b ≤ 57) :
    ∀ (r : List Nat) (i : Nat) (d : Option Nat),
      timeScan (s ++ r) i d = timeScan r (i + s.length) d := by
  induction s with
  | nil => intro r i d; simp
  | cons b s' ih =>
    intro r i d
    have hb := hd b (by simp)
    show timeScan (b :: (s' ++ r)) i d = _
    rw [timeScan_cons]
    rw [if_pos (by simp only [isDigitByte, Bool.and_eq_true, decide_eq_true_eq]; omega)]
    rw [ih (fun x hx => hd x (by simp [hx])) r (i + 1) d]
    have hlen2 : i + (b :: s').length = i + 1 + s'.length := by
      simp only [List.length_cons]
      omega
    rw [hlen2]

theorem pad6_digits (m : Nat) : ∀ b ∈ pad6 m, 48 ≤ b ∧ b ≤ 57 := by
  intro b hb
  unfold pad6 at hb
  rcases List.mem_append.mp hb with h | h
  · have := List.eq_of_mem_replicate h
    omega
  · exact natToDigits_digits m b h

theorem pad6_length (m : Nat) (hm : m < 1000000) : (pad6 m).length = 6 := by
  have hlen : (natToDigits m).length ≤ 6 :=
    natToDigits_length_le 6 m (by norm_num; omega) (by norm_num)
  unfold pad6
  simp
  omega

theorem foldl_replicate_48 (j : Nat) :
    ∀ a : Nat, (List.replicate j 48).foldl (fun x b => x * 10 + (b - 48)) a = a * 10 ^ j := by
  induction j with
  | zero => intro a; simp
  | succ j ih =>
    intro a
    rw [List.replicate_succ]
    show (List.replicate j 48).foldl _ (a * 10 + (48 - 48)) = _
    rw [ih (a * 10 + (48 - 48))]
    simp [pow_succ]
    ring

theorem digitsToNat_pad6 (m : Nat) : digitsToNat (pad6 m) = m := by
  unfold pad6 digitsToNat
  rw [List.foldl_append, foldl_replicate_48]
  simp
  exact digitsToNat_natToDigits m

/-- `orp_TimeDecode` parses the `%lf` rendering `sec.micro6` back to the
exact decimal it came from. -/
theorem timeDecode_render (s m : Nat) (hs : s < 10000000000) (hm : m < 1000000) :
    orp_TimeDecode (natToDigits s ++ 46 :: pad6 m) = some (OrpTime.dec s m) := by
  have hslen : (natToDigits s).length ≤ 10 :=
    natToDigits_length_le 10 s (by norm_num; omega) (by norm_num)
  have hsne : (natToDigits s).length ≥ 1 := by
    have := natToDigits_ne_nil s
    cases hh : natToDigits s with
    | nil => exact absurd hh this
    | cons a l => simp [hh]
  have hplen : (pad6 m).length = 6 := pad6_length m hm
  have hlen : (natToDigits s ++ 46 :: pad6 m).length = (natToDigits s).length + 7 := by
    simp [hplen]
  have hscan : timeScan (natToDigits s ++ 46 :: pad6 m) 0 none =
      some (some (natToDigits s).length) := by
    rw [timeScan_digits (natToDigits s) (natToDigits_digits s) (46 :: pad6 m) 0 none]
    show timeScan (46 :: pad6 m) (0 + (natToDigits s).length) none = _
    rw [timeScan_cons]
    rw [if_neg (by simp [isDigitByte]), if_pos (by simp)]
    rw [show pad6 m = pad6 m ++ [] from (List.append_nil _).symm]
    rw [timeScan_digits (pad6 m) (pad6_digits m) [] _ _]
    show some (some (0 + (natToDigits s).length)) = _
    simp
  unfold orp_TimeDecode
  rw [if_neg (by
    rw [hlen]
    unfold ORP_PROTOCOL_TIMESTAMP_LEN_MAX
    omega)]
  simp only [hscan, Option.getD_some, Option.isSome_some]
  split_ifs with hc1 hc2
  · exfalso
    rw [hlen] at hc1
    unfold ORP_PROTOCOL_TIMESTAMP_DECIMAL_LEN_MAX at hc1
    omega
  · exfalso
    unfold ORP_PROTOCOL_TIMESTAMP_INTEGER_LEN_MAX at hc2
    omega
  unfold strtodModel
  have htw : (natToDigits s ++ 46 :: pad6 m).takeWhile (fun b => isDigitByte b) =
      natToDigits s := by
    rw [List.takeWhile_append, takeWhile_digits (natToDigits s) (natToDigits_digits s)]
    rw [if_pos rfl]
    rw [List.takeWhile_cons, if_neg (by simp [isDigitByte])]
    simp
  have hdrop : List.drop (natToDigits s).length (natToDigits s ++ 46 :: pad6 m) =
      46 :: pad6 m := List.drop_left _ _
  simp only [htw, hdrop,
    show (pad6 m).takeWhile (fun b => isDigitByte b) = pad6 m from
      takeWhile_digits (pad6 m) (pad6_digits m)]
  rw [if_neg (by
    intro hcon
    exact natToDigits_ne_nil s hcon.1)]
  rw [digitsToNat_natToDigits, digitsToNat_pad6, hplen]
  simp

/-- Status byte round trip over the whole faithful range. -/
theorem status_roundtrip (s : Int) (h1 : -191 ≤ s) (h2 : s ≤ 64) :
    orp_StatusDecode (orp_StatusEncode s) = s := by
  unfold orp_StatusEncode orp_StatusDecode
  rw [Int.emod_eq_of_lt (by omega) (by omega)]
  rw [Int.toNat_of_nonneg (by omega)]
  omega

/-- Data-type byte round trip on the table's values. -/
theorem dataType_roundtrip (d : Int)
    (hd : d = 0 ∨ d = 1 ∨ d = 2 ∨ d = 3 ∨ d = 4 ∨ d = -1) :
    ∃ b, orp_DataTypeEncode d = some b ∧ orp_DataTypeDecode b = some d := by
  rcases hd with rfl | rfl | rfl | rfl | rfl | rfl
  · exact ⟨84, by decide, by decide⟩
  · exact ⟨66, by decide, by decide⟩
  · exact ⟨78, by decide, by decide⟩
  · exact ⟨83, by decide, by decide⟩
  · exact ⟨74, by decide, by decide⟩
  · exact ⟨32, by decide, by decide⟩

/-- Event byte round trip on 0..9 (the decoder's digit branch). -/
theorem event_roundtrip (s : Int) (h0 : 0 ≤ s) (h9 : s ≤ 9) :
    ∃ b, orp_EnumEncode s = some b ∧ orp_EnumDecode b = some s := by
  interval_cases s
  · exact ⟨48, by decide, by decide⟩
  · exact ⟨49, by decide, by decide⟩
  · exact ⟨50, by decide, by decide⟩
  · exact ⟨51, by decide, by decide⟩
  · exact ⟨52, by decide, by decide⟩
  · exact ⟨53, by decide, by decide⟩
  · exact ⟨54, by decide, by decide⟩
  · exact ⟨55, by decide, by decide⟩
  · exact ⟨56, by decide, by decide⟩
  · exact ⟨57, by decide, by decide⟩

theorem and_ff00_eq (x : Nat) : x &&& 65280 = ((x >>> 8) &&& 255) <<< 8 := by
  rw [show (65280 : Nat) = 255 <<< 8 from rfl]
  apply Nat.eq_of_testBit_eq
  intro i
  simp only [Nat.testBit_and, Nat.testBit_shiftLeft, Nat.testBit_shiftRight]
  by_cases h8 : 8 ≤ i
  · rw [show (8 : Nat) + (i - 8) = i from by omega]
    cases hx : x.testBit i <;> cases h255 : Nat.testBit 255 (i - 8) <;>
      simp [hx, h255, h8]
  · simp [h8]

theorem shiftLeft8_shiftRight8 (a : Nat) : (a <<< 8) >>> 8 = a := by
  simp [Nat.shiftLeft_eq, Nat.shiftRight_eq_div_pow]

theorem and_255_mod (x : Nat) : x &&& 255 = x % 256 := by
  have h : (255 : Nat) = 2 ^ 8 - 1 := by norm_num
  rw [h, Nat.and_pow_two_sub_one_eq_mod]
  try norm_num

/-- The decoder's sequence-number expression applied to the encoder's
two stored bytes: the decoded value is the byte-swap of the original. -/
theorem seq_decode_encode (x : Nat) (hx : x < 65536) :
    (((x &&& 255) <<< 8) &&& 65280) + (((x &&& 65280) >>> 8) &&& 255) =
      (x % 256) * 256 + x / 256 := by
  have h1 : ((x &&& 255) <<< 8) &&& 65280 = (x % 256) * 256 := by
    rw [and_ff00_eq, shiftLeft8_shiftRight8, and_255_mod, and_255_mod]
    rw [Nat.mod_mod_of_dvd _ (by norm_num)]
    rw [Nat.shiftLeft_eq]
    try norm_num
  have h2 : ((x &&& 65280) >>> 8) &&& 255 = x / 256 := by
    rw [and_ff00_eq, shiftLeft8_shiftRight8]
    rw [and_255_mod, and_255_mod, Nat.shiftRight_eq_div_pow]
    try norm_num
    try omega
  rw [h1, h2]

/-- Abstract variable-length fields of an ORP packet body: identifier
byte plus content, as the encoder renders them. -/
inductive VField where
  | pathF : List Nat → VField
  | timeF : List Nat → VField
  | dataF : List Nat → VField
  | mtuF : Nat → VField
  | sentF : Nat → VField
  | recvF : Nat → VField
deriving DecidableEq, Repr

/-- Wire bytes of one field: identifier byte then content. -/
def vfBytes : VField → List Nat
  | VField.pathF p => 80 :: p
  | VField.timeF s => 84 :: s
  | VField.dataF d => 68 :: d
  | VField.mtuF n => 77 :: natToDigits n
  | VField.sentF n => 83 :: natToDigits n
  | VField.recvF n => 82 :: natToDigits n

/-- Fields joined by a separator byte (comma on the wire, NUL after the
decoder's scan). -/
def joinFields (sep : Nat) : List VField → List Nat
  | [] => []
  | f :: rest =>
    vfBytes f ++ (if rest.isEmpty then [] else sep :: joinFields sep rest)

theorem vfBytes_ne_nil (f : VField) : vfBytes f ≠ [] := by
  cases f <;> simp [vfBytes]

theorem vfBytes_length_pos (f : VField) : 1 ≤ (vfBytes f).length := by
  cases f <;> simp [vfBytes]

theorem joinFields_cons (sep : Nat) (f : VField) (rest : List VField) :
    joinFields sep (f :: rest) =
      vfBytes f ++ (if rest.isEmpty then [] else sep :: joinFields sep rest) := rfl

theorem joinFields_append (sep : Nat) (fs gs : List VField) (hgs : gs ≠ []) :
    joinFields sep (fs ++ gs) =
      joinFields sep fs ++ (if fs = [] then [] else [sep]) ++ joinFields sep gs := by
  induction fs with
  | nil => simp [joinFields]
  | cons f fs' ih =>
    rw [List.cons_append, joinFields_cons, joinFields_cons]
    by_cases hfs' : fs' = []
    · subst hfs'
      cases gs with
      | nil => exact absurd rfl hgs
      | cons g gs' => simp [joinFields_cons]
    · have h1 : (fs' ++ gs).isEmpty = false := by
        cases fs' with
        | nil => exact absurd rfl hfs'
        | cons a b => rfl
      have h2 : fs'.isEmpty = false := by
        cases fs' with
        | nil => exact absurd rfl hfs'
        | cons a b => rfl
      rw [h1, h2]
      simp only [Bool.false_eq_true, if_false]
      rw [ih]
      rw [if_neg hfs', if_neg (by simp)]
      simp

theorem joinFields_length_sep (s1 s2 : Nat) (fs : List VField) :
    (joinFields s1 fs).length = (joinFields s2 fs).length := by
  induction fs with
  | nil => rfl
  | cons f rest ih =>
    rw [joinFields_cons, joinFields_cons]
    cases rest with
    | nil => rfl
    | cons g gs =>
      simp only [List.length_append, List.length_cons, List.isEmpty_cons,
        Bool.false_eq_true, if_false]
      rw [show (joinFields s1 (g :: gs)).length = (joinFields s2 (g :: gs)).length from ih]

/-- The encoder's buffer after the header and the given fields: header,
comma-joined fields, zero fill. -/
def canonBuf (len : Nat) (H4 : List Nat) (fs : List VField) : List Nat :=
  H4 ++ joinFields 44 fs ++ List.replicate (len - 4 - (joinFields 44 fs).length) 0

/-- The encoder's `fieldLen` flag after emitting the given fields: the
length of the last field's bytes, zero when none was emitted. -/
def lastFl : List VField → Nat
  | [] => 0
  | f :: rest => if rest.isEmpty then (vfBytes f).length else lastFl rest

theorem lastFl_nil : lastFl [] = 0 := rfl

theorem lastFl_eq_zero_iff (fs : List VField) : lastFl fs = 0 ↔ fs = [] := by
  induction fs with
  | nil => simp [lastFl]
  | cons f rest ih =>
    unfold lastFl
    cases rest with
    | nil =>
      rw [if_pos (by simp)]
      have := vfBytes_length_pos f
      constructor
      · intro h
        exact absurd h (by omega)
      · intro h
        simp at h
    | cons g gs =>
      simp only [List.isEmpty_cons, Bool.false_eq_true, if_false]
      rw [ih]
      simp

theorem lastFl_append_one (fs : List VField) (f : VField) :
    lastFl (fs ++ [f]) = (vfBytes f).length := by
  induction fs with
  | nil => simp [lastFl]
  | cons g gs ih =>
    rw [List.cons_append]
    unfold lastFl
    rw [if_neg (by simp)]
    exact ih

theorem set_canon (P : List Nat) (r v : Nat) (hr : 1 ≤ r) :
    (P ++ List.replicate r 0).set P.length v = P ++ v :: List.replicate (r - 1) 0 := by
  rw [List.set_append, if_neg (by omega), Nat.sub_self]
  cases r with
  | zero => omega
  | succ k =>
    rw [List.replicate_succ]
    rfl

theorem writeBytes_canon (xs : List Nat) : ∀ (P : List Nat) (r : Nat), xs.length ≤ r →
    writeBytes (P ++ List.replicate r 0) P.length xs =
      P ++ xs ++ List.replicate (r - xs.length) 0 := by
  induction xs with
  | nil =>
    intro P r _
    simp [writeBytes]
  | cons x xs' ih =>
    intro P r h
    simp only [List.length_cons] at h
    show writeBytes ((P ++ List.replicate r 0).set P.length x) (P.length + 1) xs' = _
    rw [set_canon P r x (by omega)]
    rw [show P ++ x :: List.replicate (r - 1) 0 = (P ++ [x]) ++ List.replicate (r - 1) 0
      from by simp]
    rw [show P.length + 1 = (P ++ [x]).length from by simp]
    rw [ih (P ++ [x]) (r - 1) (by omega)]
    simp only [List.append_assoc, List.cons_append, List.nil_append]
    rw [show r - 1 - xs'.length = r - (x :: xs').length from by simp; omega]

theorem snprintf_canon (P : List Nat) (r room : Nat) (s : List Nat)
    (hs : s.length + 1 ≤ room) (hr : s.length + 1 ≤ r) :
    snprintfAt (P ++ List.replicate r 0) P.length room s =
      (P ++ s ++ List.replicate (r - s.length) 0, s.length) := by
  unfold snprintfAt
  rw [if_neg (by omega)]
  rw [show s.take (room - 1) = s from List.take_of_length_le (by omega)]
  rw [writeBytes_canon (s ++ [0]) P r (by simp; omega)]
  simp only [List.append_assoc, List.cons_append, List.nil_append, List.length_append,
    List.length_cons, List.length_nil]
  rw [show r - (s.length + 1) = (r - s.length) - 1 from by omega]
  rw [show (0 : Nat) :: List.replicate (r - s.length - 1) 0 =
    List.replicate (r - s.length - 1 + 1) 0 from (List.replicate_succ 0 _).symm]
  rw [show r - s.length - 1 + 1 = r - s.length from by omega]

theorem header_canon (len : Nat) (h4 : 4 ≤ len) (a b c d : Nat) :
    ((((List.replicate len 0).set 0 a).set 1 b).set 2 c).set 3 d =
      [a, b, c, d] ++ List.replicate (len - 4) 0 := by
  obtain ⟨k, rfl⟩ : ∃ k, len = 4 + k := ⟨len - 4, by omega⟩
  rw [show 4 + k = k + 4 from by omega]
  rfl

/-- The byte the encoder stores at offset 1, by the packet type's
byte-1 mask. -/
def byte1Val (M : OrpMessage) : Nat :=
  if orp_FieldRequired M.type ORP_MASK_STATUS then orp_StatusEncode M.status
  else if orp_FieldRequired M.type ORP_MASK_DATA_TYPE then
    (orp_DataTypeEncode M.dataType).getD 0
  else if orp_FieldRequired M.type ORP_MASK_VERSION then 49
  else if orp_FieldRequired M.type ORP_MASK_EVENT then (orp_EnumEncode M.status).getD 0
  else 0

theorem byte1Encode_eq (buf : List Nat) (M : OrpMessage) (e : Nat × Nat × Nat)
    (he : e ∈ orp_PacketTypeTable) (het : e.2.1 = M.type)
    (hdt : (orp_DataTypeEncode M.dataType).isSome = true ∨ e.2.2 &&& 2 = 0)
    (hevs : (orp_EnumEncode M.status).isSome = true ∨ e.2.2 &&& 2048 = 0) :
    orp_PacketByte1Encode buf M = some (buf.set 1 (byte1Val M)) ∨
      (e.2.2 &&& 3586 = 0 ∧ orp_PacketByte1Encode buf M = some buf) := by
  have hfr : ∀ m, orp_FieldRequired M.type m = decide (e.2.2 &&& m ≠ 0) := by
    intro m
    rw [← het]
    exact orp_FieldRequired_eq e he m
  unfold orp_PacketByte1Encode byte1Val
  rw [hfr ORP_MASK_STATUS, hfr ORP_MASK_DATA_TYPE, hfr ORP_MASK_VERSION, hfr ORP_MASK_EVENT]
  simp only [ORP_MASK_STATUS, ORP_MASK_DATA_TYPE, ORP_MASK_VERSION, ORP_MASK_EVENT]
  by_cases h512 : e.2.2 &&& 512 ≠ 0
  · left
    simp [h512]
  · by_cases h2 : e.2.2 &&& 2 ≠ 0
    · left
      rcases hdt with hdts | hdtz
      · obtain ⟨b, hb⟩ := Option.isSome_iff_exists.mp hdts
        push_neg at h512
        simp [h512, h2, hb]
      · exact absurd hdtz h2
    · by_cases h1024 : e.2.2 &&& 1024 ≠ 0
      · left
        push_neg at h512 h2
        simp [h512, h2, h1024]
        exact ⟨49, by decide, rfl⟩
      · by_cases h2048 : e.2.2 &&& 2048 ≠ 0
        · left
          rcases hevs with hevss | hevz
          · obtain ⟨b, hb⟩ := Option.isSome_iff_exists.mp hevss
            push_neg at h512 h2 h1024
            simp [h512, h2, h1024, h2048, hb]
          · exact absurd hevz h2048
        · right
          push_neg at h512 h2 h1024 h2048
          constructor
          · have hsplit : e.2.2 &&& 3586 =
                e.2.2 &&& 512 ||| (e.2.2 &&& 2 ||| (e.2.2 &&& 1024 ||| (e.2.2 &&& 2048))) := by
              rw [show (3586 : Nat) = 512 ||| (2 ||| (1024 ||| 2048)) from by decide,
                Nat.and_or_distrib_left, Nat.and_or_distrib_left, Nat.and_or_distrib_left]
            rw [hsplit, h512, h2, h1024, h2048]
            decide
          · simp [h512, h2, h1024, h2048]

/-- Field emitted by the timestamp stage. -/
def tFields : OrpTime → List VField
  | OrpTime.invalid => []
  | OrpTime.dec s m => [VField.timeF (natToDigits s ++ [46] ++ pad6 m)]

/-- Field emitted by the path stage. -/
def pFields : Option (List Nat) → List VField
  | none => []
  | some p => [VField.pathF p]

theorem joinFields_append_one_length (fs : List VField) (f : VField) :
    (joinFields 44 (fs ++ [f])).length =
      (joinFields 44 fs).length + (if fs = [] then 0 else 1) + (vfBytes f).length := by
  rw [joinFields_append 44 fs [f] (by simp)]
  by_cases hfs : fs = []
  · simp [hfs, joinFields_cons]
  · simp [hfs, joinFields_cons]
    omega

theorem canon_append_one (len : Nat) (H4 : List Nat) (fs : List VField) (f : VField) :
    (H4 ++ joinFields 44 fs ++ (if fs = [] then [] else [44])) ++ vfBytes f ++
      List.replicate (len - 4 - (joinFields 44 (fs ++ [f])).length) 0 =
      canonBuf len H4 (fs ++ [f]) := by
  unfold canonBuf
  rw [joinFields_append 44 fs [f] (by simp)]
  rw [show joinFields 44 [f] = vfBytes f from by simp [joinFields_cons]]
  simp [List.append_assoc]

/-- The separator block shared by the path/data/MTU/counter stages, on a
canonical buffer. -/
theorem stage_sep_canon (len : Nat) (H4 : List Nat) (fs : List VField)
    (hH4 : H4.length = 4) (hr : 4 + (joinFields 44 fs).length + 1 ≤ len) :
    (if lastFl fs ≠ 0 then
        (canonBuf len H4 fs).set (4 + (joinFields 44 fs).length) 44
      else canonBuf len H4 fs) =
      (H4 ++ joinFields 44 fs ++ (if fs = [] then [] else [44])) ++
        List.replicate (len -
          (4 + (joinFields 44 fs).length + (if fs = [] then 0 else 1))) 0 ∧
    (if lastFl fs ≠ 0 then 4 + (joinFields 44 fs).length + 1
      else 4 + (joinFields 44 fs).length) =
      4 + (joinFields 44 fs).length + (if fs = [] then 0 else 1) := by
  by_cases hfs : fs = []
  · subst hfs
    constructor
    · simp [lastFl_nil, canonBuf, joinFields]
    · simp [lastFl_nil]
  · have hlfl : lastFl fs ≠ 0 := by
      rw [ne_eq, lastFl_eq_zero_iff]
      exact hfs
    rw [if_pos hlfl, if_pos hlfl, if_neg hfs, if_neg hfs]
    refine ⟨?_, by omega⟩
    unfold canonBuf
    rw [show H4 ++ joinFields 44 fs ++
        List.replicate (len - 4 - (joinFields 44 fs).length) 0 =
      (H4 ++ joinFields 44 fs) ++
        List.replicate (len - 4 - (joinFields 44 fs).length) 0 from by simp]
    rw [show (4 + (joinFields 44 fs).length) = (H4 ++ joinFields 44 fs).length from by
      simp [hH4]]
    rw [set_canon _ _ _ (by omega)]
    rw [show len - 4 - (joinFields 44 fs).length - 1 =
      len - (4 + (joinFields 44 fs).length + 1) from by omega]
    simp [List.append_assoc, hH4]

/-- The timestamp stage on the empty canonical buffer. -/
theorem timeStage_canon (len : Nat) (H4 : List Nat) (t : OrpTime) (hH4 : H4.length = 4)
    (hfit : 4 + (joinFields 44 (tFields t)).length + 1 ≤ len) :
    orp_TimeStage len t (canonBuf len H4 []) =
      (canonBuf len H4 (tFields t), 4 + (joinFields 44 (tFields t)).length,
        lastFl (tFields t)) := by
  cases t with
  | invalid =>
    simp [orp_TimeStage, orp_TimeEncode, tFields, lastFl, joinFields]
  | dec s m =>
    unfold orp_TimeStage
    rw [show orp_TimeEncode (canonBuf len H4 []) 4 (len - 4) (OrpTime.dec s m) =
      snprintfAt (canonBuf len H4 []) 4 (len - 4)
        (84 :: (natToDigits s ++ [46] ++ pad6 m)) from rfl]
    have hc : canonBuf len H4 [] = H4 ++ List.replicate (len - 4) 0 := by
      unfold canonBuf
      rw [show joinFields 44 ([] : List VField) = [] from rfl]
      simp
    have hjlen : (joinFields 44 (tFields (OrpTime.dec s m))).length =
        (natToDigits s ++ [46] ++ pad6 m).length + 1 := by
      simp [tFields, joinFields_cons, vfBytes]
    rw [hc, show (4 : Nat) = H4.length from hH4.symm]
    rw [snprintf_canon H4 (len - H4.length) (len - H4.length)
      (84 :: (natToDigits s ++ [46] ++ pad6 m))
      (by rw [hjlen] at hfit; rw [hH4]; simp at hfit ⊢; omega)
      (by rw [hjlen] at hfit; rw [hH4]; simp at hfit ⊢; omega)]
    unfold canonBuf tFields
    rw [show joinFields 44 [VField.timeF (natToDigits s ++ [46] ++ pad6 m)] =
      vfBytes (VField.timeF (natToDigits s ++ [46] ++ pad6 m)) from by
        simp [joinFields_cons]]
    rw [show lastFl [VField.timeF (natToDigits s ++ [46] ++ pad6 m)] =
      (vfBytes (VField.timeF (natToDigits s ++ [46] ++ pad6 m))).length from by
        unfold lastFl
        simp]
    simp only [vfBytes, hH4, List.append_assoc, List.length_cons, Prod.mk.injEq]

theorem intToDigits_nonneg (n : Int) (h : 0 ≤ n) :
    intToDigits n = natToDigits n.toNat := by
  unfold intToDigits
  rw [if_neg (by omega)]

theorem pathEncode_canon (P : List Nat) (len : Nat) (p : List Nat)
    (hfit2 : p.length + 1 ≤ len - P.length) :
    orp_PathEncode (P ++ List.replicate (len - P.length) 0) P.length
      (len - P.length) (some p) =
      (P ++ (80 :: p) ++ List.replicate (len - P.length - (p.length + 1)) 0,
        some (p.length + 1)) := by
  show (if p.length + 1 > len - P.length
      then (P ++ List.replicate (len - P.length) 0, none)
      else (writeBytes (P ++ List.replicate (len - P.length) 0) P.length (80 :: p),
        some (p.length + 1))) = _
  rw [if_neg (by omega)]
  rw [writeBytes_canon (80 :: p) P (len - P.length) (by simp; omega)]
  rw [show (80 :: p).length = p.length + 1 from by simp]

theorem mtuEncode_canon (P : List Nat) (len : Nat) (mtu : Int)
    (hfit2 : (77 :: intToDigits mtu).length + 1 ≤ len - P.length) :
    orp_MtuEncode (P ++ List.replicate (len - P.length) 0) P.length (len - P.length) mtu =
      (P ++ (77 :: intToDigits mtu) ++
        List.replicate (len - P.length - (77 :: intToDigits mtu).length) 0,
       some (77 :: intToDigits mtu).length) := by
  show (if len - P.length ≤ (77 :: intToDigits mtu).length
      then ((snprintfAt (P ++ List.replicate (len - P.length) 0) P.length
        (len - P.length) (77 :: intToDigits mtu)).1, none)
      else ((snprintfAt (P ++ List.replicate (len - P.length) 0) P.length
        (len - P.length) (77 :: intToDigits mtu)).1,
        some (77 :: intToDigits mtu).length)) = _
  rw [snprintf_canon P (len - P.length) (len - P.length) _ hfit2 hfit2]
  rw [if_neg (by omega)]

theorem sentEncode_canon (P : List Nat) (len : Nat) (c : Int) (hc : 0 ≤ c)
    (hfit2 : (83 :: intToDigits c).length + 1 ≤ len - P.length) :
    orp_SentCountEncode (P ++ List.replicate (len - P.length) 0) P.length
      (len - P.length) c =
      (P ++ (83 :: intToDigits c) ++
        List.replicate (len - P.length - (83 :: intToDigits c).length) 0,
       some (83 :: intToDigits c).length) := by
  show (if c < 0 then (P ++ List.replicate (len - P.length) 0, none)
      else ((snprintfAt (P ++ List.replicate (len - P.length) 0) P.length
        (len - P.length) (83 :: intToDigits c)).1,
        some (83 :: intToDigits c).length)) = _
  rw [if_neg (by omega)]
  rw [snprintf_canon P (len - P.length) (len - P.length) _ hfit2 hfit2]

theorem recvEncode_canon (P : List Nat) (len : Nat) (c : Int) (hc : 0 ≤ c)
    (hfit2 : (82 :: intToDigits c).length + 1 ≤ len - P.length) :
    orp_ReceivedCountEncode (P ++ List.replicate (len - P.length) 0) P.length
      (len - P.length) c =
      (P ++ (82 :: intToDigits c) ++
        List.replicate (len - P.length - (82 :: intToDigits c).length) 0,
       some (82 :: intToDigits c).length) := by
  show (if c < 0 then (P ++ List.replicate (len - P.length) 0, none)
      else ((snprintfAt (P ++ List.replicate (len - P.length) 0) P.length
        (len - P.length) (82 :: intToDigits c)).1,
        some (82 :: intToDigits c).length)) = _
  rw [if_neg (by omega)]
  rw [snprintf_canon P (len - P.length) (len - P.length) _ hfit2 hfit2]

theorem dataEncode_canon (P : List Nat) (len : Nat) (d : List Nat) (dataLen : Nat)
    (hdl : ¬ dataLen = 0) (hroom : P.length + 2 ≤ len)
    (hk : min (len - P.length - 1) dataLen ≤ d.length) :
    orp_DataEncode (P ++ List.replicate (len - P.length) 0) P.length
      (len - P.length) (some d) dataLen =
      (P ++ (68 :: d.take (min (len - P.length - 1) dataLen)) ++
        List.replicate (len - P.length -
          (min (len - P.length - 1) dataLen + 1)) 0,
       min (len - P.length - 1) dataLen + 1) := by
  show (if dataLen = 0 then (P ++ List.replicate (len - P.length) 0, dataLen)
      else (writeBytes (P ++ List.replicate (len - P.length) 0) P.length
        (68 :: d.take (min (len - P.length - 1) dataLen)),
        min (len - P.length - 1) dataLen + 1)) = _
  rw [if_neg hdl]
  rw [writeBytes_canon (68 :: d.take (min (len - P.length - 1) dataLen)) P
    (len - P.length) (by
      simp only [List.length_cons, List.length_take]
      omega)]
  rw [show (68 :: d.take (min (len - P.length - 1) dataLen)).length =
    min (len - P.length - 1) dataLen + 1 from by
      simp only [List.length_cons, List.length_take]
      omega]

/-- Field list emitted by a numeric stage: one rendered field for a
nonnegative value, nothing otherwise. -/
def nFields (c : Nat → VField) (v : Int) : List VField :=
  if 0 ≤ v then [c v.toNat] else []

theorem pathStage_canon (len : Nat) (H4 : List Nat) (fs : List VField)
    (path : Option (List Nat)) (hH4 : H4.length = 4)
    (hr : 4 + (joinFields 44 fs).length + 1 ≤ len)
    (hfit : 4 + (joinFields 44 (fs ++ pFields path)).length + 1 ≤ len) :
    orp_PathStage len path
      (canonBuf len H4 fs, 4 + (joinFields 44 fs).length, lastFl fs) =
      some (canonBuf len H4 (fs ++ pFields path),
        4 + (joinFields 44 (fs ++ pFields path)).length,
        lastFl (fs ++ pFields path)) := by
  cases path with
  | none => simp [orp_PathStage, pFields]
  | some p =>
    obtain ⟨hbufA, hidxA⟩ := stage_sep_canon len H4 fs hH4 hr
    have hsep : ((if fs = [] then ([] : List Nat) else [44])).length =
        (if fs = [] then 0 else 1) := by
      by_cases hfs : fs = [] <;> simp [hfs]
    have hPA : (H4 ++ joinFields 44 fs ++ (if fs = [] then [] else [44])).length =
        4 + (joinFields 44 fs).length + (if fs = [] then 0 else 1) := by
      simp [hH4, hsep]
      try omega
    have hJ : (joinFields 44 (fs ++ [VField.pathF p])).length =
        (joinFields 44 fs).length + (if fs = [] then 0 else 1) + (p.length + 1) := by
      rw [joinFields_append_one_length]
      simp [vfBytes]
    have hfit2 : p.length + 1 ≤
        len - (H4 ++ joinFields 44 fs ++ (if fs = [] then [] else [44])).length := by
      rw [hPA]
      rw [show pFields (some p) = [VField.pathF p] from rfl] at hfit
      rw [hJ] at hfit
      omega
    simp only [orp_PathStage]
    rw [hbufA, hidxA, ← hPA]
    rw [pathEncode_canon _ len p hfit2]
    have hbuf2 : (H4 ++ joinFields 44 fs ++ (if fs = [] then [] else [44])) ++
        (80 :: p) ++ List.replicate
          (len - (H4 ++ joinFields 44 fs ++ (if fs = [] then [] else [44])).length -
            (p.length + 1)) 0 =
        canonBuf len H4 (fs ++ [VField.pathF p]) := by
      have hcnt : len - (H4 ++ joinFields 44 fs ++
          (if fs = [] then [] else [44])).length - (p.length + 1) =
        len - 4 - (joinFields 44 (fs ++ [VField.pathF p])).length := by
        rw [hPA, hJ]
        omega
      simp only [hcnt]
      exact canon_append_one len H4 fs (VField.pathF p)
    have hidx2 : (H4 ++ joinFields 44 fs ++ (if fs = [] then [] else [44])).length +
        (p.length + 1) = 4 + (joinFields 44 (fs ++ [VField.pathF p])).length := by
      rw [hPA, hJ]
      omega
    have hlf : lastFl (fs ++ [VField.pathF p]) = p.length + 1 := by
      rw [lastFl_append_one]
      simp [vfBytes]
    rw [show pFields (some p) = [VField.pathF p] from rfl]
    rw [← hbuf2, ← hidx2, ← hlf]

theorem dataStage_canon (len : Nat) (H4 : List Nat) (fs : List VField)
    (d : List Nat) (dataLen K : Nat) (hH4 : H4.length = 4)
    (hr : 4 + (joinFields 44 fs).length + 1 ≤ len)
    (hdl : ¬ dataLen = 0)
    (hKdef : K = min (len - (4 + (joinFields 44 fs).length +
      (if fs = [] then 0 else 1)) - 1) dataLen)
    (hroom : 4 + (joinFields 44 fs).length + (if fs = [] then 0 else 1) + 2 ≤ len)
    (hk : K ≤ d.length) :
    orp_DataStage len (some d) dataLen
      (canonBuf len H4 fs, 4 + (joinFields 44 fs).length, lastFl fs) =
      (canonBuf len H4 (fs ++ [VField.dataF (d.take K)]),
        4 + (joinFields 44 (fs ++ [VField.dataF (d.take K)])).length,
        K + 1, K + 1) := by
  obtain ⟨hbufA, hidxA⟩ := stage_sep_canon len H4 fs hH4 hr
  have hsep : ((if fs = [] then ([] : List Nat) else [44])).length =
      (if fs = [] then 0 else 1) := by
    by_cases hfs : fs = [] <;> simp [hfs]
  have hPA : (H4 ++ joinFields 44 fs ++ (if fs = [] then [] else [44])).length =
      4 + (joinFields 44 fs).length + (if fs = [] then 0 else 1) := by
    simp [hH4, hsep]
    try omega
  have htakelen : (d.take K).length = K := by
    rw [List.length_take]
    omega
  have hJ : (joinFields 44 (fs ++ [VField.dataF (d.take K)])).length =
      (joinFields 44 fs).length + (if fs = [] then 0 else 1) + (K + 1) := by
    rw [joinFields_append_one_length]
    simp [vfBytes, htakelen]
  simp only [orp_DataStage]
  rw [if_pos hdl]
  rw [hbufA, hidxA, ← hPA]
  have hKdef2 : K = min
      (len - (H4 ++ joinFields 44 fs ++ (if fs = [] then [] else [44])).length - 1)
      dataLen := by
    rw [hPA]
    exact hKdef
  rw [dataEncode_canon _ len d dataLen hdl (by rw [hPA]; omega) (by rw [← hKdef2]; omega)]
  rw [← hKdef2]
  have hbuf2 : (H4 ++ joinFields 44 fs ++ (if fs = [] then [] else [44])) ++
      (68 :: d.take K) ++ List.replicate
        (len - (H4 ++ joinFields 44 fs ++ (if fs = [] then [] else [44])).length -
          (K + 1)) 0 =
      canonBuf len H4 (fs ++ [VField.dataF (d.take K)]) := by
    have hcnt : len - (H4 ++ joinFields 44 fs ++
        (if fs = [] then [] else [44])).length - (K + 1) =
      len - 4 - (joinFields 44 (fs ++ [VField.dataF (d.take K)])).length := by
      rw [hPA, hJ]
      omega
    simp only [hcnt]
    exact canon_append_one len H4 fs (VField.dataF (d.take K))
  have hidx2 : (H4 ++ joinFields 44 fs ++ (if fs = [] then [] else [44])).length +
      (K + 1) = 4 + (joinFields 44 (fs ++ [VField.dataF (d.take K)])).length := by
    rw [hPA, hJ]
    omega
  rw [← hbuf2, ← hidx2]

theorem mtuStage_canon (len : Nat) (H4 : List Nat) (fs : List VField)
    (v : Int) (hH4 : H4.length = 4)
    (hr : 4 + (joinFields 44 fs).length + 1 ≤ len)
    (hfit : 4 + (joinFields 44 (fs ++ nFields VField.mtuF v)).length + 1 ≤ len) :
    orp_MtuStage len v
      (canonBuf len H4 fs, 4 + (joinFields 44 fs).length, lastFl fs) =
      some (canonBuf len H4 (fs ++ nFields VField.mtuF v),
        4 + (joinFields 44 (fs ++ nFields VField.mtuF v)).length,
        lastFl (fs ++ nFields VField.mtuF v)) := by
  by_cases hv : 0 ≤ v
  case neg =>
    rw [show nFields VField.mtuF v = [] from by simp [nFields, hv]]
    simp only [orp_MtuStage]
    rw [if_neg (by omega)]
    simp
  case pos =>
    obtain ⟨hbufA, hidxA⟩ := stage_sep_canon len H4 fs hH4 hr
    have hsep : ((if fs = [] then ([] : List Nat) else [44])).length =
        (if fs = [] then 0 else 1) := by
      by_cases hfs : fs = [] <;> simp [hfs]
    have hPA : (H4 ++ joinFields 44 fs ++ (if fs = [] then [] else [44])).length =
        4 + (joinFields 44 fs).length + (if fs = [] then 0 else 1) := by
      simp [hH4, hsep]
      try omega
    have hnf : nFields VField.mtuF v = [VField.mtuF v.toNat] := by simp [nFields, hv]
    have hJ : (joinFields 44 (fs ++ [VField.mtuF v.toNat])).length =
        (joinFields 44 fs).length + (if fs = [] then 0 else 1) +
          ((natToDigits v.toNat).length + 1) := by
      rw [joinFields_append_one_length]
      simp [vfBytes]
    have hlen_eq : (77 :: intToDigits v).length = (natToDigits v.toNat).length + 1 := by
      rw [intToDigits_nonneg v hv]
      simp
    have hfit2 : (77 :: intToDigits v).length + 1 ≤
        len - (H4 ++ joinFields 44 fs ++ (if fs = [] then [] else [44])).length := by
      rw [hPA, hlen_eq]
      rw [hnf, hJ] at hfit
      omega
    simp only [orp_MtuStage]
    rw [if_pos hv]
    rw [hbufA, hidxA, ← hPA]
    rw [mtuEncode_canon _ len v hfit2]
    have hbuf2 : (H4 ++ joinFields 44 fs ++ (if fs = [] then [] else [44])) ++
        (77 :: intToDigits v) ++ List.replicate
          (len - (H4 ++ joinFields 44 fs ++ (if fs = [] then [] else [44])).length -
            (77 :: intToDigits v).length) 0 =
        canonBuf len H4 (fs ++ [VField.mtuF v.toNat]) := by
      rw [intToDigits_nonneg v hv]
      have hcnt : len - (H4 ++ joinFields 44 fs ++
          (if fs = [] then [] else [44])).length -
          (77 :: natToDigits v.toNat).length =
        len - 4 - (joinFields 44 (fs ++ [VField.mtuF v.toNat])).length := by
        rw [hPA, hJ]
        simp
        omega
      simp only [hcnt]
      exact canon_append_one len H4 fs (VField.mtuF v.toNat)
    have hidx2 : (H4 ++ joinFields 44 fs ++ (if fs = [] then [] else [44])).length +
        (77 :: intToDigits v).length =
        4 + (joinFields 44 (fs ++ [VField.mtuF v.toNat])).length := by
      rw [hPA, hlen_eq, hJ]
      omega
    have hlf : lastFl (fs ++ [VField.mtuF v.toNat]) = (77 :: intToDigits v).length := by
      rw [lastFl_append_one, hlen_eq]
      simp [vfBytes]
    rw [hnf]
    rw [← hbuf2, ← hidx2, ← hlf]

theorem sentStage_canon (len : Nat) (H4 : List Nat) (fs : List VField)
    (v : Int) (hH4 : H4.length = 4)
    (hr : 4 + (joinFields 44 fs).length + 1 ≤ len)
    (hfit : 4 + (joinFields 44 (fs ++ nFields VField.sentF v)).length + 1 ≤ len) :
    orp_SentStage len v
      (canonBuf len H4 fs, 4 + (joinFields 44 fs).length, lastFl fs) =
      some (canonBuf len H4 (fs ++ nFields VField.sentF v),
        4 + (joinFields 44 (fs ++ nFields VField.sentF v)).length,
        lastFl (fs ++ nFields VField.sentF v)) := by
  by_cases hv : 0 ≤ v
  case neg =>
    rw [show nFields VField.sentF v = [] from by simp [nFields, hv]]
    simp only [orp_SentStage]
    rw [if_neg (by omega)]
    simp
  case pos =>
    obtain ⟨hbufA, hidxA⟩ := stage_sep_canon len H4 fs hH4 hr
    have hsep : ((if fs = [] then ([] : List Nat) else [44])).length =
        (if fs = [] then 0 else 1) := by
      by_cases hfs : fs = [] <;> simp [hfs]
    have hPA : (H4 ++ joinFields 44 fs ++ (if fs = [] then [] else [44])).length =
        4 + (joinFields 44 fs).length + (if fs = [] then 0 else 1) := by
      simp [hH4, hsep]
      try omega
    have hnf : nFields VField.sentF v = [VField.sentF v.toNat] := by simp [nFields, hv]
    have hJ : (joinFields 44 (fs ++ [VField.sentF v.toNat])).length =
        (joinFields 44 fs).length + (if fs = [] then 0 else 1) +
          ((natToDigits v.toNat).length + 1) := by
      rw [joinFields_append_one_length]
      simp [vfBytes]
    have hlen_eq : (83 :: intToDigits v).length = (natToDigits v.toNat).length + 1 := by
      rw [intToDigits_nonneg v hv]
      simp
    have hfit2 : (83 :: intToDigits v).length + 1 ≤
        len - (H4 ++ joinFields 44 fs ++ (if fs = [] then [] else [44])).length := by
      rw [hPA, hlen_eq]
      rw [hnf, hJ] at hfit
      omega
    simp only [orp_SentStage]
    rw [if_pos hv]
    rw [hbufA, hidxA, ← hPA]
    rw [sentEncode_canon _ len v hv hfit2]
    have hbuf2 : (H4 ++ joinFields 44 fs ++ (if fs = [] then [] else [44])) ++
        (83 :: intToDigits v) ++ List.replicate
          (len - (H4 ++ joinFields 44 fs ++ (if fs = [] then [] else [44])).length -
            (83 :: intToDigits v).length) 0 =
        canonBuf len H4 (fs ++ [VField.sentF v.toNat]) := by
      rw [intToDigits_nonneg v hv]
      have hcnt : len - (H4 ++ joinFields 44 fs ++
          (if fs = [] then [] else [44])).length -
          (83 :: natToDigits v.toNat).length =
        len - 4 - (joinFields 44 (fs ++ [VField.sentF v.toNat])).length := by
        rw [hPA, hJ]
        simp
        omega
      simp only [hcnt]
      exact canon_append_one len H4 fs (VField.sentF v.toNat)
    have hidx2 : (H4 ++ joinFields 44 fs ++ (if fs = [] then [] else [44])).length +
        (83 :: intToDigits v).length =
        4 + (joinFields 44 (fs ++ [VField.sentF v.toNat])).length := by
      rw [hPA, hlen_eq, hJ]
      omega
    have hlf : lastFl (fs ++ [VField.sentF v.toNat]) = (83 :: intToDigits v).length := by
      rw [lastFl_append_one, hlen_eq]
      simp [vfBytes]
    rw [hnf]
    rw [← hbuf2, ← hidx2, ← hlf]

theorem recvStage_canon (len : Nat) (H4 : List Nat) (fs : List VField)
    (v : Int) (hH4 : H4.length = 4)
    (hr : 4 + (joinFields 44 fs).length + 1 ≤ len)
    (hfit : 4 + (joinFields 44 (fs ++ nFields VField.recvF v)).length + 1 ≤ len) :
    orp_RecvStage len v
      (canonBuf len H4 fs, 4 + (joinFields 44 fs).length, lastFl fs) =
      some (canonBuf len H4 (fs ++ nFields VField.recvF v),
        4 + (joinFields 44 (fs ++ nFields VField.recvF v)).length,
        lastFl (fs ++ nFields VField.recvF v)) := by
  by_cases hv : 0 ≤ v
  case neg =>
    rw [show nFields VField.recvF v = [] from by simp [nFields, hv]]
    simp only [orp_RecvStage]
    rw [if_neg (by omega)]
    simp
  case pos =>
    obtain ⟨hbufA, hidxA⟩ := stage_sep_canon len H4 fs hH4 hr
    have hsep : ((if fs = [] then ([] : List Nat) else [44])).length =
        (if fs = [] then 0 else 1) := by
      by_cases hfs : fs = [] <;> simp [hfs]
    have hPA : (H4 ++ joinFields 44 fs ++ (if fs = [] then [] else [44])).length =
        4 + (joinFields 44 fs).length + (if fs = [] then 0 else 1) := by
      simp [hH4, hsep]
      try omega
    have hnf : nFields VField.recvF v = [VField.recvF v.toNat] := by simp [nFields, hv]
    have hJ : (joinFields 44 (fs ++ [VField.recvF v.toNat])).length =
        (joinFields 44 fs).length + (if fs = [] then 0 else 1) +
          ((natToDigits v.toNat).length + 1) := by
      rw [joinFields_append_one_length]
      simp [vfBytes]
    have hlen_eq : (82 :: intToDigits v).length = (natToDigits v.toNat).length + 1 := by
      rw [intToDigits_nonneg v hv]
      simp
    have hfit2 : (82 :: intToDigits v).length + 1 ≤
        len - (H4 ++ joinFields 44 fs ++ (if fs = [] then [] else [44])).length := by
      rw [hPA, hlen_eq]
      rw [hnf, hJ] at hfit
      omega
    simp only [orp_RecvStage]
    rw [if_pos hv]
    rw [hbufA, hidxA, ← hPA]
    rw [recvEncode_canon _ len v hv hfit2]
    have hbuf2 : (H4 ++ joinFields 44 fs ++ (if fs = [] then [] else [44])) ++
        (82 :: intToDigits v) ++ List.replicate
          (len - (H4 ++ joinFields 44 fs ++ (if fs = [] then [] else [44])).length -
            (82 :: intToDigits v).length) 0 =
        canonBuf len H4 (fs ++ [VField.recvF v.toNat]) := by
      rw [intToDigits_nonneg v hv]
      have hcnt : len - (H4 ++ joinFields 44 fs ++
          (if fs = [] then [] else [44])).length -
          (82 :: natToDigits v.toNat).length =
        len - 4 - (joinFields 44 (fs ++ [VField.recvF v.toNat])).length := by
        rw [hPA, hJ]
        simp
        omega
      simp only [hcnt]
      exact canon_append_one len H4 fs (VField.recvF v.toNat)
    have hidx2 : (H4 ++ joinFields 44 fs ++ (if fs = [] then [] else [44])).length +
        (82 :: intToDigits v).length =
        4 + (joinFields 44 (fs ++ [VField.recvF v.toNat])).length := by
      rw [hPA, hlen_eq, hJ]
      omega
    have hlf : lastFl (fs ++ [VField.recvF v.toNat]) = (82 :: intToDigits v).length := by
      rw [lastFl_append_one, hlen_eq]
      simp [vfBytes]
    rw [hnf]
    rw [← hbuf2, ← hidx2, ← hlf]

/-- Variable-length fields before the data field: timestamp then path. -/
def preFields (M : OrpMessage) : List VField :=
  tFields M.timestamp ++ pFields M.path

/-- Index at which the data stage writes its identifier byte. -/
def dataIdxA (M : OrpMessage) : Nat :=
  4 + (joinFields 44 (preFields M)).length + (if preFields M = [] then 0 else 1)

/-- Number of data bytes the encoder emits (buffer truncation). -/
def dataK (len : Nat) (M : OrpMessage) : Nat :=
  min (len - dataIdxA M - 1) M.dataLen

/-- All variable-length fields the encoder emits for a message. -/
def fieldsOf (len : Nat) (M : OrpMessage) : List VField :=
  preFields M ++
  (if M.type = 13 ∨ M.type = 14 then
      nFields VField.mtuF M.mtu ++ nFields VField.sentF M.sentCount ++
        nFields VField.recvF M.receivedCount
    else if M.dataLen ≠ 0 then [VField.dataF ((M.data.getD []).take (dataK len M))]
    else [])

/-- The four header bytes the encoder stores. -/
def headerOf (M : OrpMessage) (letter : Nat) : List Nat :=
  [letter, byte1Val M, M.sequenceNum &&& 255, (M.sequenceNum &&& 65280) >>> 8]

theorem joinFields_le_append (fs gs : List VField) :
    (joinFields 44 fs).length ≤ (joinFields 44 (fs ++ gs)).length := by
  cases gs with
  | nil => simp
  | cons g gs' =>
    rw [joinFields_append 44 fs (g :: gs') (by simp)]
    simp

/-- The encoder, on a valid message with enough room, produces exactly
the canonical packet: header, comma-joined fields, zero fill, with the
final index just past the last field. -/
theorem encode_shape (len : Nat) (M : OrpMessage) (e : Nat × Nat × Nat)
    (he : e ∈ orp_PacketTypeTable) (het : e.2.1 = M.type)
    (hmz : e.2.2 &&& 3586 ≠ 0)
    (hdt : (orp_DataTypeEncode M.dataType).isSome = true ∨ e.2.2 &&& 2 = 0)
    (hevs : (orp_EnumEncode M.status).isSome = true ∨ e.2.2 &&& 2048 = 0)
    (hdata : M.dataLen ≠ 0 → ¬(M.type = 13 ∨ M.type = 14) ∧
      ∃ d, M.data = some d ∧ M.dataLen = d.length)
    (hroomPre : 4 + (joinFields 44 (preFields M)).length + 1 ≤ len)
    (hroomData : M.dataLen ≠ 0 → dataIdxA M + 2 ≤ len)
    (hroomSync : M.type = 13 ∨ M.type = 14 →
      4 + (joinFields 44 (fieldsOf len M)).length + 1 ≤ len) :
    (orp_ProtocolEncode_v1 len M).1 = true ∧
    (orp_ProtocolEncode_v1 len M).2.1 =
      canonBuf len (headerOf M e.1) (fieldsOf len M) ∧
    (orp_ProtocolEncode_v1 len M).2.2.1 =
      4 + (joinFields 44 (fieldsOf len M)).length := by
  have hH4 : (headerOf M e.1).length = 4 := by simp [headerOf]
  have hTE : orp_PacketTypeEncode M.type = some e.1 := by
    unfold orp_PacketTypeEncode
    rw [← het, packetTable_find_type e he]
    rfl
  have hB1 : orp_PacketByte1Encode ((List.replicate len 0).set 0 e.1) M =
      some (((List.replicate len 0).set 0 e.1).set 1 (byte1Val M)) := by
    rcases byte1Encode_eq ((List.replicate len 0).set 0 e.1) M e he het hdt hevs with
      h | ⟨hz, _⟩
    · exact h
    · exact absurd hz hmz
  have hhdr := header_canon len (by omega) e.1 (byte1Val M) (M.sequenceNum &&& 255)
    ((M.sequenceNum &&& 65280) >>> 8)
  have hhdr2 : [e.1, byte1Val M, M.sequenceNum &&& 255,
      (M.sequenceNum &&& 65280) >>> 8] ++ List.replicate (len - 4) 0 =
      canonBuf len (headerOf M e.1) [] := by
    unfold canonBuf headerOf
    simp [joinFields]
  have hmono := joinFields_le_append (tFields M.timestamp) (pFields M.path)
  have hroomPre2 : 4 + (joinFields 44 (tFields M.timestamp ++ pFields M.path)).length +
      1 ≤ len := hroomPre
  have htime := timeStage_canon len (headerOf M e.1) M.timestamp hH4 (by omega)
  have hpath := pathStage_canon len (headerOf M e.1) (tFields M.timestamp) M.path hH4
    (by omega) hroomPre2
  rw [show tFields M.timestamp ++ pFields M.path = preFields M from rfl] at hpath
  by_cases hdl : M.dataLen = 0
  · have hds : orp_DataStage len M.data M.dataLen
        (canonBuf len (headerOf M e.1) (preFields M),
          4 + (joinFields 44 (preFields M)).length, lastFl (preFields M)) =
        (canonBuf len (headerOf M e.1) (preFields M),
          4 + (joinFields 44 (preFields M)).length, lastFl (preFields M), 0) := by
      simp [orp_DataStage, hdl]
    rw [hdl] at hds
    by_cases hsync : M.type = 13 ∨ M.type = 14
    · have hff : fieldsOf len M = preFields M ++
          (nFields VField.mtuF M.mtu ++ nFields VField.sentF M.sentCount ++
            nFields VField.recvF M.receivedCount) := by
        unfold fieldsOf
        rw [if_pos hsync]
      have hassoc1 : preFields M ++ nFields VField.mtuF M.mtu ++
          (nFields VField.sentF M.sentCount ++ nFields VField.recvF M.receivedCount) =
          fieldsOf len M := by
        rw [hff]
        simp [List.append_assoc]
      have hassoc2 : preFields M ++ nFields VField.mtuF M.mtu ++
          nFields VField.sentF M.sentCount ++ nFields VField.recvF M.receivedCount =
          fieldsOf len M := by
        rw [hff]
        simp [List.append_assoc]
      have hS := hroomSync hsync
      have hfitM : 4 + (joinFields 44 (preFields M ++ nFields VField.mtuF M.mtu)).length +
          1 ≤ len := by
        have h2 := joinFields_le_append (preFields M ++ nFields VField.mtuF M.mtu)
          (nFields VField.sentF M.sentCount ++ nFields VField.recvF M.receivedCount)
        rw [hassoc1] at h2
        omega
      have hfitS : 4 + (joinFields 44 (preFields M ++ nFields VField.mtuF M.mtu ++
          nFields VField.sentF M.sentCount)).length + 1 ≤ len := by
        have h2 := joinFields_le_append (preFields M ++ nFields VField.mtuF M.mtu ++
          nFields VField.sentF M.sentCount) (nFields VField.recvF M.receivedCount)
        rw [hassoc2] at h2
        omega
      have hfitR : 4 + (joinFields 44 (preFields M ++ nFields VField.mtuF M.mtu ++
          nFields VField.sentF M.sentCount ++
          nFields VField.recvF M.receivedCount)).length + 1 ≤ len := by
        rw [hassoc2]
        omega
      have hmtu := mtuStage_canon len (headerOf M e.1) (preFields M) M.mtu hH4
        (by unfold preFields; omega) hfitM
      have hsent := sentStage_canon len (headerOf M e.1)
        (preFields M ++ nFields VField.mtuF M.mtu) M.sentCount hH4
        (by omega) hfitS
      have hrecv := recvStage_canon len (headerOf M e.1)
        (preFields M ++ nFields VField.mtuF M.mtu ++ nFields VField.sentF M.sentCount)
        M.receivedCount hH4 (by omega) hfitR
      unfold orp_ProtocolEncode_v1
      rw [if_neg (by omega)]
      simp only [hTE, hB1, hhdr, hhdr2, htime, hpath, hds, hdl, hsync,
        hmtu, hsent, hrecv, if_true, if_pos, ne_eq, not_true_eq_false,
        not_false_eq_true, if_false, hassoc2]
      simp [hassoc2]
    · have hff : fieldsOf len M = preFields M := by
        unfold fieldsOf
        rw [if_neg hsync, if_neg (by omega)]
        simp
      unfold orp_ProtocolEncode_v1
      rw [if_neg (by omega)]
      simp only [hTE, hB1, hhdr, hhdr2, htime, hpath, hds, hdl, hsync, hff]
      simp [hff, hdl, hsync]
  · obtain ⟨hnsync, d, hd, hdlen⟩ := hdata hdl
    have hKd : dataK len M ≤ d.length := by
      have h2 : dataK len M ≤ M.dataLen := Nat.min_le_right _ _
      omega
    have hdsc := dataStage_canon len (headerOf M e.1) (preFields M) d M.dataLen
      (dataK len M) hH4 hroomPre hdl rfl
      (by
        have h2 := hroomData hdl
        unfold dataIdxA at h2
        exact h2)
      hKd
    have hff : fieldsOf len M = preFields M ++ [VField.dataF (d.take (dataK len M))] := by
      unfold fieldsOf
      rw [if_neg hnsync, if_pos hdl, hd]
      simp
    unfold orp_ProtocolEncode_v1
    rw [if_neg (by omega)]
    simp only [hTE, hB1, hhdr, hhdr2, htime, hpath, hd, hdsc, hnsync, hff]
    simp [hff, hdl, hnsync]

theorem scanLoop_stop (buf : List Nat) (pktLen i : Nat) (st : ScanState) (acc : ScanAcc)
    (h : pktLen ≤ i) : scanLoop buf pktLen i st acc = (buf, acc, st) := by
  unfold scanLoop
  rw [show pktLen - i = 0 from by omega]
  rfl

theorem scanLoop_succ (buf : List Nat) (pktLen i : Nat) (st : ScanState) (acc : ScanAcc)
    (h : i < pktLen) :
    scanLoop buf pktLen i st acc = scanLoopF ((pktLen - (i + 1)) + 1) buf pktLen i st acc := by
  unfold scanLoop
  rw [show pktLen - i = (pktLen - (i + 1)) + 1 from by omega]

theorem scanLoop_comma (buf : List Nat) (pktLen i : Nat) (st : ScanState) (acc : ScanAcc)
    (h : i < pktLen) (hst : ¬(st = ScanState.done ∨ st = ScanState.error))
    (hb : buf.getD i 0 = 44) :
    scanLoop buf pktLen i st acc =
      scanLoop (buf.set i 0) pktLen (i + 1) ScanState.search acc := by
  rw [scanLoop_succ buf pktLen i st acc h, scanLoopF_succ, if_neg hst]
  rw [show scanLoop (buf.set i 0) pktLen (i + 1) ScanState.search acc =
    scanLoopF (pktLen - (i + 1)) (buf.set i 0) pktLen (i + 1) ScanState.search acc from rfl]
  rw [List.getD_eq_getElem?_getD] at hb
  simp [hb]

theorem scanLoop_infield (buf : List Nat) (pktLen i : Nat) (acc : ScanAcc)
    (h : i < pktLen) (hb : buf.getD i 0 ≠ 44) :
    scanLoop buf pktLen i ScanState.infield acc =
      scanLoop buf pktLen (i + 1) ScanState.infield acc := by
  rw [scanLoop_succ buf pktLen i _ acc h, scanLoopF_succ, if_neg (by simp)]
  rw [show scanLoop buf pktLen (i + 1) ScanState.infield acc =
    scanLoopF (pktLen - (i + 1)) buf pktLen (i + 1) ScanState.infield acc from rfl]
  rw [List.getD_eq_getElem?_getD] at hb
  simp [hb]

theorem scanLoop_done (buf : List Nat) (pktLen i : Nat) (acc : ScanAcc) :
    scanLoop buf pktLen i ScanState.done acc = (buf, acc, ScanState.done) := by
  by_cases h : i < pktLen
  · rw [scanLoop_succ buf pktLen i _ acc h, scanLoopF_succ, if_pos (Or.inl rfl)]
  · exact scanLoop_stop _ _ _ _ _ (by omega)

theorem scanLoop_search_P (buf : List Nat) (pktLen i : Nat) (acc : ScanAcc)
    (h : i < pktLen) (hb : buf.getD i 0 = 80) :
    scanLoop buf pktLen i ScanState.search acc =
      scanLoop buf pktLen (i + 1) ScanState.infield { acc with pathIdx := some (i + 1) } := by
  rw [scanLoop_succ buf pktLen i _ acc h, scanLoopF_succ, if_neg (by simp)]
  rw [show scanLoop buf pktLen (i + 1) ScanState.infield
      { acc with pathIdx := some (i + 1) } =
    scanLoopF (pktLen - (i + 1)) buf pktLen (i + 1) ScanState.infield
      { acc with pathIdx := some (i + 1) } from rfl]
  rw [List.getD_eq_getElem?_getD] at hb
  simp [hb]

theorem scanLoop_search_T (buf : List Nat) (pktLen i : Nat) (acc : ScanAcc)
    (h : i < pktLen) (hb : buf.getD i 0 = 84) :
    scanLoop buf pktLen i ScanState.search acc =
      scanLoop buf pktLen (i + 1) ScanState.infield { acc with timeIdx := some (i + 1) } := by
  rw [scanLoop_succ buf pktLen i _ acc h, scanLoopF_succ, if_neg (by simp)]
  rw [show scanLoop buf pktLen (i + 1) ScanState.infield
      { acc with timeIdx := some (i + 1) } =
    scanLoopF (pktLen - (i + 1)) buf pktLen (i + 1) ScanState.infield
      { acc with timeIdx := some (i + 1) } from rfl]
  rw [List.getD_eq_getElem?_getD] at hb
  simp [hb]

theorem scanLoop_search_D (buf : List Nat) (pktLen i : Nat) (acc : ScanAcc)
    (h : i < pktLen) (hb : buf.getD i 0 = 68) :
    scanLoop buf pktLen i ScanState.search acc =
      scanLoop (buf.set pktLen 0) pktLen (i + 1) ScanState.done
        { acc with dataIdx := some (i + 1), dataLen := pktLen - i - 1 } := by
  rw [scanLoop_succ buf pktLen i _ acc h, scanLoopF_succ, if_neg (by simp)]
  rw [show scanLoop (buf.set pktLen 0) pktLen (i + 1) ScanState.done
      { acc with dataIdx := some (i + 1), dataLen := pktLen - i - 1 } =
    scanLoopF (pktLen - (i + 1)) (buf.set pktLen 0) pktLen (i + 1) ScanState.done
      { acc with dataIdx := some (i + 1), dataLen := pktLen - i - 1 } from rfl]
  rw [List.getD_eq_getElem?_getD] at hb
  simp [hb]

theorem scanLoop_search_M (buf : List Nat) (pktLen i : Nat) (acc : ScanAcc)
    (h : i < pktLen) (hb : buf.getD i 0 = 77)
    (hof : (strtoulModel (buf.drop (i + 1))).2 = false) :
    scanLoop buf pktLen i ScanState.search acc =
      scanLoop buf pktLen (i + 1) ScanState.infield
        { acc with mtu :=
            toInt32 (strtoulModel (buf.drop (i + 1))).1 } := by
  rw [scanLoop_succ buf pktLen i _ acc h, scanLoopF_succ, if_neg (by simp)]
  rw [show scanLoop buf pktLen (i + 1) ScanState.infield
      { acc with mtu :=
          toInt32 (strtoulModel (buf.drop (i + 1))).1 } =
    scanLoopF (pktLen - (i + 1)) buf pktLen (i + 1) ScanState.infield
      { acc with mtu :=
          toInt32 (strtoulModel (buf.drop (i + 1))).1 } from rfl]
  rw [List.getD_eq_getElem?_getD] at hb
  simp [hb, hof]

theorem scanLoop_search_S (buf : List Nat) (pktLen i : Nat) (acc : ScanAcc)
    (h : i < pktLen) (hb : buf.getD i 0 = 83)
    (hof : (strtoulModel (buf.drop (i + 1))).2 = false) :
    scanLoop buf pktLen i ScanState.search acc =
      scanLoop buf pktLen (i + 1) ScanState.infield
        { acc with sentCount :=
            toInt32 (strtoulModel (buf.drop (i + 1))).1 } := by
  rw [scanLoop_succ buf pktLen i _ acc h, scanLoopF_succ, if_neg (by simp)]
  rw [show scanLoop buf pktLen (i + 1) ScanState.infield
      { acc with sentCount :=
          toInt32 (strtoulModel (buf.drop (i + 1))).1 } =
    scanLoopF (pktLen - (i + 1)) buf pktLen (i + 1) ScanState.infield
      { acc with sentCount :=
          toInt32 (strtoulModel (buf.drop (i + 1))).1 } from rfl]
  rw [List.getD_eq_getElem?_getD] at hb
  simp [hb, hof]

theorem scanLoop_search_R (buf : List Nat) (pktLen i : Nat) (acc : ScanAcc)
    (h : i < pktLen) (hb : buf.getD i 0 = 82)
    (hof : (strtoulModel (buf.drop (i + 1))).2 = false) :
    scanLoop buf pktLen i ScanState.search acc =
      scanLoop buf pktLen (i + 1) ScanState.infield
        { acc with receivedCount :=
            toInt32 (strtoulModel (buf.drop (i + 1))).1 } := by
  rw [scanLoop_succ buf pktLen i _ acc h, scanLoopF_succ, if_neg (by simp)]
  rw [show scanLoop buf pktLen (i + 1) ScanState.infield
      { acc with receivedCount :=
          toInt32 (strtoulModel (buf.drop (i + 1))).1 } =
    scanLoopF (pktLen - (i + 1)) buf pktLen (i + 1) ScanState.infield
      { acc with receivedCount :=
          toInt32 (strtoulModel (buf.drop (i + 1))).1 } from rfl]
  rw [List.getD_eq_getElem?_getD] at hb
  simp [hb, hof]

theorem scanLoop_infield_skip (c : Nat) :
    ∀ (buf : List Nat) (pktLen i : Nat) (acc : ScanAcc),
      (∀ j, i ≤ j → j < i + c → buf.getD j 0 ≠ 44) → i + c ≤ pktLen →
      scanLoop buf pktLen i ScanState.infield acc =
        scanLoop buf pktLen (i + c) ScanState.infield acc := by
  induction c with
  | zero => intro buf pktLen i acc _ _; rfl
  | succ c ih =>
    intro buf pktLen i acc hnc hle
    rw [scanLoop_infield buf pktLen i acc (by omega) (hnc i (le_refl i) (by omega))]
    rw [ih buf pktLen (i + 1) acc (fun j h1 h2 => hnc j (by omega) (by omega)) (by omega)]
    rw [show i + 1 + c = i + (c + 1) from by omega]

theorem getD_at (pre : List Nat) (x : Nat) (tl : List Nat) :
    (pre ++ x :: tl).getD pre.length 0 = x := by
  rw [List.getD_append_right _ _ _ _ (le_refl _), Nat.sub_self]
  rfl

theorem getD_mid (pre mid tl : List Nat) (j : Nat) (h1 : pre.length ≤ j)
    (h2 : j < pre.length + mid.length) :
    (pre ++ mid ++ tl).getD j 0 = mid.getD (j - pre.length) 0 := by
  rw [List.append_assoc, List.getD_append_right pre _ _ j h1]
  rw [List.getD_append _ _ _ _ (by omega)]

theorem set_at_boundary (A : List Nat) (x v : Nat) (B : List Nat) :
    (A ++ x :: B).set A.length v = A ++ v :: B := by
  rw [List.set_append, if_neg (by omega), Nat.sub_self]
  rfl

theorem set_after (A B : List Nat) (v : Nat) :
    (A ++ B).set A.length v = A ++ B.set 0 v := by
  rw [List.set_append, if_neg (by omega), Nat.sub_self]

theorem getD_mem (c : List Nat) (k : Nat) (hk : k < c.length) : c.getD k 0 ∈ c := by
  rw [List.getD_eq_getElem?_getD, List.getElem?_eq_getElem hk]
  exact List.getElem_mem hk

/-- The scan accumulator after walking the given fields, whose first
identifier byte sits at `base`. -/
def accAfter (base : Nat) (acc : ScanAcc) : List VField → ScanAcc
  | [] => acc
  | f :: rest =>
    accAfter (base + (vfBytes f).length + 1)
      (match f with
        | VField.pathF _ => { acc with pathIdx := some (base + 1) }
        | VField.timeF _ => { acc with timeIdx := some (base + 1) }
        | VField.dataF d => { acc with dataIdx := some (base + 1), dataLen := d.length }
        | VField.mtuF n => { acc with mtu := toInt32 n }
        | VField.sentF n => { acc with sentCount := toInt32 n }
        | VField.recvF n => { acc with receivedCount := toInt32 n }) rest

/-- The scan state at the end of the packet: DONE after a data field,
INFIELD after any other field, SEARCH when there were none. -/
def endState : List VField → ScanState
  | [] => ScanState.search
  | f :: rest =>
    if rest.isEmpty then
      match f with
      | VField.dataF _ => ScanState.done
      | _ => ScanState.infield
    else endState rest

/-- Conditions under which the scan walks the fields as intended: no
separator byte inside string contents, data only as the last field,
numeric values within `ULONG_MAX`. -/
def scanWf : List VField → Prop
  | [] => True
  | f :: rest =>
    (match f with
      | VField.pathF p => ∀ b ∈ p, b ≠ 44
      | VField.timeF s => ∀ b ∈ s, b ≠ 44
      | VField.dataF _ => rest = []
      | VField.mtuF n => n < 18446744073709551616
      | VField.sentF n => n < 18446744073709551616
      | VField.recvF n => n < 18446744073709551616) ∧ scanWf rest

theorem joinFields_cons_length_pos (sep : Nat) (f : VField) (rest : List VField) :
    0 < (joinFields sep (f :: rest)).length := by
  rw [joinFields_cons, List.length_append]
  have := vfBytes_length_pos f
  omega

/-- The scan loop walks a comma-joined field list: it replaces each
separator comma (and, after a data field, the byte at `pktLen`) by NUL,
records each field in the accumulator, and ends in the expected state.
A terminal numeric field is parsed from the unterminated buffer, so the
bytes past the body (`post`) must not extend the parse. -/
theorem scanLoop_joinFields (fs : List VField) :
    ∀ (pre post : List Nat) (acc : ScanAcc), scanWf fs →
      (∀ n, n < 18446744073709551616 →
        strtoulModel (natToDigits n ++ post) = (n, false)) →
      scanLoop (pre ++ joinFields 44 fs ++ post)
          (pre.length + (joinFields 44 fs).length) pre.length ScanState.search acc =
        (pre ++ joinFields 0 fs ++
          (if endState fs = ScanState.done then post.set 0 0 else post),
         accAfter pre.length acc fs, endState fs) := by
  induction fs with
  | nil =>
    intro pre post acc _ _
    rw [scanLoop_stop _ _ _ _ _ (by simp [joinFields])]
    simp [joinFields, accAfter, endState]
  | cons f rest ih =>
    intro pre post acc hwf hpost
    obtain ⟨hwf1, hwfr⟩ := hwf
    have cont : ∀ (idb : Nat) (c : List Nat) (acc2 : ScanAcc),
        vfBytes f = idb :: c → (∀ b ∈ c, b ≠ 44) →
        (rest = [] → endState [f] = ScanState.infield) →
        scanLoop (pre ++ joinFields 44 (f :: rest) ++ post)
            (pre.length + (joinFields 44 (f :: rest)).length) (pre.length + 1)
            ScanState.infield acc2 =
          (pre ++ joinFields 0 (f :: rest) ++
            (if endState (f :: rest) = ScanState.done then post.set 0 0 else post),
           accAfter (pre.length + (vfBytes f).length + 1) acc2 rest,
           endState (f :: rest)) := by
      intro idb c acc2 hvf hnc hends
      cases rest with
      | nil =>
        have hb1 : joinFields 44 (f :: ([] : List VField)) = idb :: c := by
          rw [joinFields_cons, hvf]
          simp
        have hb2 : joinFields 0 (f :: ([] : List VField)) = idb :: c := by
          rw [joinFields_cons, hvf]
          simp
        have hES : endState (f :: ([] : List VField)) = ScanState.infield := hends rfl
        rw [hb1, hb2, hES]
        rw [scanLoop_infield_skip c.length _ _ _ _
          (fun j h1 h2 => by
            rw [show pre ++ (idb :: c) ++ post = (pre ++ [idb]) ++ c ++ post from by simp]
            rw [getD_mid (pre ++ [idb]) c post j
              (by simp only [List.length_append, List.length_cons, List.length_nil]; omega)
              (by simp only [List.length_append, List.length_cons, List.length_nil]; omega)]
            exact hnc _ (getD_mem c _
              (by simp only [List.length_append, List.length_cons, List.length_nil]; omega)))
          (by simp only [List.length_cons]; omega)]
        rw [scanLoop_stop _ _ _ _ _ (by simp only [List.length_cons]; omega)]
        simp [accAfter]
      | cons g gs =>
        have hb1 : joinFields 44 (f :: g :: gs) =
            (idb :: c) ++ 44 :: joinFields 44 (g :: gs) := by
          rw [joinFields_cons, hvf]
          simp
        have hb2 : joinFields 0 (f :: g :: gs) =
            (idb :: c) ++ 0 :: joinFields 0 (g :: gs) := by
          rw [joinFields_cons, hvf]
          simp
        have hES : endState (f :: g :: gs) = endState (g :: gs) := by
          simp [endState]
        rw [hb1, hb2, hES]
        rw [scanLoop_infield_skip c.length _ _ _ _
          (fun j h1 h2 => by
            rw [show pre ++ ((idb :: c) ++ 44 :: joinFields 44 (g :: gs)) ++ post =
              (pre ++ [idb]) ++ c ++ (44 :: joinFields 44 (g :: gs) ++ post) from by simp]
            rw [getD_mid (pre ++ [idb]) c _ j
              (by simp only [List.length_append, List.length_cons, List.length_nil]; omega)
              (by simp only [List.length_append, List.length_cons, List.length_nil]; omega)]
            exact hnc _ (getD_mem c _
              (by simp only [List.length_append, List.length_cons, List.length_nil]; omega)))
          (by simp only [List.length_append, List.length_cons]; omega)]
        rw [scanLoop_comma _ _ _ _ _
          (by simp only [List.length_append, List.length_cons]; omega)
          (by simp)
          (by
            rw [show pre ++ ((idb :: c) ++ 44 :: joinFields 44 (g :: gs)) ++ post =
              (pre ++ idb :: c) ++ 44 :: (joinFields 44 (g :: gs) ++ post) from by simp]
            rw [show pre.length + 1 + c.length = (pre ++ idb :: c).length from by
              simp only [List.length_append, List.length_cons]
              omega]
            exact getD_at _ 44 _)]
        rw [show (pre ++ ((idb :: c) ++ 44 :: joinFields 44 (g :: gs)) ++ post).set
              (pre.length + 1 + c.length) 0 =
            ((pre ++ idb :: c) ++ [0]) ++ joinFields 44 (g :: gs) ++ post from by
          rw [show pre ++ ((idb :: c) ++ 44 :: joinFields 44 (g :: gs)) ++ post =
            (pre ++ idb :: c) ++ 44 :: (joinFields 44 (g :: gs) ++ post) from by simp]
          rw [show pre.length + 1 + c.length = (pre ++ idb :: c).length from by
            simp only [List.length_append, List.length_cons]
            omega]
          rw [set_at_boundary]
          simp]
        rw [show pre.length + ((idb :: c) ++ 44 :: joinFields 44 (g :: gs)).length =
            ((pre ++ idb :: c) ++ [0]).length + (joinFields 44 (g :: gs)).length from by
          simp only [List.length_append, List.length_cons, List.length_nil]
          omega]
        rw [show pre.length + 1 + c.length + 1 = ((pre ++ idb :: c) ++ [0]).length from by
          simp only [List.length_append, List.length_cons, List.length_nil]
          omega]
        rw [ih ((pre ++ idb :: c) ++ [0]) post acc2 hwfr hpost]
        rw [hvf]
        rw [show pre.length + (idb :: c).length + 1 = ((pre ++ idb :: c) ++ [0]).length from by
          simp only [List.length_append, List.length_cons, List.length_nil]
          try omega]
        simp
    cases f with
    | pathF p =>
      rw [scanLoop_search_P _ _ _ acc
        (by have := joinFields_cons_length_pos 44 (VField.pathF p) rest; omega)
        (by
          rw [show pre ++ joinFields 44 (VField.pathF p :: rest) ++ post =
            pre ++ 80 :: (p ++
              ((if rest.isEmpty then [] else 44 :: joinFields 44 rest) ++ post)) from by
            rw [joinFields_cons]
            simp [vfBytes]]
          exact getD_at pre 80 _)]
      rw [cont 80 p _ rfl hwf1 (fun _ => rfl)]
      simp [accAfter, vfBytes]
    | timeF s =>
      rw [scanLoop_search_T _ _ _ acc
        (by have := joinFields_cons_length_pos 44 (VField.timeF s) rest; omega)
        (by
          rw [show pre ++ joinFields 44 (VField.timeF s :: rest) ++ post =
            pre ++ 84 :: (s ++
              ((if rest.isEmpty then [] else 44 :: joinFields 44 rest) ++ post)) from by
            rw [joinFields_cons]
            simp [vfBytes]]
          exact getD_at pre 84 _)]
      rw [cont 84 s _ rfl hwf1 (fun _ => rfl)]
      simp [accAfter, vfBytes]
    | dataF d =>
      subst hwf1
      have hb1 : joinFields 44 [VField.dataF d] = 68 :: d := by
        rw [joinFields_cons]
        simp [vfBytes]
      have hb2 : joinFields 0 [VField.dataF d] = 68 :: d := by
        rw [joinFields_cons]
        simp [vfBytes]
      rw [hb1, hb2]
      rw [scanLoop_search_D _ _ _ acc (by simp only [List.length_cons]; omega)
        (by
          rw [show pre ++ (68 :: d) ++ post = pre ++ 68 :: (d ++ post) from by simp]
          exact getD_at pre 68 _)]
      rw [scanLoop_done]
      rw [show (pre ++ (68 :: d) ++ post).set (pre.length + (68 :: d).length) 0 =
          pre ++ (68 :: d) ++ post.set 0 0 from by
        rw [show pre ++ (68 :: d) ++ post = (pre ++ (68 :: d)) ++ post from by simp]
        rw [show pre.length + (68 :: d).length = (pre ++ (68 :: d)).length from by
          simp only [List.length_append]]
        rw [set_after]]
      rw [show pre.length + (68 :: d).length - pre.length - 1 = d.length from by
        simp only [List.length_cons]
        omega]
      simp [accAfter, endState, vfBytes]
    | mtuF n =>
      have hslice : (pre ++ joinFields 44 (VField.mtuF n :: rest) ++ post).drop
            (pre.length + 1) =
          (natToDigits n ++
            (if rest.isEmpty then [] else 44 :: joinFields 44 rest)) ++ post := by
        rw [show pre ++ joinFields 44 (VField.mtuF n :: rest) ++ post =
          (pre ++ [77]) ++ ((natToDigits n ++
            (if rest.isEmpty then [] else 44 :: joinFields 44 rest)) ++ post) from by
          rw [joinFields_cons]
          simp [vfBytes]]
        rw [show pre.length + 1 = (pre ++ [77]).length from by simp, List.drop_left]
      have hstrt : strtoulModel ((natToDigits n ++
          (if rest.isEmpty then [] else 44 :: joinFields 44 rest)) ++ post) =
          (n, false) := by
        cases rest with
        | nil => simpa using hpost n hwf1
        | cons g gs =>
          have h := strtoul_digits n (44 :: (joinFields 44 (g :: gs) ++ post)) hwf1
            (Or.inr ⟨joinFields 44 (g :: gs) ++ post, rfl⟩)
          simpa using h
      have hdig : ∀ b ∈ natToDigits n, b ≠ 44 := fun b hb => by
        have := natToDigits_digits n b hb
        omega
      rw [scanLoop_search_M _ _ _ acc
        (by have := joinFields_cons_length_pos 44 (VField.mtuF n) rest; omega)
        (by
          rw [show pre ++ joinFields 44 (VField.mtuF n :: rest) ++ post =
            pre ++ 77 :: ((natToDigits n ++
              (if rest.isEmpty then [] else 44 :: joinFields 44 rest)) ++ post) from by
            rw [joinFields_cons]
            simp [vfBytes]]
          exact getD_at pre 77 _)
        (by rw [hslice, hstrt])]
      rw [cont 77 (natToDigits n) _ rfl hdig (fun _ => rfl)]
      rw [hslice, hstrt]
      simp [accAfter, vfBytes]
    | sentF n =>
      have hslice : (pre ++ joinFields 44 (VField.sentF n :: rest) ++ post).drop
            (pre.length + 1) =
          (natToDigits n ++
            (if rest.isEmpty then [] else 44 :: joinFields 44 rest)) ++ post := by
        rw [show pre ++ joinFields 44 (VField.sentF n :: rest) ++ post =
          (pre ++ [83]) ++ ((natToDigits n ++
            (if rest.isEmpty then [] else 44 :: joinFields 44 rest)) ++ post) from by
          rw [joinFields_cons]
          simp [vfBytes]]
        rw [show pre.length + 1 = (pre ++ [83]).length from by simp, List.drop_left]
      have hstrt : strtoulModel ((natToDigits n ++
          (if rest.isEmpty then [] else 44 :: joinFields 44 rest)) ++ post) =
          (n, false) := by
        cases rest with
        | nil => simpa using hpost n hwf1
        | cons g gs =>
          have h := strtoul_digits n (44 :: (joinFields 44 (g :: gs) ++ post)) hwf1
            (Or.inr ⟨joinFields 44 (g :: gs) ++ post, rfl⟩)
          simpa using h
      have hdig : ∀ b ∈ natToDigits n, b ≠ 44 := fun b hb => by
        have := natToDigits_digits n b hb
        omega
      rw [scanLoop_search_S _ _ _ acc
        (by have := joinFields_cons_length_pos 44 (VField.sentF n) rest; omega)
        (by
          rw [show pre ++ joinFields 44 (VField.sentF n :: rest) ++ post =
            pre ++ 83 :: ((natToDigits n ++
              (if rest.isEmpty then [] else 44 :: joinFields 44 rest)) ++ post) from by
            rw [joinFields_cons]
            simp [vfBytes]]
          exact getD_at pre 83 _)
        (by rw [hslice, hstrt])]
      rw [cont 83 (natToDigits n) _ rfl hdig (fun _ => rfl)]
      rw [hslice, hstrt]
      simp [accAfter, vfBytes]
    | recvF n =>
      have hslice : (pre ++ joinFields 44 (VField.recvF n :: rest) ++ post).drop
            (pre.length + 1) =
          (natToDigits n ++
            (if rest.isEmpty then [] else 44 :: joinFields 44 rest)) ++ post := by
        rw [show pre ++ joinFields 44 (VField.recvF n :: rest) ++ post =
          (pre ++ [82]) ++ ((natToDigits n ++
            (if rest.isEmpty then [] else 44 :: joinFields 44 rest)) ++ post) from by
          rw [joinFields_cons]
          simp [vfBytes]]
        rw [show pre.length + 1 = (pre ++ [82]).length from by simp, List.drop_left]
      have hstrt : strtoulModel ((natToDigits n ++
          (if rest.isEmpty then [] else 44 :: joinFields 44 rest)) ++ post) =
          (n, false) := by
        cases rest with
        | nil => simpa using hpost n hwf1
        | cons g gs =>
          have h := strtoul_digits n (44 :: (joinFields 44 (g :: gs) ++ post)) hwf1
            (Or.inr ⟨joinFields 44 (g :: gs) ++ post, rfl⟩)
          simpa using h
      have hdig : ∀ b ∈ natToDigits n, b ≠ 44 := fun b hb => by
        have := natToDigits_digits n b hb
        omega
      rw [scanLoop_search_R _ _ _ acc
        (by have := joinFields_cons_length_pos 44 (VField.recvF n) rest; omega)
        (by
          rw [show pre ++ joinFields 44 (VField.recvF n :: rest) ++ post =
            pre ++ 82 :: ((natToDigits n ++
              (if rest.isEmpty then [] else 44 :: joinFields 44 rest)) ++ post) from by
            rw [joinFields_cons]
            simp [vfBytes]]
          exact getD_at pre 82 _)
        (by rw [hslice, hstrt])]
      rw [cont 82 (natToDigits n) _ rfl hdig (fun _ => rfl)]
      rw [hslice, hstrt]
      simp [accAfter, vfBytes]

theorem endState_ne_error (fs : List VField) : endState fs ≠ ScanState.error := by
  induction fs with
  | nil => simp [endState]
  | cons f rest ih =>
    unfold endState
    by_cases h : rest.isEmpty
    · rw [if_pos h]
      cases f <;> simp
    · rw [if_neg h]
      exact ih

theorem scanWf_cons (f : VField) (rest : List VField) :
    scanWf (f :: rest) = ((match f with
      | VField.pathF p => ∀ b ∈ p, b ≠ 44
      | VField.timeF s => ∀ b ∈ s, b ≠ 44
      | VField.dataF _ => rest = []
      | VField.mtuF n => n < 18446744073709551616
      | VField.sentF n => n < 18446744073709551616
      | VField.recvF n => n < 18446744073709551616) ∧ scanWf rest) := rfl

theorem scanWf_append (fs gs : List VField) (hgs : scanWf gs)
    (hnd : ∀ d, VField.dataF d ∉ fs) : scanWf fs → scanWf (fs ++ gs) := by
  induction fs with
  | nil => intro _; simpa using hgs
  | cons f fs' ih =>
    intro hfs
    rw [scanWf_cons] at hfs
    rw [List.cons_append, scanWf_cons]
    refine ⟨?_, ih (fun d hd => hnd d (by simp [hd])) hfs.2⟩
    cases f with
    | pathF p => exact hfs.1
    | timeF s => exact hfs.1
    | dataF d => exact absurd (by simp) (hnd d)
    | mtuF n => exact hfs.1
    | sentF n => exact hfs.1
    | recvF n => exact hfs.1

/-- The scan position just past a field list and its separator. -/
def nextBase (base : Nat) (fs : List VField) : Nat :=
  base + (joinFields 44 fs).length + (if fs = [] then 0 else 1)

theorem accAfter_append (fs : List VField) : ∀ (base : Nat) (acc : ScanAcc)
    (gs : List VField),
    accAfter base acc (fs ++ gs) = accAfter (nextBase base fs) (accAfter base acc fs) gs := by
  induction fs with
  | nil =>
    intro base acc gs
    simp [accAfter, nextBase, joinFields]
  | cons f fs' ih =>
    intro base acc gs
    rw [List.cons_append]
    show accAfter (base + (vfBytes f).length + 1) _ (fs' ++ gs) = _
    rw [ih]
    show _ = accAfter (nextBase base (f :: fs')) (accAfter (base + (vfBytes f).length + 1) _ fs') gs
    have hnb : nextBase (base + (vfBytes f).length + 1) fs' = nextBase base (f :: fs') := by
      unfold nextBase
      rw [joinFields_cons]
      by_cases h : fs' = []
      · subst h
        simp [joinFields]
      · have hne : fs'.isEmpty = false := by
          cases fs' with
          | nil => exact absurd rfl h
          | cons a b => rfl
        simp [h, hne, joinFields_cons]
        try omega
    rw [hnb]

theorem accAfter_unitIdx (fs : List VField) : ∀ (base : Nat) (acc : ScanAcc),
    (accAfter base acc fs).unitIdx = acc.unitIdx := by
  induction fs with
  | nil => intro base acc; rfl
  | cons f fs' ih =>
    intro base acc
    cases f <;> simp [accAfter, ih]

theorem accAfter_timeIdx (fs : List VField) (h : ∀ s, VField.timeF s ∉ fs) :
    ∀ (base : Nat) (acc : ScanAcc), (accAfter base acc fs).timeIdx = acc.timeIdx := by
  induction fs with
  | nil => intro base acc; rfl
  | cons f fs' ih =>
    intro base acc
    have h' : ∀ s, VField.timeF s ∉ fs' := fun s hs => h s (by simp [hs])
    cases f with
    | timeF s => exact absurd (by simp) (h s)
    | pathF p => simp [accAfter, ih h']
    | dataF d => simp [accAfter, ih h']
    | mtuF n => simp [accAfter, ih h']
    | sentF n => simp [accAfter, ih h']
    | recvF n => simp [accAfter, ih h']

theorem accAfter_pathIdx (fs : List VField) (h : ∀ p, VField.pathF p ∉ fs) :
    ∀ (base : Nat) (acc : ScanAcc), (accAfter base acc fs).pathIdx = acc.pathIdx := by
  induction fs with
  | nil => intro base acc; rfl
  | cons f fs' ih =>
    intro base acc
    have h' : ∀ p, VField.pathF p ∉ fs' := fun p hp => h p (by simp [hp])
    cases f with
    | pathF p => exact absurd (by simp) (h p)
    | timeF s => simp [accAfter, ih h']
    | dataF d => simp [accAfter, ih h']
    | mtuF n => simp [accAfter, ih h']
    | sentF n => simp [accAfter, ih h']
    | recvF n => simp [accAfter, ih h']

theorem accAfter_dataIdx (fs : List VField) (h : ∀ d, VField.dataF d ∉ fs) :
    ∀ (base : Nat) (acc : ScanAcc),
    (accAfter base acc fs).dataIdx = acc.dataIdx ∧
      (accAfter base acc fs).dataLen = acc.dataLen := by
  induction fs with
  | nil => intro base acc; exact ⟨rfl, rfl⟩
  | cons f fs' ih =>
    intro base acc
    have h' : ∀ d, VField.dataF d ∉ fs' := fun d hd => h d (by simp [hd])
    cases f with
    | dataF d => exact absurd (by simp) (h d)
    | pathF p => simpa [accAfter] using ih h' _ _
    | timeF s => simpa [accAfter] using ih h' _ _
    | mtuF n => simpa [accAfter] using ih h' _ _
    | sentF n => simpa [accAfter] using ih h' _ _
    | recvF n => simpa [accAfter] using ih h' _ _

theorem accAfter_mtu (fs : List VField) (h : ∀ n, VField.mtuF n ∉ fs) :
    ∀ (base : Nat) (acc : ScanAcc), (accAfter base acc fs).mtu = acc.mtu := by
  induction fs with
  | nil => intro base acc; rfl
  | cons f fs' ih =>
    intro base acc
    have h' : ∀ n, VField.mtuF n ∉ fs' := fun n hn => h n (by simp [hn])
    cases f with
    | mtuF n => exact absurd (by simp) (h n)
    | pathF p => simp [accAfter, ih h']
    | timeF s => simp [accAfter, ih h']
    | dataF d => simp [accAfter, ih h']
    | sentF n => simp [accAfter, ih h']
    | recvF n => simp [accAfter, ih h']

theorem accAfter_sent (fs : List VField) (h : ∀ n, VField.sentF n ∉ fs) :
    ∀ (base : Nat) (acc : ScanAcc), (accAfter base acc fs).sentCount = acc.sentCount := by
  induction fs with
  | nil => intro base acc; rfl
  | cons f fs' ih =>
    intro base acc
    have h' : ∀ n, VField.sentF n ∉ fs' := fun n hn => h n (by simp [hn])
    cases f with
    | sentF n => exact absurd (by simp) (h n)
    | pathF p => simp [accAfter, ih h']
    | timeF s => simp [accAfter, ih h']
    | dataF d => simp [accAfter, ih h']
    | mtuF n => simp [accAfter, ih h']
    | recvF n => simp [accAfter, ih h']

theorem accAfter_recv (fs : List VField) (h : ∀ n, VField.recvF n ∉ fs) :
    ∀ (base : Nat) (acc : ScanAcc), (accAfter base acc fs).receivedCount = acc.receivedCount := by
  induction fs with
  | nil => intro base acc; rfl
  | cons f fs' ih =>
    intro base acc
    have h' : ∀ n, VField.recvF n ∉ fs' := fun n hn => h n (by simp [hn])
    cases f with
    | recvF n => exact absurd (by simp) (h n)
    | pathF p => simp [accAfter, ih h']
    | timeF s => simp [accAfter, ih h']
    | dataF d => simp [accAfter, ih h']
    | mtuF n => simp [accAfter, ih h']
    | sentF n => simp [accAfter, ih h']

theorem toInt32_of_lt (v : Int) (h0 : 0 ≤ v) (h : v < 2147483648) :
    toInt32 v.toNat = v := by
  unfold toInt32
  rw [Nat.mod_eq_of_lt (by omega), if_pos (by omega)]
  omega

theorem takeWhile_nz (content Q : List Nat) (hz : ∀ b ∈ content, b ≠ 0) :
    (content ++ 0 :: Q).takeWhile (fun b => b ≠ 0) = content := by
  induction content with
  | nil => simp [List.takeWhile_cons]
  | cons b c ih =>
    have hb := hz b (by simp)
    rw [List.cons_append, List.takeWhile_cons]
    rw [if_pos (by simp [hb])]
    rw [ih (fun x hx => hz x (by simp [hx]))]

theorem cString_at (A content Q : List Nat) (hz : ∀ b ∈ content, b ≠ 0) :
    cString (A ++ (content ++ 0 :: Q)) A.length = content := by
  unfold cString
  rw [List.drop_left]
  exact takeWhile_nz content Q hz

theorem cString_join (H4 : List Nat) (xs ys : List VField) (f : VField)
    (idb : Nat) (content : List Nat) (pi : Nat)
    (hvf : vfBytes f = idb :: content)
    (hz : ∀ b ∈ content, b ≠ 0)
    (hpi : pi = H4.length + (joinFields 0 xs).length + (if xs = [] then 0 else 1) + 1) :
    cString (H4 ++ joinFields 0 (xs ++ f :: ys) ++ [0]) pi = content := by
  subst hpi
  rw [joinFields_append 0 xs (f :: ys) (by simp), joinFields_cons, hvf]
  cases ys with
  | nil =>
    convert cString_at (H4 ++ joinFields 0 xs ++ (if xs = [] then [] else [0]) ++ [idb])
      content [] hz using 2
    · simp
    · by_cases hxs : xs = [] <;> simp [hxs] <;> try omega
  | cons g gs =>
    convert cString_at (H4 ++ joinFields 0 xs ++ (if xs = [] then [] else [0]) ++ [idb])
      content (joinFields 0 (g :: gs) ++ [0]) hz using 2
    · simp
    · by_cases hxs : xs = [] <;> simp [hxs] <;> try omega

theorem data_slice (H4 : List Nat) (xs : List VField) (d : List Nat) (di : Nat)
    (hdi : di = H4.length + (joinFields 0 xs).length + (if xs = [] then 0 else 1) + 1) :
    ((H4 ++ joinFields 0 (xs ++ [VField.dataF d]) ++ [0]).drop di).take d.length = d := by
  subst hdi
  rw [joinFields_append 0 xs [VField.dataF d] (by simp)]
  have hb : H4 ++ (joinFields 0 xs ++ (if xs = [] then [] else [0]) ++
      joinFields 0 [VField.dataF d]) ++ [0] =
    (H4 ++ joinFields 0 xs ++ (if xs = [] then [] else [0]) ++ [68]) ++ (d ++ [0]) := by
    rw [joinFields_cons]
    simp [vfBytes]
  rw [hb]
  have hlen : H4.length + (joinFields 0 xs).length + (if xs = [] then 0 else 1) + 1 =
      (H4 ++ joinFields 0 xs ++ (if xs = [] then [] else [0]) ++ [68]).length := by
    by_cases hxs : xs = [] <;> simp [hxs] <;> try omega
  rw [hlen, List.drop_left]
  exact List.take_left _ _

/-- The scan on a canonical packet body: commas become NULs, the byte
past the body is NULed exactly when a data field ended the scan. -/
theorem scan_canon (H4 : List Nat) (fs : List VField) (z : Nat) (acc : ScanAcc)
    (hH4 : H4.length = 4) (hwf : scanWf fs)
    (hpost : ∀ n, n < 18446744073709551616 →
      strtoulModel (natToDigits n ++ [z]) = (n, false)) :
    scanLoop (H4 ++ joinFields 44 fs ++ [z]) (4 + (joinFields 44 fs).length) 4
        ScanState.search acc =
      (H4 ++ joinFields 0 fs ++ (if endState fs = ScanState.done then [0] else [z]),
       accAfter 4 acc fs, endState fs) := by
  have h := scanLoop_joinFields fs H4 [z] acc hwf hpost
  rw [hH4] at h
  rw [h]
  by_cases hd : endState fs = ScanState.done <;> simp [hd]

theorem packetTypeDecode_of_mem (e : Nat × Nat × Nat) (he : e ∈ orp_PacketTypeTable) :
    orp_PacketTypeDecode e.1 = some e.2.1 := by
  unfold orp_PacketTypeDecode
  rw [packetTable_find_letter e he]
  rfl

/-- Byte-1 decode of the byte the encoder wrote: succeeds whenever the
packet type has one of the four byte-1 masks, and recovers the encoded
field; all other message fields pass through. -/
theorem byte1_roundtrip (buf : List Nat) (M m1 : OrpMessage) (e : Nat × Nat × Nat)
    (he : e ∈ orp_PacketTypeTable) (het : e.2.1 = M.type) (ht1 : m1.type = M.type)
    (hmz : e.2.2 &&& 3586 ≠ 0)
    (hb1 : buf.getD 1 0 = byte1Val M)
    (hst : e.2.2 &&& 512 ≠ 0 → -191 ≤ M.status ∧ M.status ≤ 64)
    (hdt : e.2.2 &&& 2 ≠ 0 → M.dataType = 0 ∨ M.dataType = 1 ∨ M.dataType = 2 ∨
      M.dataType = 3 ∨ M.dataType = 4 ∨ M.dataType = -1)
    (hev : e.2.2 &&& 2048 ≠ 0 → 0 ≤ M.status ∧ M.status ≤ 9) :
    ∃ msgB, orp_PacketByte1Decode buf m1 = some msgB ∧
      msgB.type = m1.type ∧ msgB.sequenceNum = m1.sequenceNum ∧
      msgB.path = m1.path ∧ msgB.unit = m1.unit ∧ msgB.data = m1.data ∧
      msgB.dataLen = m1.dataLen ∧ msgB.timestamp = m1.timestamp ∧
      msgB.mtu = m1.mtu ∧ msgB.sentCount = m1.sentCount ∧
      msgB.receivedCount = m1.receivedCount ∧
      (e.2.2 &&& 512 ≠ 0 → msgB.status = M.status) ∧
      (e.2.2 &&& 512 = 0 → e.2.2 &&& 2 ≠ 0 → msgB.dataType = M.dataType) ∧
      (e.2.2 &&& 512 = 0 → e.2.2 &&& 2 = 0 → e.2.2 &&& 1024 ≠ 0 → msgB.version = 1) ∧
      (e.2.2 &&& 512 = 0 → e.2.2 &&& 2 = 0 → e.2.2 &&& 1024 = 0 →
        e.2.2 &&& 2048 ≠ 0 → msgB.status = M.status) := by
  have hfr : ∀ m, orp_FieldRequired M.type m = decide (e.2.2 &&& m ≠ 0) := by
    intro m
    rw [← het]
    exact orp_FieldRequired_eq e he m
  unfold orp_PacketByte1Decode
  rw [ht1, hb1]
  unfold byte1Val
  rw [hfr ORP_MASK_STATUS, hfr ORP_MASK_DATA_TYPE, hfr ORP_MASK_VERSION, hfr ORP_MASK_EVENT]
  simp only [ORP_MASK_STATUS, ORP_MASK_DATA_TYPE, ORP_MASK_VERSION, ORP_MASK_EVENT]
  by_cases h512 : e.2.2 &&& 512 = 0
  · by_cases h2 : e.2.2 &&& 2 = 0
    · by_cases h1024 : e.2.2 &&& 1024 = 0
      · by_cases h2048 : e.2.2 &&& 2048 = 0
        · exfalso
          apply hmz
          have hsplit : e.2.2 &&& 3586 =
              e.2.2 &&& 512 ||| (e.2.2 &&& 2 ||| (e.2.2 &&& 1024 ||| (e.2.2 &&& 2048))) := by
            rw [show (3586 : Nat) = 512 ||| (2 ||| (1024 ||| 2048)) from by decide,
              Nat.and_or_distrib_left, Nat.and_or_distrib_left, Nat.and_or_distrib_left]
          rw [hsplit, h512, h2, h1024, h2048]
          decide
        · obtain ⟨b, hbe, hbd⟩ := event_roundtrip M.status (hev h2048).1 (hev h2048).2
          refine ⟨{ m1 with status := M.status }, ?_, by simp [ht1, h512, h2, h1024, h2048]⟩
          simp [ht1, h512, h2, h1024, h2048, hbe, hbd]
      · refine ⟨{ m1 with version := 1 }, ?_, by simp [ht1, h512, h2, h1024]⟩
        have hdec : orp_EnumDecode 49 = some 1 := by decide
        simp [ht1, h512, h2, h1024, hdec]
    · obtain ⟨b, hbe, hbd⟩ := dataType_roundtrip M.dataType (hdt h2)
      refine ⟨{ m1 with dataType := M.dataType }, ?_, by simp [ht1, h512, h2]⟩
      simp [ht1, h512, h2, hbe, hbd]
  · have hs := hst h512
    refine ⟨{ m1 with status := M.status }, ?_, by simp [ht1, h512]⟩
    simp [ht1, h512, status_roundtrip M.status hs.1 hs.2]

/-- Decode of a canonical packet (header, comma-joined fields, one
trailing byte of foreign memory): the header fields are taken from the
byte-1 decode and the byte-swapped sequence expression, the
variable-length fields from the scan accumulator read back out of the
NUL-separated buffer. -/
theorem decode_canon (a b2 s1 s2 z : Nat) (t : Nat) (msgB : OrpMessage)
    (fs : List VField)
    (hT : orp_PacketTypeDecode a = some t)
    (hB : orp_PacketByte1Decode ([a, b2, s1, s2] ++ joinFields 44 fs ++ [z])
      { orp_MessageInInit with type := t } = some msgB)
    (hwf : scanWf fs)
    (hpost : ∀ n, n < 18446744073709551616 →
      strtoulModel (natToDigits n ++ [z]) = (n, false)) :
    orp_ProtocolDecode_v1 ([a, b2, s1, s2] ++ joinFields 44 fs ++ [z])
        (4 + (joinFields 44 fs).length) =
      (let acc := accAfter 4 scanAccInit fs
       let buf2 := [a, b2, s1, s2] ++ joinFields 0 fs ++ [0]
       let msg4 : OrpMessage := { msgB with
         sequenceNum := ((s1 <<< 8) &&& 65280) + (s2 &&& 255),
         path := some (match acc.pathIdx with
           | some pi => cString buf2 pi
           | none => []),
         unit := some (match acc.unitIdx with
           | some ui => cString buf2 ui
           | none => []),
         data := match acc.dataIdx with
           | some di => some ((buf2.drop di).take acc.dataLen)
           | none => none,
         dataLen := acc.dataLen,
         mtu := acc.mtu, sentCount := acc.sentCount,
         receivedCount := acc.receivedCount }
       match acc.timeIdx with
       | some ti =>
         match orp_TimeDecode (cString buf2 ti) with
         | some tv => (true, { msg4 with timestamp := tv }, buf2)
         | none => (false, msg4, buf2)
       | none => (true, msg4, buf2)) := by
  have hbuf2 : (([a, b2, s1, s2] ++ joinFields 0 fs ++
        (if endState fs = ScanState.done then [0] else [z])).set
        (4 + (joinFields 44 fs).length) 0) =
      [a, b2, s1, s2] ++ joinFields 0 fs ++ [0] := by
    have hl : 4 + (joinFields 44 fs).length =
        ([a, b2, s1, s2] ++ joinFields 0 fs).length := by
      rw [joinFields_length_sep 44 0 fs]
      simp
      try omega
    rw [show [a, b2, s1, s2] ++ joinFields 0 fs ++
        (if endState fs = ScanState.done then [0] else [z]) =
      ([a, b2, s1, s2] ++ joinFields 0 fs) ++
        (if endState fs = ScanState.done then [0] else [z]) from by simp]
    rw [hl, set_after]
    by_cases hd : endState fs = ScanState.done <;> simp [hd]
  unfold orp_ProtocolDecode_v1
  rw [if_neg (by omega)]
  rw [show ([a, b2, s1, s2] ++ joinFields 44 fs ++ [z]).getD 0 0 = a from rfl, hT]
  simp only [hB]
  rw [show ([a, b2, s1, s2] ++ joinFields 44 fs ++ [z]).getD 2 0 = s1 from rfl,
    show ([a, b2, s1, s2] ++ joinFields 44 fs ++ [z]).getD 3 0 = s2 from rfl]
  rw [scan_canon [a, b2, s1, s2] fs z scanAccInit (by simp) hwf hpost]
  simp only [hbuf2]
  have hflag : (decide (endState fs ≠ ScanState.error)) = true := by
    simp [endState_ne_error fs]
  rw [hflag]

/-- The fields after timestamp and path: sync counters, a data field,
or nothing. -/
def sufOf (len : Nat) (M : OrpMessage) : List VField :=
  if M.type = 13 ∨ M.type = 14 then
    nFields VField.mtuF M.mtu ++ nFields VField.sentF M.sentCount ++
      nFields VField.recvF M.receivedCount
  else if M.dataLen ≠ 0 then [VField.dataF ((M.data.getD []).take (dataK len M))]
  else []

theorem fieldsOf_eq (len : Nat) (M : OrpMessage) :
    fieldsOf len M = preFields M ++ sufOf len M := rfl

theorem mem_nFields (c : Nat → VField) (v : Int) (x : VField) (h : x ∈ nFields c v) :
    x = c v.toNat := by
  unfold nFields at h
  split at h
  · simpa using h
  · simp at h

theorem mem_tFields (t : OrpTime) (x : VField) (h : x ∈ tFields t) :
    ∃ s, x = VField.timeF s := by
  cases t with
  | invalid => simp [tFields] at h
  | dec s m =>
    refine ⟨natToDigits s ++ [46] ++ pad6 m, ?_⟩
    simpa [tFields] using h

theorem mem_pFields (P : Option (List Nat)) (x : VField) (h : x ∈ pFields P) :
    ∃ p, x = VField.pathF p := by
  cases P with
  | none => simp [pFields] at h
  | some p =>
    refine ⟨p, ?_⟩
    simpa [pFields] using h

theorem mem_sufOf (len : Nat) (M : OrpMessage) (x : VField) (h : x ∈ sufOf len M) :
    (∃ n, x = VField.mtuF n) ∨ (∃ n, x = VField.sentF n) ∨ (∃ n, x = VField.recvF n) ∨
      (∃ d, x = VField.dataF d) := by
  unfold sufOf at h
  by_cases h13 : M.type = 13 ∨ M.type = 14
  · rw [if_pos h13] at h
    rcases List.mem_append.mp h with h' | h'
    · rcases List.mem_append.mp h' with h'' | h''
      · exact Or.inl ⟨_, mem_nFields _ _ _ h''⟩
      · exact Or.inr (Or.inl ⟨_, mem_nFields _ _ _ h''⟩)
    · exact Or.inr (Or.inr (Or.inl ⟨_, mem_nFields _ _ _ h'⟩))
  · rw [if_neg h13] at h
    by_cases hdl : M.dataLen ≠ 0
    · rw [if_pos hdl] at h
      simp at h
      exact Or.inr (Or.inr (Or.inr ⟨_, h⟩))
    · rw [if_neg hdl] at h
      simp at h

theorem mem_preFields (M : OrpMessage) (x : VField) (h : x ∈ preFields M) :
    (∃ s, x = VField.timeF s) ∨ (∃ p, x = VField.pathF p) := by
  rcases List.mem_append.mp h with h' | h'
  · exact Or.inl (mem_tFields _ _ h')
  · exact Or.inr (mem_pFields _ _ h')

theorem scanWf_tFields (t : OrpTime) : scanWf (tFields t) := by
  cases t with
  | invalid => trivial
  | dec s m =>
    refine ⟨?_, trivial⟩
    intro b hb
    rcases List.mem_append.mp hb with h | h
    · rcases List.mem_append.mp h with h' | h'
      · have := natToDigits_digits s b h'
        omega
      · simp at h'
        omega
    · have := pad6_digits m b h
      omega

theorem scanWf_pFields (P : Option (List Nat)) (h : ∀ p, P = some p → ∀ b ∈ p, b ≠ 44) :
    scanWf (pFields P) := by
  cases P with
  | none => trivial
  | some p => exact ⟨h p rfl, trivial⟩

theorem accAfter_time_at (base : Nat) (acc : ScanAcc) (xs ys : List VField) (s : List Nat)
    (h : ∀ q, VField.timeF q ∉ ys) :
    (accAfter base acc (xs ++ VField.timeF s :: ys)).timeIdx = some (nextBase base xs + 1) := by
  rw [accAfter_append]
  rw [show accAfter (nextBase base xs) (accAfter base acc xs) (VField.timeF s :: ys) =
    accAfter (nextBase base xs + (vfBytes (VField.timeF s)).length + 1)
      { accAfter base acc xs with timeIdx := some (nextBase base xs + 1) } ys from rfl]
  rw [accAfter_timeIdx ys h]

theorem accAfter_path_at (base : Nat) (acc : ScanAcc) (xs ys : List VField) (p : List Nat)
    (h : ∀ q, VField.pathF q ∉ ys) :
    (accAfter base acc (xs ++ VField.pathF p :: ys)).pathIdx = some (nextBase base xs + 1) := by
  rw [accAfter_append]
  rw [show accAfter (nextBase base xs) (accAfter base acc xs) (VField.pathF p :: ys) =
    accAfter (nextBase base xs + (vfBytes (VField.pathF p)).length + 1)
      { accAfter base acc xs with pathIdx := some (nextBase base xs + 1) } ys from rfl]
  rw [accAfter_pathIdx ys h]

theorem accAfter_data_at (base : Nat) (acc : ScanAcc) (xs : List VField) (d : List Nat) :
    (accAfter base acc (xs ++ [VField.dataF d])).dataIdx = some (nextBase base xs + 1) ∧
    (accAfter base acc (xs ++ [VField.dataF d])).dataLen = d.length := by
  rw [accAfter_append]
  exact ⟨rfl, rfl⟩

theorem accAfter_mtu_at (base : Nat) (acc : ScanAcc) (xs ys : List VField) (n : Nat)
    (h : ∀ m, VField.mtuF m ∉ ys) :
    (accAfter base acc (xs ++ VField.mtuF n :: ys)).mtu = toInt32 n := by
  rw [accAfter_append]
  rw [show accAfter (nextBase base xs) (accAfter base acc xs) (VField.mtuF n :: ys) =
    accAfter (nextBase base xs + (vfBytes (VField.mtuF n)).length + 1)
      { accAfter base acc xs with mtu := toInt32 n } ys from rfl]
  rw [accAfter_mtu ys h]

theorem accAfter_sent_at (base : Nat) (acc : ScanAcc) (xs ys : List VField) (n : Nat)
    (h : ∀ m, VField.sentF m ∉ ys) :
    (accAfter base acc (xs ++ VField.sentF n :: ys)).sentCount = toInt32 n := by
  rw [accAfter_append]
  rw [show accAfter (nextBase base xs) (accAfter base acc xs) (VField.sentF n :: ys) =
    accAfter (nextBase base xs + (vfBytes (VField.sentF n)).length + 1)
      { accAfter base acc xs with sentCount := toInt32 n } ys from rfl]
  rw [accAfter_sent ys h]

theorem accAfter_recv_at (base : Nat) (acc : ScanAcc) (xs ys : List VField) (n : Nat)
    (h : ∀ m, VField.recvF m ∉ ys) :
    (accAfter base acc (xs ++ VField.recvF n :: ys)).receivedCount = toInt32 n := by
  rw [accAfter_append]
  rw [show accAfter (nextBase base xs) (accAfter base acc xs) (VField.recvF n :: ys) =
    accAfter (nextBase base xs + (vfBytes (VField.recvF n)).length + 1)
      { accAfter base acc xs with receivedCount := toInt32 n } ys from rfl]
  rw [accAfter_recv ys h]

theorem cString_join_nb (H4 : List Nat) (xs ys : List VField) (f : VField)
    (idb : Nat) (content : List Nat)
    (hvf : vfBytes f = idb :: content) (hz : ∀ b ∈ content, b ≠ 0)
    (hH4 : H4.length = 4) :
    cString (H4 ++ joinFields 0 (xs ++ f :: ys) ++ [0]) (nextBase 4 xs + 1) = content := by
  apply cString_join H4 xs ys f idb content _ hvf hz
  unfold nextBase
  rw [joinFields_length_sep 44 0 xs, hH4]

theorem data_slice_nb (H4 : List Nat) (xs : List VField) (d : List Nat)
    (hH4 : H4.length = 4) :
    ((H4 ++ joinFields 0 (xs ++ [VField.dataF d]) ++ [0]).drop (nextBase 4 xs + 1)).take
      d.length = d := by
  apply data_slice
  unfold nextBase
  rw [joinFields_length_sep 44 0 xs, hH4]

/-- Encode a message, transmit exactly the written bytes (one byte `z`
of foreign receiver memory follows them), and decode. -/
def orp_EncodeThenDecode (len : Nat) (M : OrpMessage) (z : Nat) :
    Bool × OrpMessage × List Nat :=
  orp_ProtocolDecode_v1
    ((orp_ProtocolEncode_v1 len M).2.1.take (orp_ProtocolEncode_v1 len M).2.2.1 ++ [z])
    (orp_ProtocolEncode_v1 len M).2.2.1

/-- C2 (amended): encode followed by decode on a well-formed message
with enough room.  Both succeed; the packet type is preserved; the
byte-1 field selected by the type's mask (status, data type, version,
or event) is preserved; path, timestamp, data and the sync counters are
preserved; the unit field is never transmitted and decodes empty; and
the sequence number comes back byte-swapped (`seq % 256 * 256 + seq /
256`), not equal to the original.  The byte of receiver memory after
the packet (`z`) must not be an ASCII digit: a terminal sync counter is
parsed by `strtoul` before the NUL terminator is written, so a digit
there would change the decoded counter. -/
theorem orp_roundtrip_c2_amended (len : Nat) (M : OrpMessage) (e : Nat × Nat × Nat)
    (z : Nat)
    (he : e ∈ orp_PacketTypeTable) (het : e.2.1 = M.type)
    (hmz : e.2.2 &&& 3586 ≠ 0)
    (hst : e.2.2 &&& 512 ≠ 0 → -191 ≤ M.status ∧ M.status ≤ 64)
    (hdt : e.2.2 &&& 2 ≠ 0 → M.dataType = 0 ∨ M.dataType = 1 ∨ M.dataType = 2 ∨
      M.dataType = 3 ∨ M.dataType = 4 ∨ M.dataType = -1)
    (hev : e.2.2 &&& 2048 ≠ 0 → 0 ≤ M.status ∧ M.status ≤ 9)
    (hseq : M.sequenceNum < 65536)
    (htime : M.timestamp = OrpTime.invalid ∨ ∃ s m, M.timestamp = OrpTime.dec s m ∧
      s < 10000000000 ∧ m < 1000000)
    (hpath : M.path = none ∨ ∃ p, M.path = some p ∧ ∀ b ∈ p, b ≠ 44 ∧ b ≠ 0)
    (hdata : M.dataLen ≠ 0 → ¬(M.type = 13 ∨ M.type = 14) ∧
      ∃ d, M.data = some d ∧ M.dataLen = d.length)
    (hsyncv : M.type = 13 ∨ M.type = 14 →
      M.mtu < 2147483648 ∧ M.sentCount < 2147483648 ∧ M.receivedCount < 2147483648)
    (hroomPre : 4 + (joinFields 44 (preFields M)).length + 1 ≤ len)
    (hroomData : M.dataLen ≠ 0 → dataIdxA M + 2 ≤ len)
    (hroomSync : M.type = 13 ∨ M.type = 14 →
      4 + (joinFields 44 (fieldsOf len M)).length + 1 ≤ len)
    (hz : ¬(48 ≤ z ∧ z ≤ 57)) :
    (orp_ProtocolEncode_v1 len M).1 = true ∧
    (orp_EncodeThenDecode len M z).1 = true ∧
    (orp_EncodeThenDecode len M z).2.1.type = M.type ∧
    (orp_EncodeThenDecode len M z).2.1.sequenceNum =
      M.sequenceNum % 256 * 256 + M.sequenceNum / 256 ∧
    (e.2.2 &&& 512 ≠ 0 → (orp_EncodeThenDecode len M z).2.1.status = M.status) ∧
    (e.2.2 &&& 512 = 0 → e.2.2 &&& 2 ≠ 0 →
      (orp_EncodeThenDecode len M z).2.1.dataType = M.dataType) ∧
    (e.2.2 &&& 512 = 0 → e.2.2 &&& 2 = 0 → e.2.2 &&& 1024 ≠ 0 →
      (orp_EncodeThenDecode len M z).2.1.version = 1) ∧
    (e.2.2 &&& 512 = 0 → e.2.2 &&& 2 = 0 → e.2.2 &&& 1024 = 0 → e.2.2 &&& 2048 ≠ 0 →
      (orp_EncodeThenDecode len M z).2.1.status = M.status) ∧
    (orp_EncodeThenDecode len M z).2.1.timestamp =
      (match M.timestamp with
        | OrpTime.invalid => OrpTime.dec 0 0
        | OrpTime.dec s m => OrpTime.dec s m) ∧
    (orp_EncodeThenDecode len M z).2.1.path = some (M.path.getD []) ∧
    (orp_EncodeThenDecode len M z).2.1.unit = some [] ∧
    (orp_EncodeThenDecode len M z).2.1.data =
      (if M.dataLen = 0 then none else some ((M.data.getD []).take (dataK len M))) ∧
    (orp_EncodeThenDecode len M z).2.1.dataLen =
      (if M.dataLen = 0 then 0 else dataK len M) ∧
    (orp_EncodeThenDecode len M z).2.1.mtu =
      (if (M.type = 13 ∨ M.type = 14) ∧ 0 ≤ M.mtu then M.mtu else 0) ∧
    (orp_EncodeThenDecode len M z).2.1.sentCount =
      (if (M.type = 13 ∨ M.type = 14) ∧ 0 ≤ M.sentCount then M.sentCount else 0) ∧
    (orp_EncodeThenDecode len M z).2.1.receivedCount =
      (if (M.type = 13 ∨ M.type = 14) ∧ 0 ≤ M.receivedCount then M.receivedCount else 0) := by
  have hdt' : (orp_DataTypeEncode M.dataType).isSome = true ∨ e.2.2 &&& 2 = 0 := by
    by_cases h2 : e.2.2 &&& 2 = 0
    · exact Or.inr h2
    · obtain ⟨b, hbe, _⟩ := dataType_roundtrip M.dataType (hdt h2)
      exact Or.inl (by rw [hbe]; rfl)
  have hevs' : (orp_EnumEncode M.status).isSome = true ∨ e.2.2 &&& 2048 = 0 := by
    by_cases h2048 : e.2.2 &&& 2048 = 0
    · exact Or.inr h2048
    · obtain ⟨b, hbe, _⟩ := event_roundtrip M.status (hev h2048).1 (hev h2048).2
      exact Or.inl (by rw [hbe]; rfl)
  obtain ⟨hE1, hEbuf, hEidx⟩ :=
    encode_shape len M e he het hmz hdt' hevs' hdata hroomPre hroomData hroomSync
  have htake : (canonBuf len (headerOf M e.1) (fieldsOf len M)).take
      (4 + (joinFields 44 (fieldsOf len M)).length) =
      [e.1, byte1Val M, M.sequenceNum &&& 255, (M.sequenceNum &&& 65280) >>> 8] ++
        joinFields 44 (fieldsOf len M) := by
    rw [show (4 : Nat) + (joinFields 44 (fieldsOf len M)).length =
      ([e.1, byte1Val M, M.sequenceNum &&& 255, (M.sequenceNum &&& 65280) >>> 8] ++
        joinFields 44 (fieldsOf len M)).length from by simp; omega]
    rw [show canonBuf len (headerOf M e.1) (fieldsOf len M) =
      ([e.1, byte1Val M, M.sequenceNum &&& 255, (M.sequenceNum &&& 65280) >>> 8] ++
        joinFields 44 (fieldsOf len M)) ++
        List.replicate (len - 4 - (joinFields 44 (fieldsOf len M)).length) 0 from by
      unfold canonBuf headerOf
      simp]
    exact List.take_left _ _
  have hwfSuf : scanWf (sufOf len M) := by
    unfold sufOf
    by_cases h13 : M.type = 13 ∨ M.type = 14
    · rw [if_pos h13]
      obtain ⟨hm1, hm2, hm3⟩ := hsyncv h13
      have hS1 : scanWf (nFields VField.mtuF M.mtu) := by
        unfold nFields
        split
        · exact ⟨by omega, trivial⟩
        · trivial
      have hS2 : scanWf (nFields VField.sentF M.sentCount) := by
        unfold nFields
        split
        · exact ⟨by omega, trivial⟩
        · trivial
      have hS3 : scanWf (nFields VField.recvF M.receivedCount) := by
        unfold nFields
        split
        · exact ⟨by omega, trivial⟩
        · trivial
      refine scanWf_append _ _ hS3 ?_ (scanWf_append _ _ hS2 ?_ hS1)
      · intro d hd
        rcases List.mem_append.mp hd with h' | h'
        · have := mem_nFields _ _ _ h'
          simp at this
        · have := mem_nFields _ _ _ h'
          simp at this
      · intro d hd
        have := mem_nFields _ _ _ hd
        simp at this
    · rw [if_neg h13]
      by_cases hdl : M.dataLen ≠ 0
      · rw [if_pos hdl]
        exact ⟨rfl, trivial⟩
      · rw [if_neg hdl]
        trivial
  have hwfPre : scanWf (preFields M) := by
    unfold preFields
    refine scanWf_append _ _ (scanWf_pFields M.path ?_) ?_ (scanWf_tFields M.timestamp)
    · intro p hp b hb
      rcases hpath with hn | ⟨p', hp', hbp⟩
      · rw [hn] at hp
        exact absurd hp (by simp)
      · rw [hp'] at hp
        injection hp with hpe
        subst hpe
        exact (hbp b hb).1
    · intro d hd
      obtain ⟨s, hx⟩ := mem_tFields _ _ hd
      simp at hx
  have hwf : scanWf (fieldsOf len M) := by
    rw [fieldsOf_eq]
    refine scanWf_append _ _ hwfSuf ?_ hwfPre
    intro d hd
    rcases mem_preFields M _ hd with ⟨s, hx⟩ | ⟨p, hx⟩ <;> simp at hx
  have hT : orp_PacketTypeDecode e.1 = some M.type := by
    have h := packetTypeDecode_of_mem e he
    rw [het] at h
    exact h
  obtain ⟨msgB, hmB, hBt, hBseq, hBpath, hBunit, hBdata, hBdlen, hBts, hBmtu,
      hBsent, hBrecv, hB512, hB2, hB1024, hB2048⟩ :=
    byte1_roundtrip ([e.1, byte1Val M, M.sequenceNum &&& 255,
        (M.sequenceNum &&& 65280) >>> 8] ++ joinFields 44 (fieldsOf len M) ++ [z]) M
      { orp_MessageInInit with type := M.type } e he het rfl hmz rfl hst hdt hev
  have hDfull := decode_canon e.1 (byte1Val M) (M.sequenceNum &&& 255)
    ((M.sequenceNum &&& 65280) >>> 8) z M.type msgB (fieldsOf len M) hT hmB hwf
    (fun n hn => strtoul_digits_nd n z hn hz)
  have hDeq : orp_EncodeThenDecode len M z =
      orp_ProtocolDecode_v1 ([e.1, byte1Val M, M.sequenceNum &&& 255,
        (M.sequenceNum &&& 65280) >>> 8] ++ joinFields 44 (fieldsOf len M) ++ [z])
        (4 + (joinFields 44 (fieldsOf len M)).length) := by
    unfold orp_EncodeThenDecode
    rw [hEbuf, hEidx, htake]
  have hTY : msgB.type = M.type := hBt.trans rfl
  have hSEQ := seq_decode_encode M.sequenceNum hseq
  have hUN : (accAfter 4 scanAccInit (fieldsOf len M)).unitIdx = none :=
    (accAfter_unitIdx _ 4 scanAccInit).trans rfl
  have hPIX : ((accAfter 4 scanAccInit (fieldsOf len M)).pathIdx = none ∧ M.path = none) ∨
      (∃ p, M.path = some p ∧
        (accAfter 4 scanAccInit (fieldsOf len M)).pathIdx =
          some (nextBase 4 (tFields M.timestamp) + 1) ∧
        cString ([e.1, byte1Val M, M.sequenceNum &&& 255,
          (M.sequenceNum &&& 65280) >>> 8] ++ joinFields 0 (fieldsOf len M) ++ [0])
          (nextBase 4 (tFields M.timestamp) + 1) = p) := by
    rcases hpath with hn | ⟨p, hp, hbp⟩
    · left
      refine ⟨?_, hn⟩
      have hnoP : ∀ q, VField.pathF q ∉ fieldsOf len M := by
        intro q hq
        rw [fieldsOf_eq] at hq
        rcases List.mem_append.mp hq with h' | h'
        · unfold preFields at h'
          rw [hn] at h'
          simp [pFields] at h'
          obtain ⟨s, hx⟩ := mem_tFields _ _ h'
          simp at hx
        · rcases mem_sufOf len M _ h' with ⟨n, hx⟩ | ⟨n, hx⟩ | ⟨n, hx⟩ | ⟨d, hx⟩ <;>
            simp at hx
      exact (accAfter_pathIdx _ hnoP 4 scanAccInit).trans rfl
    · right
      have hffP : fieldsOf len M =
          tFields M.timestamp ++ (VField.pathF p :: sufOf len M) := by
        rw [fieldsOf_eq]
        unfold preFields
        rw [hp]
        simp [pFields]
      have hnoPs : ∀ q, VField.pathF q ∉ sufOf len M := by
        intro q hq
        rcases mem_sufOf len M _ hq with ⟨n, hx⟩ | ⟨n, hx⟩ | ⟨n, hx⟩ | ⟨d, hx⟩ <;>
          simp at hx
      refine ⟨p, hp, ?_, ?_⟩
      · rw [hffP]
        exact accAfter_path_at 4 scanAccInit _ _ p hnoPs
      · rw [hffP]
        exact cString_join_nb _ (tFields M.timestamp) (sufOf len M) (VField.pathF p) 80 p
          rfl (fun b hb => (hbp b hb).2) rfl
  have hDIX : ((accAfter 4 scanAccInit (fieldsOf len M)).dataIdx = none ∧
        (accAfter 4 scanAccInit (fieldsOf len M)).dataLen = 0 ∧ M.dataLen = 0) ∨
      (¬ M.dataLen = 0 ∧
        (accAfter 4 scanAccInit (fieldsOf len M)).dataIdx =
          some (nextBase 4 (preFields M) + 1) ∧
        (accAfter 4 scanAccInit (fieldsOf len M)).dataLen = dataK len M ∧
        ((([e.1, byte1Val M, M.sequenceNum &&& 255, (M.sequenceNum &&& 65280) >>> 8] ++
            joinFields 0 (fieldsOf len M) ++ [0]).drop
            (nextBase 4 (preFields M) + 1)).take (dataK len M) =
          (M.data.getD []).take (dataK len M))) := by
    by_cases hdl : M.dataLen = 0
    · left
      have hnoD : ∀ d, VField.dataF d ∉ fieldsOf len M := by
        intro d hd
        rw [fieldsOf_eq] at hd
        rcases List.mem_append.mp hd with h' | h'
        · rcases mem_preFields M _ h' with ⟨s, hx⟩ | ⟨p', hx⟩ <;> simp at hx
        · unfold sufOf at h'
          by_cases h13 : M.type = 13 ∨ M.type = 14
          · rw [if_pos h13] at h'
            rcases List.mem_append.mp h' with h'' | h''
            · rcases List.mem_append.mp h'' with h3 | h3
              · have := mem_nFields _ _ _ h3
                simp at this
              · have := mem_nFields _ _ _ h3
                simp at this
            · have := mem_nFields _ _ _ h''
              simp at this
          · rw [if_neg h13, if_neg (by omega)] at h'
            simp at h'
      obtain ⟨h1, h2⟩ := accAfter_dataIdx _ hnoD 4 scanAccInit
      exact ⟨h1.trans rfl, h2.trans rfl, hdl⟩
    · right
      obtain ⟨h13n, d0, hd0, hlen0⟩ := hdata hdl
      have hffD : fieldsOf len M =
          preFields M ++ [VField.dataF ((M.data.getD []).take (dataK len M))] := by
        rw [fieldsOf_eq]
        unfold sufOf
        rw [if_neg h13n, if_pos hdl]
      have hdd : ((M.data.getD []).take (dataK len M)).length = dataK len M := by
        rw [hd0]
        simp [List.length_take]
        unfold dataK
        omega
      obtain ⟨h1, h2⟩ := accAfter_data_at 4 scanAccInit (preFields M)
        ((M.data.getD []).take (dataK len M))
      refine ⟨hdl, ?_, ?_, ?_⟩
      · rw [hffD]
        exact h1
      · rw [hffD, h2]
        exact hdd
      · have hsl := data_slice_nb ([e.1, byte1Val M, M.sequenceNum &&& 255,
          (M.sequenceNum &&& 65280) >>> 8]) (preFields M)
          ((M.data.getD []).take (dataK len M)) rfl
        rw [hdd] at hsl
        rw [hffD]
        exact hsl
  have hTIX : ((accAfter 4 scanAccInit (fieldsOf len M)).timeIdx = none ∧
        M.timestamp = OrpTime.invalid) ∨
      (∃ s m, M.timestamp = OrpTime.dec s m ∧
        (accAfter 4 scanAccInit (fieldsOf len M)).timeIdx = some (nextBase 4 [] + 1) ∧
        orp_TimeDecode (cString ([e.1, byte1Val M, M.sequenceNum &&& 255,
            (M.sequenceNum &&& 65280) >>> 8] ++ joinFields 0 (fieldsOf len M) ++ [0])
          (nextBase 4 [] + 1)) = some (OrpTime.dec s m)) := by
    rcases htime with hinv | ⟨s, m, hdec, hs, hm⟩
    · left
      refine ⟨?_, hinv⟩
      have hnoT : ∀ q, VField.timeF q ∉ fieldsOf len M := by
        intro q hq
        rw [fieldsOf_eq] at hq
        rcases List.mem_append.mp hq with h' | h'
        · unfold preFields at h'
          rw [hinv] at h'
          simp [tFields] at h'
          obtain ⟨p, hx⟩ := mem_pFields _ _ h'
          simp at hx
        · rcases mem_sufOf len M _ h' with ⟨n, hx⟩ | ⟨n, hx⟩ | ⟨n, hx⟩ | ⟨d, hx⟩ <;>
            simp at hx
      exact (accAfter_timeIdx _ hnoT 4 scanAccInit).trans rfl
    · right
      have hffT : fieldsOf len M =
          VField.timeF (natToDigits s ++ [46] ++ pad6 m) ::
            (pFields M.path ++ sufOf len M) := by
        rw [fieldsOf_eq]
        unfold preFields
        rw [hdec]
        simp [tFields]
      have hnoTr : ∀ q, VField.timeF q ∉ pFields M.path ++ sufOf len M := by
        intro q hq
        rcases List.mem_append.mp hq with h' | h'
        · obtain ⟨p, hx⟩ := mem_pFields _ _ h'
          simp at hx
        · rcases mem_sufOf len M _ h' with ⟨n, hx⟩ | ⟨n, hx⟩ | ⟨n, hx⟩ | ⟨d, hx⟩ <;>
            simp at hx
      refine ⟨s, m, hdec, ?_, ?_⟩
      · rw [hffT]
        exact accAfter_time_at 4 scanAccInit [] _ _ hnoTr
      · have hcs : cString ([e.1, byte1Val M, M.sequenceNum &&& 255,
            (M.sequenceNum &&& 65280) >>> 8] ++ joinFields 0 (fieldsOf len M) ++ [0])
            (nextBase 4 [] + 1) = natToDigits s ++ [46] ++ pad6 m := by
          rw [hffT]
          exact cString_join_nb _ [] (pFields M.path ++ sufOf len M)
            (VField.timeF (natToDigits s ++ [46] ++ pad6 m)) 84 _ rfl
            (fun b hb => by
              rcases List.mem_append.mp hb with h' | h'
              · rcases List.mem_append.mp h' with h'' | h''
                · have := natToDigits_digits s b h''
                  omega
                · simp at h''
                  omega
              · have := pad6_digits m b h'
                omega) rfl
        rw [hcs]
        rw [show natToDigits s ++ [46] ++ pad6 m = natToDigits s ++ 46 :: pad6 m from
          by simp]
        exact timeDecode_render s m hs hm
  have hnoM13 : ¬ (M.type = 13 ∨ M.type = 14) → ∀ q, VField.mtuF q ∉ fieldsOf len M ∧
      VField.sentF q ∉ fieldsOf len M ∧ VField.recvF q ∉ fieldsOf len M := by
    intro h13 q
    refine ⟨?_, ?_, ?_⟩ <;>
      · intro hq
        rw [fieldsOf_eq] at hq
        rcases List.mem_append.mp hq with h' | h'
        · rcases mem_preFields M _ h' with ⟨s, hx⟩ | ⟨p', hx⟩ <;> simp at hx
        · unfold sufOf at h'
          rw [if_neg h13] at h'
          by_cases hdl : M.dataLen ≠ 0
          · rw [if_pos hdl] at h'
            simp at h'
          · rw [if_neg hdl] at h'
            simp at h'
  have hMTUv : (accAfter 4 scanAccInit (fieldsOf len M)).mtu =
      (if (M.type = 13 ∨ M.type = 14) ∧ 0 ≤ M.mtu then M.mtu else 0) := by
    by_cases h13 : M.type = 13 ∨ M.type = 14
    · by_cases hm0 : 0 ≤ M.mtu
      · rw [if_pos ⟨h13, hm0⟩]
        have hnf : nFields VField.mtuF M.mtu = [VField.mtuF M.mtu.toNat] := by
          unfold nFields
          rw [if_pos hm0]
        have hffM : fieldsOf len M = preFields M ++ (VField.mtuF M.mtu.toNat ::
            (nFields VField.sentF M.sentCount ++ nFields VField.recvF M.receivedCount)) := by
          rw [fieldsOf_eq]
          unfold sufOf
          rw [if_pos h13, hnf]
          simp
        rw [hffM]
        rw [accAfter_mtu_at 4 scanAccInit _ _ _ (fun q hq => by
          rcases List.mem_append.mp hq with h' | h'
          · have := mem_nFields _ _ _ h'
            simp at this
          · have := mem_nFields _ _ _ h'
            simp at this)]
        exact toInt32_of_lt M.mtu hm0 (hsyncv h13).1
      · rw [if_neg (fun h => hm0 h.2)]
        have hnoM : ∀ q, VField.mtuF q ∉ fieldsOf len M := by
          intro q hq
          rw [fieldsOf_eq] at hq
          rcases List.mem_append.mp hq with h' | h'
          · rcases mem_preFields M _ h' with ⟨s, hx⟩ | ⟨p', hx⟩ <;> simp at hx
          · unfold sufOf at h'
            rw [if_pos h13] at h'
            rcases List.mem_append.mp h' with h'' | h''
            · rcases List.mem_append.mp h'' with h3 | h3
              · unfold nFields at h3
                rw [if_neg hm0] at h3
                simp at h3
              · have := mem_nFields _ _ _ h3
                simp at this
            · have := mem_nFields _ _ _ h''
              simp at this
        exact (accAfter_mtu _ hnoM 4 scanAccInit).trans rfl
    · rw [if_neg (fun h => h13 h.1)]
      exact (accAfter_mtu _ (fun q => (hnoM13 h13 q).1) 4 scanAccInit).trans rfl
  have hSENTv : (accAfter 4 scanAccInit (fieldsOf len M)).sentCount =
      (if (M.type = 13 ∨ M.type = 14) ∧ 0 ≤ M.sentCount then M.sentCount else 0) := by
    by_cases h13 : M.type = 13 ∨ M.type = 14
    · by_cases hm0 : 0 ≤ M.sentCount
      · rw [if_pos ⟨h13, hm0⟩]
        have hnf : nFields VField.sentF M.sentCount = [VField.sentF M.sentCount.toNat] := by
          unfold nFields
          rw [if_pos hm0]
        have hffM : fieldsOf len M = (preFields M ++ nFields VField.mtuF M.mtu) ++
            (VField.sentF M.sentCount.toNat :: nFields VField.recvF M.receivedCount) := by
          rw [fieldsOf_eq]
          unfold sufOf
          rw [if_pos h13, hnf]
          simp
        rw [hffM]
        rw [accAfter_sent_at 4 scanAccInit _ _ _ (fun q hq => by
          have := mem_nFields _ _ _ hq
          simp at this)]
        exact toInt32_of_lt M.sentCount hm0 (hsyncv h13).2.1
      · rw [if_neg (fun h => hm0 h.2)]
        have hnoM : ∀ q, VField.sentF q ∉ fieldsOf len M := by
          intro q hq
          rw [fieldsOf_eq] at hq
          rcases List.mem_append.mp hq with h' | h'
          · rcases mem_preFields M _ h' with ⟨s, hx⟩ | ⟨p', hx⟩ <;> simp at hx
          · unfold sufOf at h'
            rw [if_pos h13] at h'
            rcases List.mem_append.mp h' with h'' | h''
            · rcases List.mem_append.mp h'' with h3 | h3
              · have := mem_nFields _ _ _ h3
                simp at this
              · unfold nFields at h3
                rw [if_neg hm0] at h3
                simp at h3
            · have := mem_nFields _ _ _ h''
              simp at this
        exact (accAfter_sent _ hnoM 4 scanAccInit).trans rfl
    · rw [if_neg (fun h => h13 h.1)]
      exact (accAfter_sent _ (fun q => (hnoM13 h13 q).2.1) 4 scanAccInit).trans rfl
  have hRECVv : (accAfter 4 scanAccInit (fieldsOf len M)).receivedCount =
      (if (M.type = 13 ∨ M.type = 14) ∧ 0 ≤ M.receivedCount then M.receivedCount
        else 0) := by
    by_cases h13 : M.type = 13 ∨ M.type = 14
    · by_cases hm0 : 0 ≤ M.receivedCount
      · rw [if_pos ⟨h13, hm0⟩]
        have hnf : nFields VField.recvF M.receivedCount =
            [VField.recvF M.receivedCount.toNat] := by
          unfold nFields
          rw [if_pos hm0]
        have hffM : fieldsOf len M = (preFields M ++ (nFields VField.mtuF M.mtu ++
            nFields VField.sentF M.sentCount)) ++
            (VField.recvF M.receivedCount.toNat :: []) := by
          rw [fieldsOf_eq]
          unfold sufOf
          rw [if_pos h13, hnf]
          simp
        rw [hffM]
        rw [accAfter_recv_at 4 scanAccInit _ _ _ (fun q hq => by simp at hq)]
        exact toInt32_of_lt M.receivedCount hm0 (hsyncv h13).2.2
      · rw [if_neg (fun h => hm0 h.2)]
        have hnoM : ∀ q, VField.recvF q ∉ fieldsOf len M := by
          intro q hq
          rw [fieldsOf_eq] at hq
          rcases List.mem_append.mp hq with h' | h'
          · rcases mem_preFields M _ h' with ⟨s, hx⟩ | ⟨p', hx⟩ <;> simp at hx
          · unfold sufOf at h'
            rw [if_pos h13] at h'
            rcases List.mem_append.mp h' with h'' | h''
            · rcases List.mem_append.mp h'' with h3 | h3
              · have := mem_nFields _ _ _ h3
                simp at this
              · have := mem_nFields _ _ _ h3
                simp at this
            · unfold nFields at h''
              rw [if_neg hm0] at h''
              simp at h''
        exact (accAfter_recv _ hnoM 4 scanAccInit).trans rfl
    · rw [if_neg (fun h => h13 h.1)]
      exact (accAfter_recv _ (fun q => (hnoM13 h13 q).2.2) 4 scanAccInit).trans rfl
  refine ⟨hE1, ?_⟩
  rw [hDeq, hDfull]
  rcases hTIX with ⟨htn, htinv⟩ | ⟨s, m, hdec, hti, htd⟩
  · simp only [htn]
    refine ⟨trivial, hTY, hSEQ, hB512, hB2, hB1024, hB2048, ?_, ?_, ?_, ?_, ?_,
      hMTUv, hSENTv, hRECVv⟩
    · rw [htinv]
      exact hBts.trans rfl
    · rcases hPIX with ⟨h1, h2⟩ | ⟨p, hp1, hp3, hp4⟩
      · simp [h1, h2]
      · simp only [hp3, hp1]
        rw [hp4]
        rfl
    · simp only [hUN]
    · rcases hDIX with ⟨h1, h2, h3⟩ | ⟨h0, h1, h2, h3⟩
      · simp [h1, h3]
      · simp only [h1, h2]
        rw [if_neg h0]
        exact congrArg some h3
    · rcases hDIX with ⟨h1, h2, h3⟩ | ⟨h0, h1, h2, h3⟩
      · simp [h2, h3]
      · rw [h2, if_neg h0]
  · simp only [hti, htd]
    refine ⟨trivial, hTY, hSEQ, hB512, hB2, hB1024, hB2048, ?_, ?_, ?_, ?_, ?_,
      hMTUv, hSENTv, hRECVv⟩
    · rw [hdec]
    · rcases hPIX with ⟨h1, h2⟩ | ⟨p, hp1, hp3, hp4⟩
      · simp [h1, h2]
      · simp only [hp3, hp1]
        rw [hp4]
        rfl
    · simp only [hUN]
    · rcases hDIX with ⟨h1, h2, h3⟩ | ⟨h0, h1, h2, h3⟩
      · simp [h1, h3]
      · simp only [h1, h2]
        rw [if_neg h0]
        exact congrArg some h3
    · rcases hDIX with ⟨h1, h2, h3⟩ | ⟨h0, h1, h2, h3⟩
      · simp [h2, h3]
      · rw [h2, if_neg h0]

/-- Witness message: a PUSH request with sequence number 0x1234,
timestamp 12.5, path "/a" and the three data bytes "123". -/
def msgC2W : OrpMessage := { orp_MessageInit 6 0 with dataType := 2, sequenceNum := 4660, timestamp := OrpTime.dec 12 500000, path := some [47, 97], data := some [49, 50, 51], dataLen := 3 }

theorem orp_roundtrip_c2_amended_witness :
    (orp_ProtocolEncode_v1 64 msgC2W).1 = true ∧
    (orp_EncodeThenDecode 64 msgC2W 99).1 = true ∧
    (orp_EncodeThenDecode 64 msgC2W 99).2.1.type = 6 ∧
    (orp_EncodeThenDecode 64 msgC2W 99).2.1.sequenceNum = 13330 ∧
    (orp_EncodeThenDecode 64 msgC2W 99).2.1.dataType = 2 ∧
    (orp_EncodeThenDecode 64 msgC2W 99).2.1.timestamp = OrpTime.dec 12 500000 ∧
    (orp_EncodeThenDecode 64 msgC2W 99).2.1.path = some [47, 97] ∧
    (orp_EncodeThenDecode 64 msgC2W 99).2.1.unit = some [] ∧
    (orp_EncodeThenDecode 64 msgC2W 99).2.1.data = some [49, 50, 51] ∧
    (orp_EncodeThenDecode 64 msgC2W 99).2.1.dataLen = 3 := by
  obtain ⟨h1, h2, h3, h4, h5, h6, h7, h8, h9, h10, h11, h12, h13, h14, h15, h16⟩ :=
    orp_roundtrip_c2_amended 64 msgC2W (80, 6, ORP_MASK_DATA_TYPE ||| ORP_MASK_PATH) 99
      (by decide) rfl (by decide) (by decide) (by decide) (by decide) (by decide)
      (Or.inr ⟨12, 500000, rfl, by decide, by decide⟩)
      (Or.inr ⟨[47, 97], rfl, by decide⟩)
      (fun _ => ⟨by decide, [49, 50, 51], rfl, rfl⟩)
      (by decide) (by decide) (fun _ => by decide) (by decide) (by decide)
  exact ⟨h1, h2, h3.trans rfl, h4.trans rfl, (h6 (by decide) (by decide)).trans rfl,
    h9.trans rfl, h10.trans rfl, h11, h12.trans rfl, h13.trans rfl⟩

/-- A SYN packet whose only sync counter is `receivedCount = 9`: the
encoder emits `R9` as the last field. -/
def msgSyn : OrpMessage := { orp_MessageInit 13 0 with receivedCount := 9 }

/-- The scan's `strtoul` runs before the NUL terminator is written at
`pktLen`: when the byte of receiver memory after the packet is the
digit `'5'`, the terminal counter `R9` parses as 95; a non-digit byte
leaves it 9.  This is why `orp_roundtrip_c2_amended` requires the
trailing byte not to be a digit. -/
theorem orp_sync_counter_reads_past_end :
    (orp_EncodeThenDecode 32 msgSyn 53).2.1.receivedCount = 95 ∧
    (orp_EncodeThenDecode 32 msgSyn 48).2.1.receivedCount = 90 ∧
    (orp_EncodeThenDecode 32 msgSyn 99).2.1.receivedCount = 9 := by
  decide
